import Mathlib

/-!
Verification development for the Dialogflow ⇄ Jovo model converter
(`JovoModelDialogflow` with its static methods `toJovoModel`,
`fromJovoModel`, `skipDefaultIntentProps`, `skipDefaultEntityProps`).

Modelling conventions
* JavaScript objects become structures whose fields are `Option`-typed;
  a JSON value that is absent is `none`.  A key that is present with the
  value `undefined` is identified with an absent key (the code never
  distinguishes the two observationally in the translated paths).
* JavaScript exceptions (`throw new Error`, `TypeError` from iterating or
  dereferencing `undefined`) become `Except String`.
* The two `uuidv4()` call sites are modelled by an explicit generator
  `gen : Nat → String` threaded as a counter, in source call order.
* `lodash` helpers are translated at their call sites: `_get` with a
  default is `Option.getD`, `_set` on a nested path creates the missing
  intermediate objects, `_difference l []` is `l` (and `[]` when `l` is
  absent), `_isEqual` is structural equality, `_merge` is a deep merge in
  which defined source fields override and lists merge index-wise.
* Truthiness: an absent value and the empty string are falsy; every
  object and array (including the empty array) is truthy.
-/

/-- JS-object assignment `m[k] = v`: overwrite in place, else append. -/
def alSet {α : Type} (l : List (String × α)) (k : String) (v : α) : List (String × α) :=
  match l with
  | [] => [(k, v)]
  | (k', v') :: t => if k' = k then (k, v) :: t else (k', v') :: alSet t k v

/-- JS-object lookup `m[k]`. -/
def alGet {α : Type} (l : List (String × α)) (k : String) : Option α :=
  match l with
  | [] => none
  | (k', v) :: t => if k' = k then some v else alGet t k

/-- JS truthiness of a possibly-absent string (empty string is falsy). -/
def strTruthy (s : Option String) : Bool :=
  match s with
  | some s => s ≠ ""
  | none => false

/-- JS truthiness of a possibly-absent boolean. -/
def boolTruthy (b : Option Bool) : Bool :=
  match b with
  | some b => b
  | none => false

/-- `hay.indexOf(needle) > -1` on strings. -/
def hasSubstr (hay needle : String) : Bool :=
  (List.range (hay.toList.length + 1)).any fun i =>
    needle.toList.isPrefixOf (hay.toList.drop i)

/-- `str.startsWith(p)` (stated on the character lists so that it
    evaluates by kernel reduction). -/
def strStartsWith (s p : String) : Bool :=
  p.toList.isPrefixOf s.toList

/-- `str.substr(a, b - a)` as a character-list slice. -/
def listSlice (cs : List Char) (a b : Nat) : List Char :=
  (cs.drop a).take (b - a)

/- ## Native (Dialogflow) file shapes -/

/-- An element of an intent's `events` array. -/
structure DFEvent where
  name : Option String := none
  deriving DecidableEq, Repr

/-- An element of `responses[0].messages`. -/
structure DFMessage where
  lang : Option String := none
  speech : Option String := none
  deriving DecidableEq, Repr

/-- An element of a response's `parameters` array
    (`DialogflowLMInputParameterObject`, all fields runtime-optional). -/
structure DFParameter where
  name : Option String := none
  isList : Option Bool := none
  value : Option String := none
  dataType : Option String := none
  deriving DecidableEq, Repr

/-- A member of an intent's `responses` array. -/
structure DFResponse where
  resetContexts : Option Bool := none
  affectedContexts : Option (List String) := none
  parameters : Option (List DFParameter) := none
  defaultResponsePlatforms : Option (List (String × Bool)) := none
  messages : Option (List DFMessage) := none
  speech : Option (List String) := none
  deriving DecidableEq, Repr

/-- A JSON object appearing as the content of a primary file: the union of
    the fields the code reads off `DialogflowLMInputObject` (intent files)
    and `DialogflowLMEntity` (entity files).  Irrelevant fields read off a
    file of the other kind are simply absent, as in JS. -/
structure DFObjContent where
  id : Option String := none
  name : Option String := none
  auto : Option Bool := none
  contexts : Option (List String) := none
  priority : Option Int := none
  webhookUsed : Option Bool := none
  webhookForSlotFilling : Option Bool := none
  fallbackIntent : Option Bool := none
  events : Option (List DFEvent) := none
  responses : Option (List DFResponse) := none
  isOverridable : Option Bool := none
  isEnum : Option Bool := none
  automatedExpansion : Option Bool := none
  isRegexp : Option Bool := none
  allowFuzzyExtraction : Option Bool := none
  deriving DecidableEq, Repr

/-- One `data` element of a usersays record (`DialogflowLMIntentData`). -/
structure DFUSData where
  text : Option String := none
  userDefined : Option Bool := none
  «alias» : Option String := none
  meta : Option String := none
  deriving DecidableEq, Repr

/-- An element of a JSON-array file content: the union of the fields of a
    usersays record (`DialogflowLMIntent`) and of an entries record
    (`DialogflowLMEntries`). -/
structure DFArrItem where
  id : Option String := none
  data : Option (List DFUSData) := none
  isTemplate : Option Bool := none
  count : Option Int := none
  lang : Option String := none
  value : Option String := none
  synonyms : Option (List String) := none
  deriving DecidableEq, Repr

/-- Parsed JSON content of a native file: an object or an array. -/
inductive DFContent where
  | obj (o : DFObjContent)
  | arr (l : List DFArrItem)
  deriving DecidableEq, Repr

/-- `NativeFileInformation`. -/
structure NativeFile where
  path : List String
  content : DFContent
  deriving DecidableEq, Repr

/-- Reading intent/entity fields off a file content: a JS array has none of
    the named properties, so every field reads as `undefined`. -/
def contentAsObj (c : DFContent) : DFObjContent :=
  match c with
  | .obj o => o
  | .arr _ => {}

/- ## Canonical (Jovo) model shapes -/

/-- `IntentEntity.type`: either a bare type name or the vendor-qualified
    object form `\x7b dialogflow: ... \x7d`. -/
inductive IntentEntityTypeU where
  | str (s : String)
  | obj (dialogflow : Option String)
  deriving DecidableEq, Repr

/-- Vendor override carried on an `IntentEntity` (`entityData.dialogflow`),
    merged onto the generated parameter object on export. -/
structure DFParamPatch where
  name : Option String := none
  isList : Option Bool := none
  value : Option String := none
  dataType : Option String := none
  deriving DecidableEq, Repr

/-- `IntentEntity`. -/
structure IntentEntity where
  type : Option IntentEntityTypeU := none
  text : Option String := none
  dialogflow : Option DFParamPatch := none
  deriving DecidableEq, Repr

/-- The vendor escape-hatch sub-tree of an intent (also used for the
    records of `model.dialogflow.intents`). -/
structure DFIntentHatch where
  id : Option String := none
  name : Option String := none
  auto : Option Bool := none
  contexts : Option (List String) := none
  priority : Option Int := none
  webhookUsed : Option Bool := none
  webhookForSlotFilling : Option Bool := none
  fallbackIntent : Option Bool := none
  events : Option (List DFEvent) := none
  responses : Option (List DFResponse) := none
  userSays : Option (List DFArrItem) := none
  deriving DecidableEq, Repr

/-- Canonical `Intent`. -/
structure Intent where
  phrases : Option (List String) := none
  entities : Option (List (String × IntentEntity)) := none
  dialogflow : Option DFIntentHatch := none
  deriving DecidableEq, Repr

/-- Object form of an `EntityTypeValue`. -/
structure EntityTypeValueObj where
  value : Option String := none
  synonyms : Option (List String) := none
  deriving DecidableEq, Repr

/-- `EntityTypeValue`: the exporter distinguishes plain strings from
    object values (`typeof value === 'string'`). -/
inductive EntityTypeValueU where
  | str (s : String)
  | obj (v : EntityTypeValueObj)
  deriving DecidableEq, Repr

/-- Vendor escape hatch of an entity type, object form. -/
structure DFEntityPatch where
  id : Option String := none
  name : Option String := none
  isOverridable : Option Bool := none
  isEnum : Option Bool := none
  automatedExpansion : Option Bool := none
  isRegexp : Option Bool := none
  allowFuzzyExtraction : Option Bool := none
  deriving DecidableEq, Repr

/-- Vendor escape hatch of an entity type: a bare rename string or an
    object deep-merged onto the generated native entity record. -/
inductive EntityTypeDF where
  | s (v : String)
  | patch (p : DFEntityPatch)
  deriving DecidableEq, Repr

/-- Canonical `EntityType`. -/
structure EntityType where
  values : Option (List EntityTypeValueU) := none
  dialogflow : Option EntityTypeDF := none
  deriving DecidableEq, Repr

/-- A record of `model.dialogflow.entities`. -/
structure DFEntityHatchRec where
  id : Option String := none
  name : Option String := none
  isOverridable : Option Bool := none
  isEnum : Option Bool := none
  automatedExpansion : Option Bool := none
  isRegexp : Option Bool := none
  allowFuzzyExtraction : Option Bool := none
  entries : Option (List DFArrItem) := none
  deriving DecidableEq, Repr

/-- The model-level vendor escape hatch `model.dialogflow`. -/
structure ModelHatch where
  intents : Option (List DFIntentHatch) := none
  entities : Option (List DFEntityHatchRec) := none
  deriving DecidableEq, Repr

/-- Canonical model, covering both schema versions through the accessor
    layer (see `JovoModelHelper` below); `isV3` discriminates the legacy
    shape. -/
structure JovoModelU where
  version : Option String := none
  invocation : Option String := none
  isV3 : Bool := false
  intents : Option (List (String × Intent)) := none
  entityTypes : Option (List (String × EntityType)) := none
  dialogflow : Option ModelHatch := none
  deriving DecidableEq, Repr

/- ## The accessor layer (`JovoModelHelper`), modelled from the spec -/

/-- Modelled from the spec: `JovoModelHelper.getIntents` — the accessor
    layer "reads/writes intents, entities, entity types irrespective of
    schema version" (§2); the helper itself lives in the `@jovotech/model`
    package, which is not under `src/`. -/
def JovoModelHelper.getIntents (m : JovoModelU) : List (String × Intent) :=
  m.intents.getD []

/-- Modelled from the spec: `JovoModelHelper.hasEntities` — existence check
    for an intent's entity declarations (§2, §9: "intent/entity lookup,
    existence checks"). -/
def JovoModelHelper.hasEntities (m : JovoModelU) (intentKey : String) : Bool :=
  match (alGet (JovoModelHelper.getIntents m) intentKey).bind (·.entities) with
  | some l => l ≠ []
  | none => false

/-- Modelled from the spec: `JovoModelHelper.getEntities`. -/
def JovoModelHelper.getEntities (m : JovoModelU) (intentKey : String) :
    List (String × IntentEntity) :=
  ((alGet (JovoModelHelper.getIntents m) intentKey).bind (·.entities)).getD []

/-- Modelled from the spec: `JovoModelHelper.hasEntityTypes` — true when the
    model declares an entity-type mapping at all (§7: "the mapping is
    entirely absent"). -/
def JovoModelHelper.hasEntityTypes (m : JovoModelU) : Bool :=
  m.entityTypes.isSome

/-- Modelled from the spec: `JovoModelHelper.getEntityTypeByName`. -/
def JovoModelHelper.getEntityTypeByName (m : JovoModelU) (name : String) :
    Option EntityType :=
  alGet (m.entityTypes.getD []) name

/-- Modelled from the spec: `JovoModelHelper.isJovoModelV3` — version
    discrimination (§9). -/
def JovoModelHelper.isJovoModelV3 (m : JovoModelU) : Bool :=
  m.isV3

/- ## Default tables -/

/-- The single member of `DEFAULT_INTENT.responses`. -/
def DEFAULT_RESPONSE : DFResponse :=
  { resetContexts := some false
    affectedContexts := some []
    parameters := some []
    defaultResponsePlatforms := some []
    messages := none
    speech := some [] }

/-- `DEFAULT_INTENT` (scalar fields; its `responses` is
    `[DEFAULT_RESPONSE]`). -/
structure DefaultIntentT where
  auto : Bool
  contexts : List String
  priority : Int
  webhookUsed : Bool
  webhookForSlotFilling : Bool
  fallbackIntent : Bool
  events : List DFEvent

def DEFAULT_INTENT : DefaultIntentT :=
  { auto := true
    contexts := []
    priority := 500000
    webhookUsed := false
    webhookForSlotFilling := false
    fallbackIntent := false
    events := [] }

/-- `DEFAULT_ENTITY`. -/
structure DefaultEntityT where
  isOverridable : Bool
  isEnum : Bool
  automatedExpansion : Bool
  isRegexp : Bool
  allowFuzzyExtraction : Bool

def DEFAULT_ENTITY : DefaultEntityT :=
  { isOverridable := true
    isEnum := false
    automatedExpansion := false
    isRegexp := false
    allowFuzzyExtraction := false }

/-- Modelled from the spec: the `DIALOGFLOW_LM_ENTITY` template imported
    from `./utils` (not under `src/`) — §4.2: the native entity record is
    "merged from the platform entity-default template", and §4.3 requires
    the default tables of import and export to agree. -/
def DIALOGFLOW_LM_ENTITY : DFObjContent :=
  { isOverridable := some true
    isEnum := some false
    automatedExpansion := some false
    isRegexp := some false
    allowFuzzyExtraction := some false }

/- ## skipDefaultIntentProps / skipDefaultEntityProps -/

/-- `_set(jovoIntent, 'dialogflow.<field>', v)`: creates the hatch object
    when absent. -/
def setHatch (i : Intent) (f : DFIntentHatch → DFIntentHatch) : Intent :=
  { i with dialogflow := some (f (i.dialogflow.getD {})) }

/-- `_set(jovoIntent, 'dialogflow.responses[0].<field>', v)`: creates the
    hatch, the `responses` array and its first element as needed. -/
def setHatchResp0 (i : Intent) (f : DFResponse → DFResponse) : Intent :=
  setHatch i fun h =>
    let rs := h.responses.getD []
    let r0 : DFResponse :=
      rs.head?.getD
        { resetContexts := none, affectedContexts := none, parameters := none
          defaultResponsePlatforms := none, messages := none, speech := none }
    { h with responses := some (f r0 :: rs.tail) }

/-- The per-field steps of `skipDefaultIntentProps`, in source order. -/
def sdAuto (o : DFObjContent) (ji : Intent) : Intent :=
  -- auto (no undefined-guard in the source)
  if o.auto ≠ some DEFAULT_INTENT.auto then
    setHatch ji (fun h => { h with auto := o.auto })
  else ji

def sdContexts (o : DFObjContent) (ji : Intent) : Intent :=
  -- contexts, via _difference(contexts, [])
  if (o.contexts.getD []) ≠ [] then
    setHatch ji (fun h => { h with contexts := o.contexts })
  else ji

def sdPriority (o : DFObjContent) (ji : Intent) : Intent :=
  match o.priority with
  | some p => if p ≠ DEFAULT_INTENT.priority then
      setHatch ji (fun h => { h with priority := some p }) else ji
  | none => ji

def sdWebhookUsed (o : DFObjContent) (ji : Intent) : Intent :=
  match o.webhookUsed with
  | some w => if w ≠ DEFAULT_INTENT.webhookUsed then
      setHatch ji (fun h => { h with webhookUsed := some w }) else ji
  | none => ji

def sdWebhookForSlotFilling (o : DFObjContent) (ji : Intent) : Intent :=
  match o.webhookForSlotFilling with
  | some w => if w ≠ DEFAULT_INTENT.webhookForSlotFilling then
      setHatch ji (fun h => { h with webhookForSlotFilling := some w }) else ji
  | none => ji

def sdFallbackIntent (o : DFObjContent) (ji : Intent) : Intent :=
  match o.fallbackIntent with
  | some w => if w ≠ DEFAULT_INTENT.fallbackIntent then
      setHatch ji (fun h => { h with fallbackIntent := some w }) else ji
  | none => ji

def sdEvents (o : DFObjContent) (ji : Intent) : Intent :=
  -- events, via _difference(events, [])
  if (o.events.getD []) ≠ [] then
    setHatch ji (fun h => { h with events := o.events })
  else ji

def sdResets (r0 : DFResponse) (ji : Intent) : Intent :=
  match r0.resetContexts with
  | some b => if b ≠ false then
      setHatchResp0 ji (fun r => { r with resetContexts := some b }) else ji
  | none => ji

def sdAffected (r0 : DFResponse) (ji : Intent) : Intent :=
  match r0.affectedContexts with
  | some l => if l ≠ [] then
      setHatchResp0 ji (fun r => { r with affectedContexts := some l }) else ji
  | none => ji

def sdDRP (r0 : DFResponse) (ji : Intent) : Intent :=
  match r0.defaultResponsePlatforms with
  | some l => if l ≠ [] then
      setHatchResp0 ji (fun r => { r with defaultResponsePlatforms := some l }) else ji
  | none => ji

def sdMessages (locale : String) (r0 : DFResponse) (ji : Intent) : Intent :=
  -- messages: the default has none, so any present list is inspected
  match r0.messages with
  | some msgs =>
    msgs.foldl (fun ji msg =>
      if msg.lang = some locale ∧ (msg.speech.getD "") ≠ "" then
        setHatchResp0 ji (fun r =>
          { r with messages := some ((r.messages.getD []) ++ [msg]) })
      else ji) ji
  | none => ji

def sdSpeech (r0 : DFResponse) (ji : Intent) : Intent :=
  match r0.speech with
  | some l => if l ≠ [] then
      setHatchResp0 ji (fun r => { r with speech := some l }) else ji
  | none => ji

def sdResponses (locale : String) (o : DFObjContent) (ji : Intent) : Intent :=
  -- responses: only inspected when present, non-empty and not byte-for-byte
  -- equal to the default template
  match o.responses with
  | none => ji
  | some rs =>
    if rs = [] then ji
    else if rs = [DEFAULT_RESPONSE] then ji
    else
      let r0 : DFResponse := rs.head?.getD {}
      sdSpeech r0 (sdMessages locale r0 (sdDRP r0 (sdAffected r0 (sdResets r0 ji))))

/-- `JovoModelDialogflow.skipDefaultIntentProps`, as the composition of the
    per-field steps in source order. -/
def skipDefaultIntentProps (jovoIntent : Intent) (o : DFObjContent)
    (locale : String) : Intent :=
  sdResponses locale o (sdEvents o (sdFallbackIntent o (sdWebhookForSlotFilling o
    (sdWebhookUsed o (sdPriority o (sdContexts o (sdAuto o jovoIntent)))))))

/-- `_set(jovoInput, 'dialogflow.<flag>', v)` on an entity type: starts from
    the empty object form when the hatch is absent. -/
def setEntityHatch (e : EntityType) (f : DFEntityPatch → DFEntityPatch) : EntityType :=
  let p := match e.dialogflow with
    | some (.patch p) => p
    | _ => {}
  { e with dialogflow := some (.patch (f p)) }

/-- `JovoModelDialogflow.skipDefaultEntityProps`. -/
def skipDefaultEntityProps (jovoInput : EntityType) (o : DFObjContent) : EntityType :=
  let je := if o.isOverridable ≠ some DEFAULT_ENTITY.isOverridable then
      setEntityHatch jovoInput (fun p => { p with isOverridable := o.isOverridable })
    else jovoInput
  let je := if o.isEnum ≠ some DEFAULT_ENTITY.isEnum then
      setEntityHatch je (fun p => { p with isEnum := o.isEnum })
    else je
  let je := if o.automatedExpansion ≠ some DEFAULT_ENTITY.automatedExpansion then
      setEntityHatch je (fun p => { p with automatedExpansion := o.automatedExpansion })
    else je
  let je := if o.isRegexp ≠ some DEFAULT_ENTITY.isRegexp then
      setEntityHatch je (fun p => { p with isRegexp := o.isRegexp })
    else je
  let je := if o.allowFuzzyExtraction ≠ some DEFAULT_ENTITY.allowFuzzyExtraction then
      setEntityHatch je (fun p => { p with allowFuzzyExtraction := o.allowFuzzyExtraction })
    else je
  je

/- ## Importer: `JovoModelDialogflow.toJovoModel` -/

/-- `file.path.length !== 0 && file.path[0] === 'intents'`. -/
def isIntentsFile (f : NativeFile) : Bool :=
  f.path.head? = some "intents"

/-- `file.path.length !== 0 && file.path[0] === 'entities'`. -/
def isEntitiesFile (f : NativeFile) : Bool :=
  f.path.head? = some "entities"

/-- One parameter of one response contributes one entity declaration when
    its `dataType` is truthy (source lines 120–131). -/
def entityFromParam (p : DFParameter) : Option (String × IntentEntity) :=
  match p.dataType with
  | some d =>
    if d ≠ "" then
      some (p.name.getD "undefined",
        { type := some (if strStartsWith d "@sys." then .obj (some d) else .str (d.drop 1))
          text := none, dialogflow := none })
    else none
  | none => none

/-- The entity declarations an intent file yields: every response's
    parameter list is scanned (source lines 118–134), assignments keyed by
    parameter name. -/
def entitiesFromResponses (rs : List DFResponse) : List (String × IntentEntity) :=
  rs.foldl (fun acc r =>
    (r.parameters.getD []).foldl (fun acc p =>
      match entityFromParam p with
      | some (k, e) => alSet acc k e
      | none => acc) acc) []

/-- One usersays `data` element: extends the phrase string and back-fills
    entity exemplar text (source lines 152–164). -/
def applyUSData (acc : String × Intent) (d : DFUSData) : String × Intent :=
  let (ph, ji) := acc
  let ph := ph ++ (if strTruthy d.«alias» then "\x7b" ++ d.«alias».getD "" ++ "\x7d"
                   else d.text.getD "undefined")
  let ji :=
    if d.text ≠ d.«alias» then
      match ji.entities with
      | some ents =>
        { ji with entities := some (ents.map (fun (k, ed) =>
            if some k = d.«alias» then (k, { ed with text := d.text }) else (k, ed))) }
      | none => ji
    else ji
  (ph, ji)

/-- One usersays record: throws when its `data` array is absent
    (source line 152 iterates `us.data`). -/
def applyUserSays (ji : Intent) (it : DFArrItem) : Except String Intent :=
  match it.data with
  | none => .error "TypeError: us.data is not iterable"
  | some ds =>
    let (ph, ji) := ds.foldl applyUSData ("", ji)
    .ok { ji with phrases := some ((ji.phrases.getD []) ++ [ph]) }

/-- Processing of one member of the intent-file pass (source lines 82–170).
    `all` is the full filtered intent-file list, searched for the usersays
    companion. -/
def processIntentFile (all : List NativeFile) (locale : String)
    (m : JovoModelU) (f : NativeFile) : Except String JovoModelU :=
  match f.path.get? 1 with
  | none => .error "TypeError: file is undefined"
  | some file =>
    if hasSubstr file "usersays" then .ok m
    else
      let o := contentAsObj f.content
      let ji : Intent := { phrases := some [], entities := none, dialogflow := none }
      let ji := skipDefaultIntentProps ji o locale
      if o.fallbackIntent = some true then
        match ji.dialogflow with
        | none => .error "TypeError: jovoIntent.dialogflow is undefined"
        | some h =>
          let fb := { h with name := o.name }
          .ok { m with dialogflow := some { (m.dialogflow.getD {}) with intents := some [fb] } }
      else if ((o.events.getD []).head?.bind (·.name)) = some "WELCOME" then
        match ji.dialogflow with
        | none => .error "TypeError: jovoIntent.dialogflow is undefined"
        | some h =>
          let w := { h with name := o.name }
          match m.dialogflow.bind (·.intents) with
          | none =>
            .ok { m with dialogflow := some { (m.dialogflow.getD {}) with intents := some [w] } }
          | some l =>
            .ok { m with dialogflow := some { (m.dialogflow.getD {}) with intents := some (l ++ [w]) } }
      else
        let ents := entitiesFromResponses (o.responses.getD [])
        let ji := if ents ≠ [] then { ji with entities := some ents } else ji
        let usName := (o.name.getD "undefined") ++ "_usersays_" ++ locale ++ ".json"
        let step : Except String Intent :=
          match all.find? (fun f2 => f2.path.get? 1 = some usName) with
          | none => .ok ji
          | some uf =>
            match uf.content with
            | .obj _ => .error "TypeError: userSays is not iterable"
            | .arr items => items.foldlM applyUserSays ji
        match step with
        | .error e => .error e
        | .ok ji =>
          .ok { m with intents := some (alSet (m.intents.getD []) (o.name.getD "undefined") ji) }

/-- One entry of an entries file (source lines 207–225). -/
def applyEntry (o : DFObjContent) (vals : List EntityTypeValueU) (it : DFArrItem) :
    Except String (List EntityTypeValueU) :=
  let v : EntityTypeValueObj := { value := it.value, synonyms := none }
  if ¬ boolTruthy o.isEnum ∧ ¬ boolTruthy o.isRegexp then
    match it.synonyms with
    | none => .error "TypeError: entry.synonyms is not iterable"
    | some syns =>
      let temp := syns.filter (fun s => some s ≠ it.value)
      let v := if temp ≠ [] then { v with synonyms := some temp } else v
      .ok (vals ++ [.obj v])
  else .ok (vals ++ [.obj v])

/-- Processing of one member of the entity-file pass (source lines
    184–229). -/
def processEntityFile (all : List NativeFile) (locale : String)
    (m : JovoModelU) (f : NativeFile) : Except String JovoModelU :=
  match f.path.get? 1 with
  | none => .error "TypeError: file is undefined"
  | some file =>
    if hasSubstr file "entries" then .ok m
    else
      let o := contentAsObj f.content
      let je : EntityType := { values := some [], dialogflow := none }
      let je := skipDefaultEntityProps je o
      let enName := (o.name.getD "undefined") ++ "_entries_" ++ locale ++ ".json"
      let step : Except String EntityType :=
        match all.find? (fun f2 => f2.path.get? 1 = some enName) with
        | none => .ok je
        | some ef =>
          match ef.content with
          | .obj _ => .error "TypeError: entries is not iterable"
          | .arr items =>
            match items.foldlM (applyEntry o) [] with
            | .error e => .error e
            | .ok vals => .ok { je with values := some ((je.values.getD []) ++ vals) }
      match step with
      | .error e => .error e
      | .ok je =>
        .ok { m with entityTypes := some (alSet (m.entityTypes.getD []) (o.name.getD "undefined") je) }

/-- `JovoModelDialogflow.toJovoModel`. -/
def toJovoModel (inputData : List NativeFile) (locale : String) :
    Except String JovoModelU :=
  let jovoModel : JovoModelU :=
    { version := some "4.0", invocation := some "", isV3 := false
      intents := some [], entityTypes := some [], dialogflow := none }
  let intentFiles := inputData.filter isIntentsFile
  let entityFiles := inputData.filter isEntitiesFile
  match intentFiles.foldlM (processIntentFile intentFiles locale) jovoModel with
  | .error e => .error e
  | .ok m => entityFiles.foldlM (processEntityFile entityFiles locale) m

/- ## Exporter: `JovoModelDialogflow.fromJovoModel` -/

/-- Synonym sanitization: `.replace(/[^0-9A-Za-zÀ-ÿ-_' ]/gi, '')`.
    A character is kept iff it matches the (inverted) class under the
    ignore-case flag: the literal class is digits, `A-Z`, `a-z`,
    `U+00C0`–`U+00FF`, hyphen, underscore, apostrophe and space; with `/i`,
    ECMAScript canonicalization additionally lets `Ÿ` (U+0178) match — it
    is the upper case of `ÿ` (U+00FF) — while no other character outside
    the literal ranges canonicalizes into the class (case mappings that
    would cross from non-ASCII into ASCII are blocked by the spec). -/
def keepChar (c : Char) : Bool :=
  let n := c.toNat
  decide ((0x30 ≤ n ∧ n ≤ 0x39) ∨ (0x41 ≤ n ∧ n ≤ 0x5A) ∨ (0x61 ≤ n ∧ n ≤ 0x7A) ∨
    (0xC0 ≤ n ∧ n ≤ 0xFF) ∨ n = 0x2D ∨ n = 0x5F ∨ n = 0x27 ∨ n = 0x20 ∨ n = 0x178)

def sanitize (s : String) : String :=
  ⟨s.toList.filter keepChar⟩

/-- Deep-merge of two optional scalar fields: a defined source value wins,
    an undefined one is skipped. -/
def oMerge {α : Type} (base patch : Option α) : Option α :=
  match patch with
  | some v => some v
  | none => base

/-- lodash array merge: index-wise, the source's extra elements appended,
    the target's extra elements kept. -/
def mergeListWith {α : Type} (f : α → α → α) : List α → List α → List α
  | base, [] => base
  | [], patch => patch
  | b :: bs, p :: ps => f b p :: mergeListWith f bs ps

def oMergeListWith {α : Type} (f : α → α → α)
    (base patch : Option (List α)) : Option (List α) :=
  match patch with
  | none => base
  | some lp => some (mergeListWith f (base.getD []) lp)

def mergeEvent (b p : DFEvent) : DFEvent :=
  { name := oMerge b.name p.name }

def mergeMessage (b p : DFMessage) : DFMessage :=
  { lang := oMerge b.lang p.lang, speech := oMerge b.speech p.speech }

def mergeParameterObjs (b p : DFParameter) : DFParameter :=
  { name := oMerge b.name p.name, isList := oMerge b.isList p.isList
    value := oMerge b.value p.value, dataType := oMerge b.dataType p.dataType }

/-- `defaultResponsePlatforms` is a plain object: key-wise merge. -/
def objMergeKV (b p : List (String × Bool)) : List (String × Bool) :=
  p.foldl (fun acc kv => alSet acc kv.1 kv.2) b

def mergeResponse (b p : DFResponse) : DFResponse :=
  { resetContexts := oMerge b.resetContexts p.resetContexts
    affectedContexts := oMergeListWith (fun _ x => x) b.affectedContexts p.affectedContexts
    parameters := oMergeListWith mergeParameterObjs b.parameters p.parameters
    defaultResponsePlatforms :=
      match p.defaultResponsePlatforms with
      | none => b.defaultResponsePlatforms
      | some lp => some (objMergeKV (b.defaultResponsePlatforms.getD []) lp)
    messages := oMergeListWith mergeMessage b.messages p.messages
    speech := oMergeListWith (fun _ x => x) b.speech p.speech }

/-- `_merge(dfIntentObj, intentData.dialogflow)` (source line 376). -/
def mergeIntentHatchIntoObj (o : DFObjContent) (h : DFIntentHatch) : DFObjContent :=
  { o with
    id := oMerge o.id h.id
    name := oMerge o.name h.name
    auto := oMerge o.auto h.auto
    contexts := oMergeListWith (fun _ x => x) o.contexts h.contexts
    priority := oMerge o.priority h.priority
    webhookUsed := oMerge o.webhookUsed h.webhookUsed
    webhookForSlotFilling := oMerge o.webhookForSlotFilling h.webhookForSlotFilling
    fallbackIntent := oMerge o.fallbackIntent h.fallbackIntent
    events := oMergeListWith mergeEvent o.events h.events
    responses := oMergeListWith mergeResponse o.responses h.responses }

/-- `_merge(dfEntityObj, matchedEntityType.dialogflow)` (source line 321). -/
def mergeEntityPatch (o : DFObjContent) (p : DFEntityPatch) : DFObjContent :=
  { o with
    id := oMerge o.id p.id
    name := oMerge o.name p.name
    isOverridable := oMerge o.isOverridable p.isOverridable
    isEnum := oMerge o.isEnum p.isEnum
    automatedExpansion := oMerge o.automatedExpansion p.automatedExpansion
    isRegexp := oMerge o.isRegexp p.isRegexp
    allowFuzzyExtraction := oMerge o.allowFuzzyExtraction p.allowFuzzyExtraction }

/-- `_merge(parameterObj, entityData.dialogflow)` (source line 368). -/
def mergeParamPatch (p : DFParameter) (q : DFParamPatch) : DFParameter :=
  { name := oMerge p.name q.name
    isList := oMerge p.isList q.isList
    value := oMerge p.value q.value
    dataType := oMerge p.dataType q.dataType }

/-- Resolution of `entityData.type` to a native `dataType` string
    (source lines 269–278; the falsy-type error of line 266 is raised by
    the caller). The object form reads `entityData.type.dialogflow`, whose
    JS truthiness test rejects both an absent and an empty string value
    (line 271). -/
def resolveDataType (entityKey : String) (t : IntentEntityTypeU) : Except String String :=
  match t with
  | .obj o =>
    if strTruthy o then .ok (o.getD "")
    else .error ("Please add a dialogflow property for entity \"" ++ entityKey ++ "\"")
  | .str s => .ok s

/-- One value of a matched entity type: produces the native entry and the
    post-call state of the value (the in-place sanitization of its
    declared synonyms, source line 347). -/
def exportEntityValue (isEnumB isRegexpB : Bool)
    (acc : List DFArrItem × List EntityTypeValueU) (value : EntityTypeValueU) :
    Except String (List DFArrItem × List EntityTypeValueU) :=
  match value with
  | .str s => .ok (acc.1 ++ [{ value := some s }], acc.2 ++ [.str s])
  | .obj v =>
    if ¬ isEnumB ∧ ¬ isRegexpB then
      match v.value with
      | none => .error "TypeError: value.value is undefined"
      | some sv =>
        match v.synonyms with
        | some l =>
          let l' := l.map sanitize
          .ok (acc.1 ++ [{ value := some sv, synonyms := some (sanitize sv :: l') }],
               acc.2 ++ [.obj { v with synonyms := some l' }])
        | none =>
          .ok (acc.1 ++ [{ value := some sv, synonyms := some [sanitize sv] }],
               acc.2 ++ [.obj v])
    else .ok (acc.1 ++ [{ value := v.value }], acc.2 ++ [.obj v])

/-- The custom-entity-type branch of intent-entity export (source lines
    279–360): for a resolved `dataType`, the defined native dataType string,
    the emitted entity files, and the post-call model state and counter;
    "@sys." is BUILTIN_PREFIX. The `if (matchedEntityType.dialogflow)`
    truthiness test of line 317 lets a string-form hatch rename the record
    only when the string is non-empty, while an object-form hatch is always
    truthy and merged. -/
def exportIntentEntityCore (locale : String) (gen : Nat → String)
    (model : JovoModelU) (ctr : Nat) (dataType : String) :
    Except String (String × List NativeFile × JovoModelU × Nat) :=
  if strStartsWith dataType "@sys." then .ok (dataType, [], model, ctr)
  else if ¬ JovoModelHelper.hasEntityTypes model then
    .error ("Input type \"" ++ dataType ++ "\" must be defined in entityTypes")
  else
    match JovoModelHelper.getEntityTypeByName model dataType with
    | none =>
      .error (if JovoModelHelper.isJovoModelV3 model then
          "Input type \"" ++ dataType ++ "\" must be defined in inputTypes"
        else
          "Entity type \"" ++ dataType ++ "\" must be defined in entityTypes")
    | some et =>
      let dfEntityObj :=
        { DIALOGFLOW_LM_ENTITY with id := some (gen ctr), name := some dataType }
      let ctr := ctr + 1
      let dfEntityObj := match et.dialogflow with
        | some (.s s) => { dfEntityObj with name := if s ≠ "" then some s else dfEntityObj.name }
        | some (.patch pt) => mergeEntityPatch dfEntityObj pt
        | none => dfEntityObj
      let fs := [NativeFile.mk ["entities", dataType ++ ".json"] (.obj dfEntityObj)]
      match et.values with
      | some vs =>
        if vs ≠ [] then
          match vs.foldlM
              (exportEntityValue (boolTruthy dfEntityObj.isEnum)
                (boolTruthy dfEntityObj.isRegexp)) ([], []) with
          | .error e => .error e
          | .ok (entries, vs') =>
            let model :=
              { model with entityTypes := some (alSet (model.entityTypes.getD [])
                  dataType { et with values := some vs' }) }
            let fs := fs ++
              [NativeFile.mk ["entities", dataType ++ "_entries_" ++ locale ++ ".json"]
                (.arr entries)]
            .ok ("@" ++ dataType, fs, model, ctr)
        else .ok ("@" ++ dataType, fs, model, ctr)
      | none => .ok ("@" ++ dataType, fs, model, ctr)

/-- Handling of one intent entity on export (source lines 258–372): yields
    the parameter object, the emitted companion files, and the post-call
    model state and uuid counter. The `if (!entityData.type)` test of line
    266 is a JS truthiness check: an absent type and the bare empty string
    are both falsy and raise `Invalid entity type`, while the object form
    is always truthy. -/
def exportIntentEntity (locale : String) (gen : Nat → String) (intentKey : String)
    (model : JovoModelU) (ctr : Nat) (entityKey : String) (entityData : IntentEntity) :
    Except String (DFParameter × List NativeFile × JovoModelU × Nat) :=
  match entityData.type with
  | none => .error ("Invalid entity type in intent \"" ++ intentKey ++ "\"")
  | some t =>
    if t = .str "" then .error ("Invalid entity type in intent \"" ++ intentKey ++ "\"")
    else
    match resolveDataType entityKey t with
    | .error e => .error e
    | .ok dataType =>
      match exportIntentEntityCore locale gen model ctr dataType with
      | .error e => .error e
      | .ok (dt, fs, model, ctr) =>
        let p : DFParameter :=
          { name := some entityKey, isList := some false
            value := some ("$" ++ entityKey), dataType := some dt }
        let p := match entityData.dialogflow with
          | some patch => mergeParamPatch p patch
          | none => p
        .ok (p, fs, model, ctr)

/- ### Sample-phrase tokenization (source lines 386–463) -/

def findIdxFrom (cs : List Char) (start : Nat) (c : Char) : Option Nat :=
  ((cs.drop start).findIdx? (· = c)).map (start + ·)

/-- One step of `re.exec(phrase)` for `/{(.*?)}/g`: the next `«{»` having a
    later `«}»`, with the position of that first following `«}»`. -/
def nextBrace (cs : List Char) (start : Nat) : Option (Nat × Nat) :=
  match findIdxFrom cs start '{' with
  | none => none
  | some i =>
    match findIdxFrom cs (i + 1) '}' with
    | none => none
    | some j => some (i, j)

/-- All matches of the global regex, in scan order. -/
def braceScan (cs : List Char) (start fuel : Nat) : List (Nat × Nat) :=
  match fuel with
  | 0 => []
  | fuel + 1 =>
    match nextBrace cs start with
    | none => []
    | some (i, j) => (i, j) :: braceScan cs (j + 1) fuel

/-- Display text of an entity segment: the placeholder name, overridden by
    the entity's recorded exemplar text when truthy (source lines 426–433). -/
def entitySegText (ents : List (String × IntentEntity)) (entity : String) : String :=
  ents.foldl (fun t (p : String × IntentEntity) =>
    if p.1 = entity ∧ strTruthy p.2.text then p.2.text.getD t else t) entity

/-- Alias and type hint of an entity segment, from the parameter list
    (source lines 436–443). -/
def segAliasMeta (params : List DFParameter) (entity : String) :
    Option String × Option String :=
  params.foldl (fun am (p : DFParameter) =>
    if p.name = some entity then (p.name, p.dataType) else am) (none, none)

/-- The `data` segment list of one sample phrase (source lines 391–463). -/
def buildPhraseData (hasEnts : Bool) (ents : List (String × IntentEntity))
    (paramsOpt : Option (List DFParameter)) (phrase : String) : List DFUSData :=
  let cs := phrase.toList
  let ms := braceScan cs 0 (cs.length + 1)
  let step : Nat × List DFUSData → Nat × Nat → Nat × List DFUSData := fun pd ij =>
    let pos := pd.1; let data := pd.2
    let i := ij.1; let j := ij.2
    let text : String := ⟨listSlice cs pos i⟩
    let entity : String := ⟨listSlice cs (i + 1) j⟩
    -- skip empty text segments
    let data := if text ≠ "" then
        data ++ [{ text := some text, userDefined := some false }] else data
    let t := if hasEnts then entitySegText ents entity else entity
    let am : Option String × Option String := match paramsOpt with
      | some ps => segAliasMeta ps entity
      | none => (none, none)
    (j + 1, data ++ [{ text := some t, userDefined := some true
                       «alias» := am.1, meta := am.2 }])
  let r := ms.foldl step (0, [])
  let data := if r.1 < cs.length then
      r.2 ++ [{ text := some ⟨cs.drop r.1⟩, userDefined := some false }] else r.2
  if data = [] then [{ text := some phrase, userDefined := some false }] else data

/-- One step of the `for (const entityKey of ...)` loop over an intent's
    entities (source lines 258–372), accumulating parameters and files and
    threading the model state and counter. -/
def exportIntentEntityStep (locale : String) (gen : Nat → String) (ik : String)
    (acc : List DFParameter × List NativeFile × JovoModelU × Nat)
    (kv : String × IntentEntity) :
    Except String (List DFParameter × List NativeFile × JovoModelU × Nat) :=
  match exportIntentEntity locale gen ik acc.2.2.1 acc.2.2.2 kv.1 kv.2 with
  | .error e => .error e
  | .ok (p, fs, model, ctr) => .ok (acc.1 ++ [p], acc.2.1 ++ fs, model, ctr)

/-- Per-intent part of the export (source lines 241–479). -/
def exportIntent (locale : String) (gen : Nat → String)
    (st : List NativeFile × JovoModelU × Nat) (intentKey : String)
    (intentData : Intent) : Except String (List NativeFile × JovoModelU × Nat) :=
  let files := st.1; let model := st.2.1; let ctr := st.2.2
  let dfIntentObj : DFObjContent :=
    { id := some (gen ctr), name := some intentKey
      auto := some true, webhookUsed := some true }
  let ctr := ctr + 1
  let entStep : Except String (DFObjContent × List NativeFile × JovoModelU × Nat) :=
    if JovoModelHelper.hasEntities model intentKey then
      let ents := JovoModelHelper.getEntities model intentKey
      match ents.foldlM (exportIntentEntityStep locale gen intentKey) ([], [], model, ctr) with
      | .error e => .error e
      | .ok (params, fs, model, ctr) =>
        let r0 : DFResponse :=
          { resetContexts := none, affectedContexts := none
            parameters := some params, defaultResponsePlatforms := none
            messages := none, speech := none }
        .ok ({ dfIntentObj with responses := some [r0] }, fs, model, ctr)
    else .ok (dfIntentObj, [], model, ctr)
  match entStep with
  | .error e => .error e
  | .ok (dfIntentObj, entFiles, model, ctr) =>
    let dfIntentObj := match intentData.dialogflow with
      | some h => mergeIntentHatchIntoObj dfIntentObj h
      | none => dfIntentObj
    let intentFile := NativeFile.mk ["intents", intentKey ++ ".json"] (.obj dfIntentObj)
    let phrases := intentData.phrases.getD []
    let paramsOpt := (dfIntentObj.responses.bind (·.head?)).bind (·.parameters)
    let hasEnts := JovoModelHelper.hasEntities model intentKey
    let ents := JovoModelHelper.getEntities model intentKey
    let r := phrases.foldl (fun (acc : List DFArrItem × Nat) ph =>
        (acc.1 ++ [{ id := some (gen acc.2), data := some (buildPhraseData hasEnts ents paramsOpt ph)
                     isTemplate := some false, count := some 0, lang := some locale }],
         acc.2 + 1)) ([], ctr)
    let usFiles := if r.1 ≠ [] then
        [NativeFile.mk ["intents", intentKey ++ "_usersays_" ++ locale ++ ".json"] (.arr r.1)]
      else []
    .ok (files ++ entFiles ++ [intentFile] ++ usFiles, model, r.2)

/- ### Verbatim emission of the model-level vendor escape hatch
   (source lines 481–517) -/

def hatchIntentToObj (r : DFIntentHatch) : DFObjContent :=
  { id := r.id, name := r.name, auto := r.auto, contexts := r.contexts
    priority := r.priority, webhookUsed := r.webhookUsed
    webhookForSlotFilling := r.webhookForSlotFilling
    fallbackIntent := r.fallbackIntent, events := r.events, responses := r.responses }

def hatchEntityToObj (r : DFEntityHatchRec) : DFObjContent :=
  { id := r.id, name := r.name, isOverridable := r.isOverridable
    isEnum := r.isEnum, automatedExpansion := r.automatedExpansion
    isRegexp := r.isRegexp, allowFuzzyExtraction := r.allowFuzzyExtraction }

/-- One record of `model.dialogflow.intents`: its `userSays` sub-field is
    extracted into a usersays file and deleted before verbatim emission. -/
def emitHatchIntent (locale : String) (st : List NativeFile × List DFIntentHatch)
    (r : DFIntentHatch) : List NativeFile × List DFIntentHatch :=
  match r.userSays with
  | some us =>
    let files := st.1 ++
      [NativeFile.mk ["intents", (r.name.getD "undefined") ++ "_usersays_" ++ locale ++ ".json"]
        (.arr us)]
    let r := { r with userSays := none }
    (files ++ [NativeFile.mk ["intents", (r.name.getD "undefined") ++ ".json"]
        (.obj (hatchIntentToObj r))], st.2 ++ [r])
  | none =>
    (st.1 ++ [NativeFile.mk ["intents", (r.name.getD "undefined") ++ ".json"]
        (.obj (hatchIntentToObj r))], st.2 ++ [r])

/-- One record of `model.dialogflow.entities`: its `entries` sub-field is
    extracted into an entries file and deleted before verbatim emission. -/
def emitHatchEntity (locale : String) (st : List NativeFile × List DFEntityHatchRec)
    (r : DFEntityHatchRec) : List NativeFile × List DFEntityHatchRec :=
  match r.entries with
  | some es =>
    let files := st.1 ++
      [NativeFile.mk ["entities", (r.name.getD "undefined") ++ "_entries_" ++ locale ++ ".json"]
        (.arr es)]
    let r := { r with entries := none }
    (files ++ [NativeFile.mk ["entities", (r.name.getD "undefined") ++ ".json"]
        (.obj (hatchEntityToObj r))], st.2 ++ [r])
  | none =>
    (st.1 ++ [NativeFile.mk ["entities", (r.name.getD "undefined") ++ ".json"]
        (.obj (hatchEntityToObj r))], st.2 ++ [r])

/-- `JovoModelDialogflow.fromJovoModel`: produces the native file set and
    the post-call state of the caller's model (which the exporter mutates:
    in-place synonym sanitization, and deletion of the `userSays`/`entries`
    sub-fields of vendor escape-hatch records). -/
def fromJovoModel (model : JovoModelU) (locale : String) (gen : Nat → String) :
    Except String (List NativeFile × JovoModelU) :=
  let intents := JovoModelHelper.getIntents model
  match intents.foldlM (fun st (kv : String × Intent) =>
      exportIntent locale gen st kv.1 kv.2) ([], model, 0) with
  | .error e => .error e
  | .ok (files, model, _ctr) =>
    let fm : List NativeFile × JovoModelU :=
      match model.dialogflow.bind (·.intents) with
      | some l =>
        let r := l.foldl (emitHatchIntent locale) (files, [])
        (r.1, { model with dialogflow := some { (model.dialogflow.getD {}) with intents := some r.2 } })
      | none => (files, model)
    let files := fm.1; let model := fm.2
    let fm : List NativeFile × JovoModelU :=
      match model.dialogflow.bind (·.entities) with
      | some l =>
        let r := l.foldl (emitHatchEntity locale) (files, [])
        (r.1, { model with dialogflow := some { (model.dialogflow.getD {}) with entities := some r.2 } })
      | none => (files, model)
    .ok fm

/- ## Shared proof infrastructure -/

deriving instance DecidableEq for Except

lemma except_foldlM_inv {α β : Type} {P : β → Prop} {f : β → α → Except String β}
    (hf : ∀ b a b', f b a = .ok b' → P b → P b') :
    ∀ (l : List α) (b b' : β), l.foldlM f b = .ok b' → P b → P b' := by
  intro l
  induction l with
  | nil =>
    intro b b' h hb
    rw [List.foldlM_nil] at h
    cases h
    exact hb
  | cons a t ih =>
    intro b b' h hb
    rw [List.foldlM_cons] at h
    cases hfb : f b a with
    | error e => rw [hfb] at h; cases h
    | ok b1 =>
      rw [hfb] at h
      exact ih b1 b' h (hf b a b1 hfb hb)

lemma processIntentFile_meta {all : List NativeFile} {locale : String}
    {m : JovoModelU} {f : NativeFile} {m' : JovoModelU}
    (hp : processIntentFile all locale m f = .ok m') :
    m'.version = m.version ∧ m'.invocation = m.invocation ∧ m'.isV3 = m.isV3 ∧
      m'.entityTypes = m.entityTypes ∧ (m.intents.isSome → m'.intents.isSome) := by
  simp only [processIntentFile] at hp
  repeat' split at hp
  all_goals (try cases hp)
  all_goals simp_all

lemma processEntityFile_meta {all : List NativeFile} {locale : String}
    {m : JovoModelU} {f : NativeFile} {m' : JovoModelU}
    (hp : processEntityFile all locale m f = .ok m') :
    m'.version = m.version ∧ m'.invocation = m.invocation ∧ m'.isV3 = m.isV3 ∧
      m'.intents = m.intents ∧ m'.dialogflow = m.dialogflow ∧
      (m.entityTypes.isSome → m'.entityTypes.isSome) := by
  simp only [processEntityFile] at hp
  repeat' split at hp
  all_goals (try cases hp)
  all_goals simp_all

/-- The meta fields the import never changes, over a whole run. -/
lemma toJovoModel_ok_meta {files : List NativeFile} {locale : String} {m : JovoModelU}
    (h : toJovoModel files locale = .ok m) :
    m.version = some "4.0" ∧ m.invocation = some "" ∧
      m.intents.isSome ∧ m.entityTypes.isSome := by
  simp only [toJovoModel] at h
  split at h
  · cases h
  case h_2 m1 hm1 =>
    have P1 : ∀ (b : JovoModelU) (a : NativeFile) (b' : JovoModelU),
        processIntentFile (files.filter isIntentsFile) locale b a = .ok b' →
        (b.version = some "4.0" ∧ b.invocation = some "" ∧
          b.intents.isSome ∧ b.entityTypes.isSome) →
        (b'.version = some "4.0" ∧ b'.invocation = some "" ∧
          b'.intents.isSome ∧ b'.entityTypes.isSome) := by
      intro b a b' hstep hb
      obtain ⟨h1, h2, h3, h4, h5⟩ := processIntentFile_meta hstep
      refine ⟨h1.trans hb.1, h2.trans hb.2.1, h5 hb.2.2.1, ?_⟩
      rw [h4]; exact hb.2.2.2
    have hP1 := except_foldlM_inv P1 (files.filter isIntentsFile) _ m1 hm1
      (by constructor <;> simp)
    have P2 : ∀ (b : JovoModelU) (a : NativeFile) (b' : JovoModelU),
        processEntityFile (files.filter isEntitiesFile) locale b a = .ok b' →
        (b.version = some "4.0" ∧ b.invocation = some "" ∧
          b.intents.isSome ∧ b.entityTypes.isSome) →
        (b'.version = some "4.0" ∧ b'.invocation = some "" ∧
          b'.intents.isSome ∧ b'.entityTypes.isSome) := by
      intro b a b' hstep hb
      obtain ⟨h1, h2, h3, h4, h5, h6⟩ := processEntityFile_meta hstep
      refine ⟨h1.trans hb.1, h2.trans hb.2.1, ?_, h6 hb.2.2.2⟩
      rw [h4]; exact hb.2.2.1
    exact except_foldlM_inv P2 (files.filter isEntitiesFile) m1 m h hP1

/- ## Claims -/

/-- C10: for every native file set and locale on which the importer
    succeeds, the output model has version "4.0", an empty invocation
    string, and defined (possibly empty) `intents` and `entityTypes`
    mappings, regardless of input content. -/
theorem C10_import_targets_v4 {files : List NativeFile} {locale : String}
    {m : JovoModelU} (h : toJovoModel files locale = .ok m) :
    m.version = some "4.0" ∧ m.invocation = some "" ∧
      m.intents.isSome ∧ m.entityTypes.isSome :=
  toJovoModel_ok_meta h

/-- The import of the empty file set, for the C10 witness. -/
def emptyImportModel : JovoModelU :=
  { version := some "4.0", invocation := some "", isV3 := false
    intents := some [], entityTypes := some [], dialogflow := none }

/-- Witness for C10 at a concrete input. -/
theorem C10_import_targets_v4_witness :
    emptyImportModel.version = some "4.0" ∧ emptyImportModel.invocation = some "" ∧
      emptyImportModel.intents.isSome ∧ emptyImportModel.entityTypes.isSome :=
  @C10_import_targets_v4 [] "en-US" emptyImportModel rfl

/-- C9 counterexample: two exporter runs on the very same model and locale
    but with distinct fresh-identifier sources produce different native
    file sets (the generated `id` fields differ), refuting "for any two
    runs of the exporter on equal (model, locale) inputs the produced
    native file sets are equal". -/
theorem C9_counterexample :
    fromJovoModel
      { version := some "4.0", invocation := some "", isV3 := false
        intents := some [("A", { phrases := some [] })]
        entityTypes := some [], dialogflow := none } "en-US" (fun _ => "a") ≠
    fromJovoModel
      { version := some "4.0", invocation := some "", isV3 := false
        intents := some [("A", { phrases := some [] })]
        entityTypes := some [], dialogflow := none } "en-US" (fun _ => "b") := by
  decide

/-- C9 amended: both transformations are deterministic once their inputs
    are fixed — for the exporter this includes its fresh-identifier
    source, which the code draws from `uuidv4()`. -/
theorem C9_core_determinism (files : List NativeFile) (locale : String)
    (model : JovoModelU) (gen₁ gen₂ : Nat → String) (hg : ∀ n, gen₁ n = gen₂ n) :
    toJovoModel files locale = toJovoModel files locale ∧
      fromJovoModel model locale gen₁ = fromJovoModel model locale gen₂ :=
  ⟨rfl, by rw [funext hg]⟩

/-- Witness for C9 at a concrete input. -/
theorem C9_core_determinism_witness :
    toJovoModel [] "en" = toJovoModel [] "en" ∧
      fromJovoModel {} "en" (fun _ => "x") = fromJovoModel {} "en" (fun _ => "x") :=
  C9_core_determinism [] "en" {} (fun _ => "x") (fun _ => "x") (fun _ => rfl)

lemma alGet_alSet {α : Type} (l : List (String × α)) (k k2 : String) (v : α) :
    alGet (alSet l k v) k2 = if k = k2 then some v else alGet l k2 := by
  induction l with
  | nil =>
    by_cases h : k = k2 <;> simp [alSet, alGet, h]
  | cons p t ih =>
    obtain ⟨kk, vv⟩ := p
    simp only [alSet]
    by_cases h1 : kk = k
    · subst h1
      rw [if_pos rfl]
      by_cases h2 : kk = k2
      · subst h2; simp [alGet]
      · simp [alGet, h2]
    · rw [if_neg h1]
      by_cases h2 : kk = k2
      · subst h2
        have hk : ¬ (k = kk) := fun he => h1 he.symm
        simp [alGet, hk]
      · simp [alGet, h2, ih]

/-- Well-formedness of an imported entity-type value's synonym list: never
    empty when present, and never containing the canonical value. -/
def SynOKVal (v : EntityTypeValueU) : Prop :=
  match v with
  | .obj vo => ∀ l, vo.synonyms = some l → l ≠ [] ∧ ∀ s ∈ l, some s ≠ vo.value
  | .str _ => True

def SynOK (et : EntityType) : Prop :=
  ∀ v ∈ et.values.getD [], SynOKVal v

lemma applyEntry_synok {o : DFObjContent} {vals : List EntityTypeValueU}
    {it : DFArrItem} {vals' : List EntityTypeValueU}
    (h : applyEntry o vals it = .ok vals')
    (hv : ∀ v ∈ vals, SynOKVal v) : ∀ v ∈ vals', SynOKVal v := by
  simp only [applyEntry] at h
  split at h
  · split at h
    · cases h
    case h_2 syns hsyn =>
      split at h
      case isTrue htemp =>
        cases h
        intro v hvmem
        rcases List.mem_append.mp hvmem with hvm | hvm
        · exact hv v hvm
        · rw [List.mem_singleton] at hvm
          subst hvm
          simp only [SynOKVal]
          intro l hl
          cases hl
          refine ⟨htemp, ?_⟩
          intro s hs
          have h2 := List.of_mem_filter hs
          simpa using h2
      case isFalse =>
        cases h
        intro v hvmem
        rcases List.mem_append.mp hvmem with hvm | hvm
        · exact hv v hvm
        · rw [List.mem_singleton] at hvm
          subst hvm
          simp only [SynOKVal]
          intro l hl
          cases hl
  · cases h
    intro v hvmem
    rcases List.mem_append.mp hvmem with hvm | hvm
    · exact hv v hvm
    · rw [List.mem_singleton] at hvm
      subst hvm
      simp only [SynOKVal]
      intro l hl
      cases hl

lemma skipDefaultEntityProps_values (e : EntityType) (o : DFObjContent) :
    (skipDefaultEntityProps e o).values = e.values := by
  simp only [skipDefaultEntityProps, setEntityHatch]
  repeat' split
  all_goals rfl

lemma processEntityFile_synok {all : List NativeFile} {locale : String}
    {m : JovoModelU} {f : NativeFile} {m' : JovoModelU}
    (hp : processEntityFile all locale m f = .ok m')
    (hm : ∀ T et, alGet (m.entityTypes.getD []) T = some et → SynOK et) :
    ∀ T et, alGet (m'.entityTypes.getD []) T = some et → SynOK et := by
  simp only [processEntityFile] at hp
  repeat' split at hp
  all_goals (try cases hp)
  all_goals (try exact hm)
  -- remaining: the alSet-updating branch, with the processed entity type je
  rename_i je heq
  intro T et hT
  simp only [Option.getD_some, alGet_alSet] at hT
  split at hT
  case isFalse => exact hm T et hT
  case isTrue =>
    cases hT
    repeat' split at heq
    all_goals (try cases heq)
    -- no entries companion: the value list stays empty
    · intro v hv
      rw [skipDefaultEntityProps_values] at hv
      simp at hv
    -- entries companion: every value comes from the applyEntry fold
    case _ =>
      rename_i vals hfold
      intro v hv
      simp only [skipDefaultEntityProps_values, Option.getD_some, List.nil_append] at hv
      exact @except_foldlM_inv DFArrItem (List EntityTypeValueU)
        (fun vs => ∀ v ∈ vs, SynOKVal v) (applyEntry (contentAsObj f.content))
        (fun vs a vs' hstep hvs => applyEntry_synok hstep hvs)
        _ [] vals hfold (by simp) v hv

lemma toJovoModel_synok {files : List NativeFile} {locale : String} {m : JovoModelU}
    (h : toJovoModel files locale = .ok m) :
    ∀ T et, alGet (m.entityTypes.getD []) T = some et → SynOK et := by
  simp only [toJovoModel] at h
  split at h
  · cases h
  case h_2 m1 hm1 =>
    have hbase : ∀ T et,
        alGet ((JovoModelU.mk (some "4.0") (some "") false (some []) (some []) none).entityTypes.getD [])
          T = some et → SynOK et := by
      intro T et hT
      simp [alGet] at hT
    have h1 : ∀ T et, alGet (m1.entityTypes.getD []) T = some et → SynOK et := by
      refine @except_foldlM_inv NativeFile JovoModelU
        (fun b => ∀ T et, alGet (b.entityTypes.getD []) T = some et → SynOK et)
        (processIntentFile (files.filter isIntentsFile) locale) ?_
        (files.filter isIntentsFile) _ m1 hm1 hbase
      intro b a b' hstep hb
      have hmeta := processIntentFile_meta hstep
      rw [hmeta.2.2.2.1]
      exact hb
    exact @except_foldlM_inv NativeFile JovoModelU
      (fun b => ∀ T et, alGet (b.entityTypes.getD []) T = some et → SynOK et)
      (processEntityFile (files.filter isEntitiesFile) locale)
      (fun b a b' hstep hb => processEntityFile_synok hstep hb)
      (files.filter isEntitiesFile) m1 m h h1

lemma uintLe_iff (a b : UInt32) : a ≤ b ↔ a.toNat ≤ b.toNat := Iff.rfl

/-- The exact keep-set of the sanitization regex, in library vocabulary:
    ASCII alphanumerics, the Latin-1 range U+00C0–U+00FF, hyphen,
    underscore, apostrophe (U+0027), space, and U+0178. -/
lemma keepChar_characterization (c : Char) : keepChar c =
    (c.isAlphanum || (decide (0xC0 ≤ c.toNat) && decide (c.toNat ≤ 0xFF)) ||
      decide (c.toNat = 0x2D) || decide (c.toNat = 0x5F) || decide (c.toNat = 0x27) ||
      decide (c.toNat = 0x20) || decide (c.toNat = 0x178)) := by
  simp only [keepChar, Char.isAlphanum, Char.isDigit, Char.isAlpha, Char.isUpper, Char.isLower]
  rw [Bool.eq_iff_iff]
  simp only [decide_eq_true_eq, Bool.or_eq_true, Bool.and_eq_true, decide_eq_true_eq, GE.ge,
    uintLe_iff]
  have e1 : (48 : UInt32).toNat = 48 := rfl
  have e2 : (57 : UInt32).toNat = 57 := rfl
  have e3 : (65 : UInt32).toNat = 65 := rfl
  have e4 : (90 : UInt32).toNat = 90 := rfl
  have e5 : (97 : UInt32).toNat = 97 := rfl
  have e6 : (122 : UInt32).toNat = 122 := rfl
  have hv : c.val.toNat = c.toNat := rfl
  rw [e1, e2, e3, e4, e5, e6]
  simp only [hv]
  omega

/-- C5 (amended): on import, an entity-type value's synonym list is
    omitted when it would be empty and never contains the canonical value
    verbatim; on export, sanitization keeps exactly the ASCII
    alphanumerics, the accented-Latin range U+00C0–U+00FF, hyphen,
    underscore, apostrophe and space — plus U+0178 through case-insensitive
    matching — and strips every other character. -/
theorem C5_synonym_exclusion_and_sanitization :
    (∀ files locale m, toJovoModel files locale = .ok m →
       ∀ T et, alGet (m.entityTypes.getD []) T = some et →
         ∀ vo, EntityTypeValueU.obj vo ∈ et.values.getD [] →
           ∀ l, vo.synonyms = some l → l ≠ [] ∧ ∀ s ∈ l, some s ≠ vo.value) ∧
    (∀ s : String, sanitize s = ⟨s.toList.filter (fun c =>
       c.isAlphanum || (decide (0xC0 ≤ c.toNat) && decide (c.toNat ≤ 0xFF)) ||
       decide (c.toNat = 0x2D) || decide (c.toNat = 0x5F) || decide (c.toNat = 0x27) ||
       decide (c.toNat = 0x20) || decide (c.toNat = 0x178))⟩) := by
  constructor
  · intro files locale m h T et hT vo hmem l hl
    exact toJovoModel_synok h T et hT (.obj vo) hmem l hl
  · intro s
    simp only [sanitize]
    congr 1
    apply List.filter_congr
    intro c _
    exact keepChar_characterization c

/-- Import input for the C5 witness. -/
def c5wFiles : List NativeFile :=
  [⟨["entities", "T.json"],
    .obj { name := some "T", isOverridable := some true, isEnum := some false
           automatedExpansion := some false, isRegexp := some false
           allowFuzzyExtraction := some false }⟩,
   ⟨["entities", "T_entries_en.json"],
    .arr [{ value := some "x", synonyms := some ["x", "y"] }]⟩]

/-- Import output for the C5 witness. -/
def c5wModel : JovoModelU :=
  { version := some "4.0", invocation := some "", isV3 := false
    intents := some []
    entityTypes := some [("T",
      { values := some [.obj { value := some "x", synonyms := some ["y"] }]
        dialogflow := none })]
    dialogflow := none }

/-- Witness for C5 at a concrete import: the canonical value "x" was
    filtered out of its own synonym list, leaving the non-empty ["y"]. -/
theorem C5_synonym_exclusion_and_sanitization_witness :
    (["y"] : List String) ≠ [] ∧ (∀ s ∈ (["y"] : List String), some s ≠ some "x") :=
  C5_synonym_exclusion_and_sanitization.1 c5wFiles "en" c5wModel rfl "T"
    { values := some [.obj { value := some "x", synonyms := some ["y"] }], dialogflow := none }
    rfl { value := some "x", synonyms := some ["y"] } (by simp) ["y"] rfl

/-- Canonical model for the C5 counterexample. -/
def c5xModel : JovoModelU :=
  { version := some "4.0", invocation := some "", isV3 := false
    intents := some [("I",
      { phrases := some []
        entities := some [("e", { type := some (.str "T") })] })]
    entityTypes := some [("T",
      { values := some [.obj { value := some "a b", synonyms := some ["x- _y"] }] })]
    dialogflow := none }

/-- C5 counterexample: the exporter's sanitization keeps space, hyphen and
    underscore — characters that are neither alphanumeric, nor apostrophe,
    nor accented-Latin, and so, per the claim, would have to be stripped:
    the emitted entries file carries the synonyms "a b" and "x- _y"
    unchanged. -/
theorem C5_counterexample :
    (fromJovoModel c5xModel "en" (fun _ => "u")).map
        (fun r => r.1.filter (fun fl => fl.path.get? 1 = some "T_entries_en.json")) =
      .ok [⟨["entities", "T_entries_en.json"],
        .arr [{ value := some "a b", synonyms := some ["a b", "x- _y"] }]⟩] ∧
    (' '.isAlphanum = false ∧ '-'.isAlphanum = false ∧ '_'.isAlphanum = false) := by
  constructor
  · rfl
  · decide

lemma except_error_bind {α β : Type} (e : String) (g : α → Except String β) :
    (Except.error e : Except String α) >>= g = .error e := rfl

lemma except_ok_bind {α β : Type} (a : α) (g : α → Except String β) :
    (Except.ok a : Except String α) >>= g = g a := rfl

lemma exportIntentEntity_noET {locale : String} {gen : Nat → String}
    {ik : String} {model : JovoModelU} {ctr : Nat} {ek : String}
    {ed : IntentEntity} {T : String}
    (hty : ed.type = some (.str T)) (hTne : T ≠ "")
    (hT : strStartsWith T "@sys." = false)
    (hno : JovoModelHelper.hasEntityTypes model = false) :
    exportIntentEntity locale gen ik model ctr ek ed =
      .error ("Input type \"" ++ T ++ "\" must be defined in entityTypes") := by
  have hne : (IntentEntityTypeU.str T) ≠ .str "" := by simp [hTne]
  simp only [exportIntentEntity, hty, if_neg hne, resolveDataType, exportIntentEntityCore,
    hT, hno]
  simp

lemma exportIntentEntity_missingET {locale : String} {gen : Nat → String}
    {ik : String} {model : JovoModelU} {ctr : Nat} {ek : String}
    {ed : IntentEntity} {T : String}
    (hty : ed.type = some (.str T)) (hTne : T ≠ "")
    (hT : strStartsWith T "@sys." = false)
    (hhas : JovoModelHelper.hasEntityTypes model = true)
    (hmiss : JovoModelHelper.getEntityTypeByName model T = none) :
    exportIntentEntity locale gen ik model ctr ek ed =
      .error (if JovoModelHelper.isJovoModelV3 model then
          "Input type \"" ++ T ++ "\" must be defined in inputTypes"
        else "Entity type \"" ++ T ++ "\" must be defined in entityTypes") := by
  have hne : (IntentEntityTypeU.str T) ≠ .str "" := by simp [hTne]
  simp only [exportIntentEntity, hty, if_neg hne, resolveDataType, exportIntentEntityCore,
    hT, hhas, hmiss]
  simp

lemma exportIntent_entity_error {locale : String} {gen : Nat → String}
    {files : List NativeFile} {model : JovoModelU} {ctr : Nat}
    {ik ek : String} {intent : Intent} {ed : IntentEntity} {e : String}
    (hhas : JovoModelHelper.hasEntities model ik = true)
    (hents : JovoModelHelper.getEntities model ik = [(ek, ed)])
    (herr : ∀ c, exportIntentEntity locale gen ik model c ek ed = .error e) :
    exportIntent locale gen (files, model, ctr) ik intent = .error e := by
  simp only [exportIntent, hhas, hents, if_true, List.foldlM_cons, exportIntentEntityStep,
    herr, List.foldlM_nil]
  simp

lemma fromJovoModel_single_intent_error {locale : String} {gen : Nat → String}
    {model : JovoModelU} {ik : String} {intent : Intent} {e : String}
    (hint : JovoModelHelper.getIntents model = [(ik, intent)])
    (herr : exportIntent locale gen ([], model, 0) ik intent = .error e) :
    fromJovoModel model locale gen = .error e := by
  simp only [fromJovoModel, hint, List.foldlM_cons, herr, List.foldlM_nil]
  simp

/-- C3 (amended): when a non-empty (truthy) bare custom type name of an
    intent entity does not resolve, the exporter raises an error naming the
    type; the message distinguishes legacy ("inputTypes") from current
    ("entityTypes") models only in the missing-name condition — when the
    entity-type mapping is entirely absent, one version-independent message
    ("Input type ... must be defined in entityTypes") is raised.  An empty
    type name never reaches these messages: it fails the JS truthiness
    check `if (!entityData.type)` of source line 266 and raises
    `Invalid entity type` instead. -/
theorem C3_unresolved_type_error_messages
    (ik ek T locale : String) (gen : Nat → String) (v3 : Bool)
    (ph : Option (List String)) (tx : Option String) (pd : Option DFParamPatch)
    (ih : Option DFIntentHatch) (ets : Option (List (String × EntityType)))
    (mh : Option ModelHatch) (ver inv : Option String)
    (hTne : T ≠ "") (hT : strStartsWith T "@sys." = false)
    (model : JovoModelU)
    (hm : model = { version := ver, invocation := inv, isV3 := v3
                    intents := some [(ik,
                      { phrases := ph
                        entities := some [(ek,
                          { type := some (.str T), text := tx, dialogflow := pd })]
                        dialogflow := ih })]
                    entityTypes := ets, dialogflow := mh }) :
    (ets = none →
      fromJovoModel model locale gen =
        .error ("Input type \"" ++ T ++ "\" must be defined in entityTypes")) ∧
    (∀ l, ets = some l → alGet l T = none →
      fromJovoModel model locale gen =
        .error (if v3 then "Input type \"" ++ T ++ "\" must be defined in inputTypes"
                else "Entity type \"" ++ T ++ "\" must be defined in entityTypes")) := by
  subst hm
  have hint : JovoModelHelper.getIntents
      { version := ver, invocation := inv, isV3 := v3
        intents := some [(ik,
          { phrases := ph
            entities := some [(ek, { type := some (.str T), text := tx, dialogflow := pd })]
            dialogflow := ih })]
        entityTypes := ets, dialogflow := mh } = [(ik,
          { phrases := ph
            entities := some [(ek, { type := some (.str T), text := tx, dialogflow := pd })]
            dialogflow := ih })] := rfl
  have hhas : JovoModelHelper.hasEntities
      { version := ver, invocation := inv, isV3 := v3
        intents := some [(ik,
          { phrases := ph
            entities := some [(ek, { type := some (.str T), text := tx, dialogflow := pd })]
            dialogflow := ih })]
        entityTypes := ets, dialogflow := mh } ik = true := by
    simp [JovoModelHelper.hasEntities, JovoModelHelper.getIntents, alGet]
  have hents : JovoModelHelper.getEntities
      { version := ver, invocation := inv, isV3 := v3
        intents := some [(ik,
          { phrases := ph
            entities := some [(ek, { type := some (.str T), text := tx, dialogflow := pd })]
            dialogflow := ih })]
        entityTypes := ets, dialogflow := mh } ik =
      [(ek, { type := some (.str T), text := tx, dialogflow := pd })] := by
    simp [JovoModelHelper.getEntities, JovoModelHelper.getIntents, alGet]
  constructor
  · intro hets
    subst hets
    refine fromJovoModel_single_intent_error hint
      (exportIntent_entity_error hhas hents ?_)
    intro c
    exact exportIntentEntity_noET rfl hTne hT (by simp [JovoModelHelper.hasEntityTypes])
  · intro l hets hget
    subst hets
    refine Eq.trans (fromJovoModel_single_intent_error hint
      (exportIntent_entity_error hhas hents (fun c =>
        exportIntentEntity_missingET rfl hTne hT
          (by simp [JovoModelHelper.hasEntityTypes])
          (by simp [JovoModelHelper.getEntityTypeByName, hget])))) ?_
    simp [JovoModelHelper.isJovoModelV3]

/-- C3 counterexample: with the entity-type mapping entirely absent, a
    legacy model and a current model produce the identical error message —
    no terminology distinction in this failure condition. -/
theorem C3_counterexample :
    fromJovoModel
      { version := some "4.0", invocation := some "", isV3 := true
        intents := some [("I",
          { phrases := some []
            entities := some [("e", { type := some (.str "location") })] })]
        entityTypes := none, dialogflow := none } "en" (fun _ => "u") =
      .error "Input type \"location\" must be defined in entityTypes" ∧
    fromJovoModel
      { version := some "4.0", invocation := some "", isV3 := false
        intents := some [("I",
          { phrases := some []
            entities := some [("e", { type := some (.str "location") })] })]
        entityTypes := none, dialogflow := none } "en" (fun _ => "u") =
      .error "Input type \"location\" must be defined in entityTypes" := by
  constructor <;> decide

/-- Witness for C3 at a concrete input. -/
theorem C3_unresolved_type_error_messages_witness :
    fromJovoModel
      { version := some "4.0", invocation := some "", isV3 := false
        intents := some [("I",
          { phrases := some []
            entities := some [("e", { type := some (.str "location") })]
            dialogflow := none })]
        entityTypes := some [], dialogflow := none } "en" (fun _ => "u") =
      .error (if false then "Input type \"location\" must be defined in inputTypes"
              else "Entity type \"location\" must be defined in entityTypes") :=
  (C3_unresolved_type_error_messages "I" "e" "location" "en" (fun _ => "u") false
    (some []) none none none (some []) none (some "4.0") (some "") (by decide) rfl _ rfl).2
    [] rfl rfl

/-- C4 (amended): a native intent flagged as fallback, or whose first event
    is the WELCOME event, is routed into the model-level vendor escape
    hatch, tagged with its name, and never into the canonical `intents`
    mapping.  A welcome intent is appended to the hatch list (created if
    absent); a fallback intent replaces the whole list with a singleton,
    discarding any previously routed members. -/
theorem C4_fallback_welcome_routing
    (all : List NativeFile) (locale : String) (m : JovoModelU) (f : NativeFile)
    (m' : JovoModelU) (file : String) (o : DFObjContent)
    (hpath : f.path.get? 1 = some file)
    (hus : hasSubstr file "usersays" = false)
    (ho : contentAsObj f.content = o)
    (hcond : o.fallbackIntent = some true ∨
      ((o.events.getD []).head?.bind (·.name) = some "WELCOME"))
    (hp : processIntentFile all locale m f = .ok m') :
    m'.intents = m.intents ∧
    ∃ hrec : DFIntentHatch, hrec.name = o.name ∧
      (o.fallbackIntent = some true → m'.dialogflow.bind (·.intents) = some [hrec]) ∧
      (o.fallbackIntent ≠ some true →
        m'.dialogflow.bind (·.intents) =
          some (((m.dialogflow.bind (·.intents)).getD []) ++ [hrec])) := by
  simp only [processIntentFile, hpath, hus, ho] at hp
  simp only [Bool.false_eq_true, if_false] at hp
  rcases hcond with hfb | hwel
  · rw [if_pos hfb] at hp
    split at hp
    · cases hp
    · rename_i hrec0 hdlg
      cases hp
      refine ⟨rfl, { hrec0 with name := o.name }, rfl, fun _ => ?_, fun hne => absurd hfb hne⟩
      simp
  · by_cases hfb : o.fallbackIntent = some true
    · rw [if_pos hfb] at hp
      split at hp
      · cases hp
      · rename_i hrec0 hdlg
        cases hp
        refine ⟨rfl, { hrec0 with name := o.name }, rfl, fun _ => ?_, fun hne => absurd hfb hne⟩
        simp
    · rw [if_neg hfb, if_pos hwel] at hp
      split at hp
      · cases hp
      · rename_i hrec0 hdlg
        split at hp
        · rename_i hnone
          cases hp
          refine ⟨rfl, { hrec0 with name := o.name }, rfl, fun hf => absurd hf hfb, fun _ => ?_⟩
          simp [hnone]
        · rename_i l hsome
          cases hp
          refine ⟨rfl, { hrec0 with name := o.name }, rfl, fun hf => absurd hf hfb, fun _ => ?_⟩
          simp [hsome]

/-- C4 counterexample: two fallback intents in one file set — the second
    replaces the first in the escape-hatch list, so not every such intent
    appears as a member. -/
theorem C4_counterexample :
    (toJovoModel
      [⟨["intents", "F1.json"], .obj { name := some "F1", fallbackIntent := some true }⟩,
       ⟨["intents", "F2.json"], .obj { name := some "F2", fallbackIntent := some true }⟩]
      "en").map
      (fun m => (m.dialogflow.bind (·.intents)).map (·.map (·.name))) =
      .ok (some [some "F2"]) := by decide

/-- Witness for C4 at a concrete input: a single fallback intent lands in
    the hatch list and the canonical intents mapping stays empty. -/
theorem C4_fallback_welcome_routing_witness :
    (some [] : Option (List (String × Intent))) = some [] ∧
    ∃ hrec : DFIntentHatch, hrec.name = some "F1" ∧
      ((some true : Option Bool) = some true →
        ((some { (({} : ModelHatch)) with
            intents := some [{ fallbackIntent := some true, name := some "F1" }] } :
          Option ModelHatch).bind (·.intents)) = some [hrec]) ∧
      ((some true : Option Bool) ≠ some true →
        ((some { (({} : ModelHatch)) with
            intents := some [{ fallbackIntent := some true, name := some "F1" }] } :
          Option ModelHatch).bind (·.intents)) =
          some ((((none : Option ModelHatch).bind (·.intents)).getD []) ++ [hrec])) := by
  have h := C4_fallback_welcome_routing
    [⟨["intents", "F1.json"], .obj { name := some "F1", fallbackIntent := some true }⟩]
    "en"
    { version := some "4.0", invocation := some "", isV3 := false
      intents := some [], entityTypes := some [], dialogflow := none }
    ⟨["intents", "F1.json"], .obj { name := some "F1", fallbackIntent := some true }⟩
    { version := some "4.0", invocation := some "", isV3 := false
      intents := some [], entityTypes := some []
      dialogflow := some { intents := some [{ fallbackIntent := some true, name := some "F1" }] } }
    "F1.json"
    { name := some "F1", fallbackIntent := some true }
    rfl rfl rfl (Or.inl rfl) (by decide)
  exact ⟨h.1, h.2⟩

/-- C8 (amended): the importer builds an intent's entity declarations from
    the parameter lists of ALL responses, concatenated in order (later
    same-named parameters overwrite earlier ones); a dataType carrying the
    built-in prefix becomes a vendor-qualified descriptor, any other truthy
    dataType has its first character stripped to a bare type name, and a
    parameter with an absent or empty dataType contributes nothing. -/
lemma foldl_flatMap {α β γ : Type} (params : β → List γ) (g : α → γ → α) :
    ∀ (rs : List β) (acc : α),
      rs.foldl (fun a r => (params r).foldl g a) acc = (rs.flatMap params).foldl g acc := by
  intro rs
  induction rs with
  | nil => intro acc; simp
  | cons r t ih => intro acc; simp [List.foldl_append, ih]

theorem C8_entities_from_all_responses :
    (∀ rs : List DFResponse,
      entitiesFromResponses rs = (rs.flatMap (fun r => r.parameters.getD [])).foldl
        (fun acc p => match entityFromParam p with
          | some (k, e) => alSet acc k e
          | none => acc) []) ∧
    (∀ p d, p.dataType = some d →
      entityFromParam p = if d = "" then none else some (p.name.getD "undefined",
        { type := some (if strStartsWith d "@sys." then .obj (some d) else .str (d.drop 1))
          text := none, dialogflow := none })) ∧
    (∀ p, p.dataType = none → entityFromParam p = none) := by
  refine ⟨?_, ?_, ?_⟩
  · intro rs
    simp only [entitiesFromResponses]
    exact foldl_flatMap (fun r => r.parameters.getD []) _ rs []
  · intro p d hd
    simp only [entityFromParam, hd]
    split <;> simp_all
  · intro p hp
    simp [entityFromParam, hp]

/-- C8 counterexample: a parameter in the second response does contribute
    an entity declaration (the claim says only the first response's
    parameters are used). -/
theorem C8_counterexample :
    (toJovoModel
      [⟨["intents", "I.json"], .obj
        { name := some "I"
          responses := some [{ parameters := some [] },
            { parameters := some [{ name := some "x", dataType := some "@sys.number" }] }] }⟩]
      "en").map (fun m =>
        (alGet (m.intents.getD []) "I").map (fun i =>
          (i.entities.getD []).map (fun ke => (ke.1, ke.2.type)))) =
      .ok (some [("x", some (.obj (some "@sys.number")))]) := by
  decide

/-- Witness for C8 at concrete parameters: built-in and custom dataTypes. -/
theorem C8_entities_from_all_responses_witness :
    entityFromParam { name := some "x", dataType := some "@sys.number" } =
      (if ("@sys.number" : String) = "" then none else some ((some "x" : Option String).getD "undefined",
        { type := some (if strStartsWith "@sys.number" "@sys." then .obj (some "@sys.number")
            else .str (("@sys.number" : String).drop 1))
          text := none, dialogflow := none })) ∧
    entityFromParam { name := some "y", dataType := some "@location" } =
      (if ("@location" : String) = "" then none else some ((some "y" : Option String).getD "undefined",
        { type := some (if strStartsWith "@location" "@sys." then .obj (some "@location")
            else .str (("@location" : String).drop 1))
          text := none, dialogflow := none })) ∧
    entityFromParam { name := some "z", dataType := none } = none :=
  ⟨C8_entities_from_all_responses.2.1 { name := some "x", dataType := some "@sys.number" }
      "@sys.number" rfl,
   C8_entities_from_all_responses.2.1 { name := some "y", dataType := some "@location" }
      "@location" rfl,
   C8_entities_from_all_responses.2.2 { name := some "z", dataType := none } rfl⟩

lemma hasSubstr_of_parts (pre mid suf needle : String)
    (h : mid.toList = needle.toList ++ suf.toList) :
    ∀ post : String, hasSubstr (pre ++ mid ++ post) needle = true := by
  intro post
  simp only [hasSubstr, List.any_eq_true]
  refine ⟨pre.toList.length, ?_, ?_⟩
  · rw [List.mem_range]
    have : pre.toList.length ≤ (pre ++ mid ++ post).toList.length := by
      simp [String.toList]
    omega
  · have he : (pre ++ mid ++ post).toList = pre.toList ++ (mid.toList ++ post.toList) := by
      simp [String.toList]
    rw [he, List.drop_left, h, List.append_assoc, List.isPrefixOf_iff_prefix]
    exact List.prefix_append _ _

lemma hasSubstr_usersays (a b : String) :
    hasSubstr (a ++ "_usersays_" ++ b ++ ".json") "usersays" = true := by
  have hlit : ("_usersays_" : String) = "_" ++ "usersays_" := by decide
  have h1 : a ++ "_usersays_" ++ b ++ ".json" = (a ++ "_") ++ "usersays_" ++ (b ++ ".json") := by
    rw [hlit]
    simp [String.append_assoc]
  rw [h1]
  exact hasSubstr_of_parts (a ++ "_") "usersays_" "_" "usersays" (by decide) (b ++ ".json")

lemma hasSubstr_entries (a b : String) :
    hasSubstr (a ++ "_entries_" ++ b ++ ".json") "entries" = true := by
  have hlit : ("_entries_" : String) = "_" ++ "entries_" := by decide
  have h1 : a ++ "_entries_" ++ b ++ ".json" = (a ++ "_") ++ "entries_" ++ (b ++ ".json") := by
    rw [hlit]
    simp [String.append_assoc]
  rw [h1]
  exact hasSubstr_of_parts (a ++ "_") "entries_" "_" "entries" (by decide) (b ++ ".json")

lemma setHatch_isSome (i : Intent) (f : DFIntentHatch → DFIntentHatch) :
    (setHatch i f).dialogflow.isSome := by
  simp [setHatch]

lemma setHatchResp0_isSome (i : Intent) (f : DFResponse → DFResponse) :
    (setHatchResp0 i f).dialogflow.isSome := by
  simp [setHatchResp0, setHatch]

lemma sdAuto_hatch_mono (o : DFObjContent) (ji : Intent)
    (h : ji.dialogflow.isSome) : (sdAuto o ji).dialogflow.isSome := by
  simp only [sdAuto]
  split
  · apply setHatch_isSome
  · exact h

lemma sdContexts_hatch_mono (o : DFObjContent) (ji : Intent)
    (h : ji.dialogflow.isSome) : (sdContexts o ji).dialogflow.isSome := by
  simp only [sdContexts]
  split
  · apply setHatch_isSome
  · exact h

lemma sdPriority_hatch_mono (o : DFObjContent) (ji : Intent)
    (h : ji.dialogflow.isSome) : (sdPriority o ji).dialogflow.isSome := by
  simp only [sdPriority]
  repeat' split
  all_goals first | apply setHatch_isSome | exact h

lemma sdWebhookUsed_hatch_mono (o : DFObjContent) (ji : Intent)
    (h : ji.dialogflow.isSome) : (sdWebhookUsed o ji).dialogflow.isSome := by
  simp only [sdWebhookUsed]
  repeat' split
  all_goals first | apply setHatch_isSome | exact h

lemma sdWebhookForSlotFilling_hatch_mono (o : DFObjContent) (ji : Intent)
    (h : ji.dialogflow.isSome) : (sdWebhookForSlotFilling o ji).dialogflow.isSome := by
  simp only [sdWebhookForSlotFilling]
  repeat' split
  all_goals first | apply setHatch_isSome | exact h

lemma sdFallbackIntent_hatch_mono (o : DFObjContent) (ji : Intent)
    (h : ji.dialogflow.isSome) : (sdFallbackIntent o ji).dialogflow.isSome := by
  simp only [sdFallbackIntent]
  repeat' split
  all_goals first | apply setHatch_isSome | exact h

lemma sdEvents_hatch_mono (o : DFObjContent) (ji : Intent)
    (h : ji.dialogflow.isSome) : (sdEvents o ji).dialogflow.isSome := by
  simp only [sdEvents]
  split
  · apply setHatch_isSome
  · exact h

lemma sdResets_hatch_mono (r0 : DFResponse) (ji : Intent)
    (h : ji.dialogflow.isSome) : (sdResets r0 ji).dialogflow.isSome := by
  simp only [sdResets]
  repeat' split
  all_goals first | apply setHatchResp0_isSome | exact h

lemma sdAffected_hatch_mono (r0 : DFResponse) (ji : Intent)
    (h : ji.dialogflow.isSome) : (sdAffected r0 ji).dialogflow.isSome := by
  simp only [sdAffected]
  repeat' split
  all_goals first | apply setHatchResp0_isSome | exact h

lemma sdDRP_hatch_mono (r0 : DFResponse) (ji : Intent)
    (h : ji.dialogflow.isSome) : (sdDRP r0 ji).dialogflow.isSome := by
  simp only [sdDRP]
  repeat' split
  all_goals first | apply setHatchResp0_isSome | exact h

lemma sdMessages_hatch_mono (locale : String) (r0 : DFResponse) (ji : Intent)
    (h : ji.dialogflow.isSome) : (sdMessages locale r0 ji).dialogflow.isSome := by
  simp only [sdMessages]
  split
  case h_1 msgs heq =>
    clear heq
    induction msgs generalizing ji with
    | nil => exact h
    | cons m t ih =>
      simp only [List.foldl_cons]
      apply ih
      split
      · apply setHatchResp0_isSome
      · exact h
  case h_2 => exact h

lemma sdSpeech_hatch_mono (r0 : DFResponse) (ji : Intent)
    (h : ji.dialogflow.isSome) : (sdSpeech r0 ji).dialogflow.isSome := by
  simp only [sdSpeech]
  repeat' split
  all_goals first | apply setHatchResp0_isSome | exact h

lemma sdResponses_hatch_mono (locale : String) (o : DFObjContent) (ji : Intent)
    (h : ji.dialogflow.isSome) : (sdResponses locale o ji).dialogflow.isSome := by
  simp only [sdResponses]
  repeat' split
  all_goals
    first
    | exact h
    | exact sdSpeech_hatch_mono _ _ (sdMessages_hatch_mono _ _ _ (sdDRP_hatch_mono _ _
        (sdAffected_hatch_mono _ _ (sdResets_hatch_mono _ _ h))))

lemma skipDefaultIntentProps_hatch_mono (ji : Intent) (o : DFObjContent) (locale : String)
    (h : ji.dialogflow.isSome) : (skipDefaultIntentProps ji o locale).dialogflow.isSome := by
  simp only [skipDefaultIntentProps]
  exact sdResponses_hatch_mono _ _ _ (sdEvents_hatch_mono _ _ (sdFallbackIntent_hatch_mono _ _
    (sdWebhookForSlotFilling_hatch_mono _ _ (sdWebhookUsed_hatch_mono _ _
      (sdPriority_hatch_mono _ _ (sdContexts_hatch_mono _ _ (sdAuto_hatch_mono _ _ h)))))))

lemma sdFallbackIntent_sets (o : DFObjContent) (ji : Intent)
    (hfb : o.fallbackIntent = some true) :
    (sdFallbackIntent o ji).dialogflow.isSome := by
  simp only [sdFallbackIntent, hfb, DEFAULT_INTENT]
  split
  · apply setHatch_isSome
  · simp_all

lemma sdEvents_sets (o : DFObjContent) (ji : Intent)
    (hne : (o.events.getD []) ≠ []) :
    (sdEvents o ji).dialogflow.isSome := by
  simp only [sdEvents]
  split
  · apply setHatch_isSome
  · simp_all

lemma skipDefaultIntentProps_fallback_isSome (ji : Intent) (o : DFObjContent) (locale : String)
    (hfb : o.fallbackIntent = some true) :
    (skipDefaultIntentProps ji o locale).dialogflow.isSome := by
  simp only [skipDefaultIntentProps]
  exact sdResponses_hatch_mono _ _ _ (sdEvents_hatch_mono _ _ (sdFallbackIntent_sets _ _ hfb))

lemma skipDefaultIntentProps_welcome_isSome (ji : Intent) (o : DFObjContent) (locale : String)
    (hne : (o.events.getD []) ≠ []) :
    (skipDefaultIntentProps ji o locale).dialogflow.isSome := by
  simp only [skipDefaultIntentProps]
  exact sdResponses_hatch_mono _ _ _ (sdEvents_sets _ _ hne)

lemma applyUserSays_ok (ji : Intent) (it : DFArrItem) (hd : it.data ≠ none) :
    ∃ ji', applyUserSays ji it = .ok ji' := by
  simp only [applyUserSays]
  cases hdata : it.data with
  | none => exact absurd hdata hd
  | some ds => exact ⟨_, rfl⟩

lemma foldlM_all_ok {α β : Type} {f : β → α → Except String β} :
    ∀ (l : List α), (∀ b a, a ∈ l → ∃ b', f b a = .ok b') →
      ∀ b, ∃ b', l.foldlM f b = .ok b' := by
  intro l
  induction l with
  | nil => intro _ b; exact ⟨b, rfl⟩
  | cons a t ih =>
    intro hf b
    obtain ⟨b1, hb1⟩ := hf b a (List.mem_cons_self a t)
    obtain ⟨b2, hb2⟩ := ih (fun b a ha => hf b a (List.mem_cons_of_mem _ ha)) b1
    refine ⟨b2, ?_⟩
    rw [List.foldlM_cons, hb1, except_ok_bind, hb2]

lemma processIntentFile_ok (all : List NativeFile) (locale : String)
    (m : JovoModelU) (f : NativeFile)
    (hpath : f.path.get? 1 ≠ none)
    (hus : ∀ f2 ∈ all, ∀ file2, f2.path.get? 1 = some file2 →
      hasSubstr file2 "usersays" = true →
      ∃ items, f2.content = .arr items ∧ ∀ it ∈ items, it.data ≠ none) :
    ∃ m', processIntentFile all locale m f = .ok m' := by
  obtain ⟨file, hfile⟩ := Option.ne_none_iff_exists'.mp hpath
  simp only [processIntentFile, hfile]
  by_cases hu : hasSubstr file "usersays" = true
  · rw [if_pos hu]
    exact ⟨m, rfl⟩
  · rw [if_neg hu]
    by_cases hfb : (contentAsObj f.content).fallbackIntent = some true
    · rw [if_pos hfb]
      have hs := skipDefaultIntentProps_fallback_isSome
        { phrases := some [], entities := none, dialogflow := none }
        (contentAsObj f.content) locale hfb
      cases hdlg : (skipDefaultIntentProps
          { phrases := some [], entities := none, dialogflow := none }
          (contentAsObj f.content) locale).dialogflow with
      | none => rw [hdlg] at hs; cases hs
      | some hrec =>
        exact ⟨_, rfl⟩
    · rw [if_neg hfb]
      by_cases hwel : (((contentAsObj f.content).events.getD []).head?.bind (·.name)) =
          some "WELCOME"
      · rw [if_pos hwel]
        have hne : ((contentAsObj f.content).events.getD []) ≠ [] := by
          intro hcon
          rw [hcon] at hwel
          simp at hwel
        have hs := skipDefaultIntentProps_welcome_isSome
          { phrases := some [], entities := none, dialogflow := none }
          (contentAsObj f.content) locale hne
        cases hdlg : (skipDefaultIntentProps
            { phrases := some [], entities := none, dialogflow := none }
            (contentAsObj f.content) locale).dialogflow with
        | none => rw [hdlg] at hs; cases hs
        | some hrec =>
          cases hmd : m.dialogflow.bind (·.intents) with
          | none => exact ⟨_, rfl⟩
          | some l => exact ⟨_, rfl⟩
      · rw [if_neg hwel]
        cases hfind : all.find? (fun f2 => f2.path.get? 1 =
            some ((contentAsObj f.content).name.getD "undefined" ++ "_usersays_" ++
              locale ++ ".json")) with
        | none =>
          exact ⟨_, rfl⟩
        | some uf =>
          have hmem := List.mem_of_find?_eq_some hfind
          have hpred := List.find?_some hfind
          rw [decide_eq_true_eq] at hpred
          obtain ⟨items, hcontent, hdata⟩ := hus uf hmem _ hpred
            (hasSubstr_usersays ((contentAsObj f.content).name.getD "undefined") locale)
          obtain ⟨ji', hji'⟩ := foldlM_all_ok items
            (fun b a ha => applyUserSays_ok b a (hdata a ha))
            (if entitiesFromResponses ((contentAsObj f.content).responses.getD []) ≠ [] then
              { phrases := (skipDefaultIntentProps
                  { phrases := some [], entities := none, dialogflow := none }
                  (contentAsObj f.content) locale).phrases
                entities := some (entitiesFromResponses ((contentAsObj f.content).responses.getD []))
                dialogflow := (skipDefaultIntentProps
                  { phrases := some [], entities := none, dialogflow := none }
                  (contentAsObj f.content) locale).dialogflow }
             else skipDefaultIntentProps
                  { phrases := some [], entities := none, dialogflow := none }
                  (contentAsObj f.content) locale)
          simp only [hcontent]
          rw [hji']
          exact ⟨_, rfl⟩

lemma applyEntry_ok (o : DFObjContent) (vals : List EntityTypeValueU) (it : DFArrItem)
    (hs : it.synonyms ≠ none) : ∃ vals', applyEntry o vals it = .ok vals' := by
  simp only [applyEntry]
  split
  · cases hsyn : it.synonyms with
    | none => exact absurd hsyn hs
    | some syns => exact ⟨_, rfl⟩
  · exact ⟨_, rfl⟩

lemma processEntityFile_ok (all : List NativeFile) (locale : String)
    (m : JovoModelU) (f : NativeFile)
    (hpath : f.path.get? 1 ≠ none)
    (hen : ∀ f2 ∈ all, ∀ file2, f2.path.get? 1 = some file2 →
      hasSubstr file2 "entries" = true →
      ∃ items, f2.content = .arr items ∧ ∀ it ∈ items, it.synonyms ≠ none) :
    ∃ m', processEntityFile all locale m f = .ok m' := by
  obtain ⟨file, hfile⟩ := Option.ne_none_iff_exists'.mp hpath
  simp only [processEntityFile, hfile]
  by_cases hu : hasSubstr file "entries" = true
  · rw [if_pos hu]
    exact ⟨m, rfl⟩
  · rw [if_neg hu]
    cases hfind : all.find? (fun f2 => f2.path.get? 1 =
        some ((contentAsObj f.content).name.getD "undefined" ++ "_entries_" ++
          locale ++ ".json")) with
    | none => exact ⟨_, rfl⟩
    | some ef =>
      have hmem := List.mem_of_find?_eq_some hfind
      have hpred := List.find?_some hfind
      rw [decide_eq_true_eq] at hpred
      obtain ⟨items, hcontent, hdata⟩ := hen ef hmem _ hpred
        (hasSubstr_entries ((contentAsObj f.content).name.getD "undefined") locale)
      obtain ⟨vals', hvals'⟩ := foldlM_all_ok items
        (fun b a ha => applyEntry_ok (contentAsObj f.content) b a (hdata a ha)) []
      simp only [hcontent]
      rw [hvals']
      exact ⟨_, rfl⟩

/-- C2 (amended): the importer terminates normally on every native file set
    in which (a) every `intents/` or `entities/` file path has a second
    segment, (b) every usersays companion is an array of records each
    carrying a `data` array, and (c) every entries companion is an array of
    entries each carrying a `synonyms` array; within that class, absent
    optional fields degrade to empty defaults silently.  Outside it the
    importer can raise a TypeError. -/
theorem C2_import_termination (files : List NativeFile) (locale : String)
    (hlen : ∀ f ∈ files, (isIntentsFile f = true ∨ isEntitiesFile f = true) →
      f.path.get? 1 ≠ none)
    (hus : ∀ f ∈ files, isIntentsFile f = true → ∀ file, f.path.get? 1 = some file →
      hasSubstr file "usersays" = true →
      ∃ items, f.content = .arr items ∧ ∀ it ∈ items, it.data ≠ none)
    (hen : ∀ f ∈ files, isEntitiesFile f = true → ∀ file, f.path.get? 1 = some file →
      hasSubstr file "entries" = true →
      ∃ items, f.content = .arr items ∧ ∀ it ∈ items, it.synonyms ≠ none) :
    ∃ m, toJovoModel files locale = .ok m := by
  simp only [toJovoModel]
  obtain ⟨m1, hm1⟩ := @foldlM_all_ok NativeFile JovoModelU (processIntentFile (files.filter isIntentsFile) locale)
    (files.filter isIntentsFile)
    (fun b a ha => processIntentFile_ok _ locale b a
      (hlen a (List.mem_filter.mp ha).1 (Or.inl (List.mem_filter.mp ha).2))
      (fun f2 hf2 => hus f2 (List.mem_filter.mp hf2).1 (List.mem_filter.mp hf2).2))
    { version := some "4.0", invocation := some "", isV3 := false
      intents := some [], entityTypes := some [], dialogflow := none }
  rw [hm1]
  exact @foldlM_all_ok NativeFile JovoModelU (processEntityFile (files.filter isEntitiesFile) locale)
    (files.filter isEntitiesFile)
    (fun b a ha => processEntityFile_ok _ locale b a
      (hlen a (List.mem_filter.mp ha).1 (Or.inr (List.mem_filter.mp ha).2))
      (fun f2 hf2 => hen f2 (List.mem_filter.mp hf2).1 (List.mem_filter.mp hf2).2)) m1

/-- C2 counterexample: an entries file whose entry has no `synonyms` array
    makes the importer raise (the code iterates `entry.synonyms`
    unguarded), refuting "the importer never raises". -/
theorem C2_counterexample :
    toJovoModel
      [⟨["entities", "T.json"], .obj { name := some "T" }⟩,
       ⟨["entities", "T_entries_en.json"], .arr [{ value := some "x" }]⟩] "en" =
      .error "TypeError: entry.synonyms is not iterable" := by
  decide

/-- Witness for C2 at a concrete input. -/
theorem C2_import_termination_witness :
    ∃ m, toJovoModel [⟨["intents", "A.json"], .obj { name := some "A" }⟩] "en" = .ok m :=
  C2_import_termination [⟨["intents", "A.json"], .obj { name := some "A" }⟩] "en"
    (by
      intro f hf _
      rw [List.mem_singleton] at hf
      subst hf
      decide)
    (by
      intro f hf _ file hfile hsub
      rw [List.mem_singleton] at hf
      subst hf
      simp only [List.get?] at hfile
      have hfe : file = "A.json" := by
        simpa using hfile.symm
      subst hfe
      exact absurd hsub (by decide))
    (by
      intro f hf hent
      rw [List.mem_singleton] at hf
      subst hf
      simp [isEntitiesFile] at hent)

/-- A literal-text segment. -/
def litSeg (t : List Char) : DFUSData :=
  { text := some ⟨t⟩, userDefined := some false }

/-- An entity segment for the placeholder `entity`. -/
def entSeg (hasEnts : Bool) (ents : List (String × IntentEntity))
    (paramsOpt : Option (List DFParameter)) (entity : String) : DFUSData :=
  { text := some (if hasEnts then entitySegText ents entity else entity)
    userDefined := some true
    «alias» := (match paramsOpt with
      | some ps => segAliasMeta ps entity
      | none => (none, none)).1
    meta := (match paramsOpt with
      | some ps => segAliasMeta ps entity
      | none => (none, none)).2 }

/-- Declarative tokenization of a phrase along its marker list: before each
    marker the literal since the previous position is emitted iff
    non-empty, each marker emits one entity segment, and after the last
    marker the trailing literal is emitted iff non-empty. -/
def refSegments (hasEnts : Bool) (ents : List (String × IntentEntity))
    (paramsOpt : Option (List DFParameter)) (cs : List Char) :
    List (Nat × Nat) → Nat → List DFUSData
  | [], pos => if pos < cs.length then [litSeg (cs.drop pos)] else []
  | (i, j) :: rest, pos =>
    (if listSlice cs pos i ≠ [] then [litSeg (listSlice cs pos i)] else []) ++
      [entSeg hasEnts ents paramsOpt ⟨listSlice cs (i + 1) j⟩] ++
      refSegments hasEnts ents paramsOpt cs rest (j + 1)

/-- Declarative form of the phrase tokenizer: a phrase with no markers is a
    single literal segment holding the whole phrase; otherwise the marker
    list drives `refSegments`, so a literal segment is skipped exactly when
    its text is empty — whether it precedes the first marker, lies between
    consecutive markers, or trails the last one. -/
def refTokenize (hasEnts : Bool) (ents : List (String × IntentEntity))
    (paramsOpt : Option (List DFParameter)) (phrase : String) : List DFUSData :=
  let cs := phrase.toList
  let ms := braceScan cs 0 (cs.length + 1)
  if ms = [] then [{ text := some phrase, userDefined := some false }]
  else refSegments hasEnts ents paramsOpt cs ms 0

lemma stringMk_eq_empty_iff (l : List Char) : (⟨l⟩ : String) = "" ↔ l = [] := by
  rw [String.ext_iff]

lemma phrase_fold_eq (hasEnts : Bool) (ents : List (String × IntentEntity))
    (paramsOpt : Option (List DFParameter)) (cs : List Char) :
    ∀ (ms : List (Nat × Nat)) (pos : Nat) (acc : List DFUSData),
      (let r := ms.foldl (fun pd ij =>
        let pos := pd.1; let data := pd.2
        let i := ij.1; let j := ij.2
        let text : String := ⟨listSlice cs pos i⟩
        let entity : String := ⟨listSlice cs (i + 1) j⟩
        let data := if text ≠ "" then
            data ++ [{ text := some text, userDefined := some false }] else data
        let t := if hasEnts then entitySegText ents entity else entity
        let am : Option String × Option String := match paramsOpt with
          | some ps => segAliasMeta ps entity
          | none => (none, none)
        (j + 1, data ++ [{ text := some t, userDefined := some true
                           «alias» := am.1, meta := am.2 }])) (pos, acc)
       if r.1 < cs.length then
         r.2 ++ [{ text := some ⟨cs.drop r.1⟩, userDefined := some false }]
       else r.2) =
      acc ++ refSegments hasEnts ents paramsOpt cs ms pos := by
  intro ms
  induction ms with
  | nil =>
    intro pos acc
    simp only [List.foldl_nil, refSegments, litSeg]
    split <;> simp
  | cons ij rest ih =>
    intro pos acc
    obtain ⟨i, j⟩ := ij
    simp only [List.foldl_cons]
    rw [ih]
    by_cases hlit : listSlice cs pos i = []
    · simp [refSegments, litSeg, entSeg, stringMk_eq_empty_iff, hlit, List.append_assoc]
    · simp [refSegments, litSeg, entSeg, stringMk_eq_empty_iff, hlit, List.append_assoc]

lemma refSegments_ne_nil (hasEnts : Bool) (ents : List (String × IntentEntity))
    (paramsOpt : Option (List DFParameter)) (cs : List Char)
    (i j : Nat) (rest : List (Nat × Nat)) (pos : Nat) :
    refSegments hasEnts ents paramsOpt cs ((i, j) :: rest) pos ≠ [] := by
  simp [refSegments]

/-- C6 (amended): during export tokenization, scanning markers left to
    right, a literal-text segment is skipped exactly when its text is
    empty — whether it precedes the first marker, sits between consecutive
    markers, or trails the last marker; every non-empty literal segment is
    emitted; each marker emits one entity segment; and a phrase with no
    markers becomes a single literal segment. -/
theorem C6_phrase_tokenization (hasEnts : Bool) (ents : List (String × IntentEntity))
    (paramsOpt : Option (List DFParameter)) (phrase : String) :
    buildPhraseData hasEnts ents paramsOpt phrase =
      refTokenize hasEnts ents paramsOpt phrase := by
  simp only [buildPhraseData, refTokenize]
  have hfold := phrase_fold_eq hasEnts ents paramsOpt phrase.toList
    (braceScan phrase.toList 0 (phrase.toList.length + 1)) 0 []
  simp only [List.nil_append] at hfold
  rw [hfold]
  cases hms : braceScan phrase.toList 0 (phrase.toList.length + 1) with
  | nil =>
    simp only [refSegments, if_pos rfl, litSeg]
    by_cases hlen : 0 < phrase.toList.length
    · rw [if_pos hlen]
      simp
    · rw [if_neg hlen]
      simp
  | cons ij rest =>
    obtain ⟨i, j⟩ := ij
    rw [if_neg (refSegments_ne_nil hasEnts ents paramsOpt phrase.toList i j rest 0),
      if_neg (by simp)]

/-- C6 counterexample: in "{a}{b}" the literal between the two consecutive
    markers is empty and is NOT emitted — the output holds exactly the two
    entity segments — although the claim requires empty literals between
    consecutive markers to be emitted. -/
theorem C6_counterexample :
    braceScan ("{a}{b}".toList) 0 ("{a}{b}".toList.length + 1) = [(0, 2), (3, 5)] ∧
    buildPhraseData false []
      (some [{ name := some "a", dataType := some "@T" },
             { name := some "b", dataType := some "@T" }]) "{a}{b}" =
      [{ text := some "a", userDefined := some true, «alias» := some "a", meta := some "@T" },
       { text := some "b", userDefined := some true, «alias» := some "b", meta := some "@T" }] := by
  constructor
  · decide
  · decide

/- ## The exporter's persistent effect on the caller's model -/

/-- The `isEnum` flag of the generated native entity record, as the export
    computes it from the entity type's vendor hatch (template merged with
    the object-form hatch). -/
def etExportIsEnum (d : Option EntityTypeDF) : Bool :=
  match d with
  | some (.patch p) => boolTruthy (oMerge DIALOGFLOW_LM_ENTITY.isEnum p.isEnum)
  | _ => boolTruthy DIALOGFLOW_LM_ENTITY.isEnum

def etExportIsRegexp (d : Option EntityTypeDF) : Bool :=
  match d with
  | some (.patch p) => boolTruthy (oMerge DIALOGFLOW_LM_ENTITY.isRegexp p.isRegexp)
  | _ => boolTruthy DIALOGFLOW_LM_ENTITY.isRegexp

/-- The persistent effect of exporting one entity-type value: its declared
    synonyms are sanitized in place (unless the generated record is
    enum- or regexp-flagged). -/
def valueSan (isEnumB isRegexpB : Bool) (v : EntityTypeValueU) : EntityTypeValueU :=
  match v with
  | .str s => .str s
  | .obj vo =>
    if ¬ isEnumB ∧ ¬ isRegexpB then
      .obj { vo with synonyms := vo.synonyms.map (List.map sanitize) }
    else .obj vo

/-- The persistent effect of exporting one referenced entity type. -/
def sanitizeET (et : EntityType) : EntityType :=
  { et with values := et.values.map (List.map
      (valueSan (etExportIsEnum et.dialogflow) (etExportIsRegexp et.dialogflow))) }

/-- The entries-file record the export emits for one entity-type value. -/
def entryFor (isEnumB isRegexpB : Bool) (v : EntityTypeValueU) : DFArrItem :=
  match v with
  | .str s => { value := some s }
  | .obj vo =>
    if ¬ isEnumB ∧ ¬ isRegexpB then
      { value := vo.value
        synonyms := some (sanitize (vo.value.getD "") :: (vo.synonyms.getD []).map sanitize) }
    else { value := vo.value }

/-- The bare custom type name an intent entity refers to, if any. -/
def customTypeName (ed : IntentEntity) : Option String :=
  match ed.type with
  | some (.str s) => if strStartsWith s "@sys." then none else some s
  | some (.obj (some s)) => if strStartsWith s "@sys." then none else some s
  | _ => none

/-- The custom entity-type names referenced by one intent's entities, in
    declaration order (resolved through the accessor layer by key, exactly
    as the export does). -/
def refTypeNamesOfIntent (model : JovoModelU) (ik : String) : List String :=
  if JovoModelHelper.hasEntities model ik then
    (JovoModelHelper.getEntities model ik).flatMap (fun kv => (customTypeName kv.2).toList)
  else []

/-- All custom entity-type names referenced across the model's intents. -/
def refTypeNames (model : JovoModelU) : List String :=
  (JovoModelHelper.getIntents model).flatMap (fun kv => refTypeNamesOfIntent model kv.1)

/-- The caller's model as the exporter leaves it: referenced entity types
    have their values' synonym lists sanitized in place, and the
    `userSays`/`entries` sub-fields of the model-level vendor escape-hatch
    records are deleted; nothing else — in particular no canonical intent —
    is modified. -/
def modelAfterExport (model : JovoModelU) : JovoModelU :=
  { model with
    entityTypes := model.entityTypes.map (List.map (fun kv =>
      if kv.1 ∈ refTypeNames model then (kv.1, sanitizeET kv.2) else kv))
    dialogflow := model.dialogflow.map (fun h =>
      { intents := h.intents.map (List.map (fun r => { r with userSays := none }))
        entities := h.entities.map (List.map (fun r => { r with entries := none })) }) }

lemma sanitize_idem (s : String) : sanitize (sanitize s) = sanitize s := by
  simp [sanitize, List.filter_filter]

lemma valueSan_idem (e r : Bool) (v : EntityTypeValueU) :
    valueSan e r (valueSan e r v) = valueSan e r v := by
  cases v with
  | str s => simp [valueSan]
  | obj vo =>
    by_cases hc : e = false ∧ r = false
    · have hif : (¬ e = true ∧ ¬ r = true) := ⟨by simp [hc.1], by simp [hc.2]⟩
      simp only [valueSan, if_pos hif]
      congr 1
      cases vo.synonyms with
      | none => rfl
      | some l =>
        simp [Function.comp_def, sanitize_idem]
    · have hif : ¬ (¬ e = true ∧ ¬ r = true) := by
        intro h2
        exact hc ⟨by simpa using h2.1, by simpa using h2.2⟩
      simp [valueSan, hif, hc]

lemma exportEntityValue_fold (e r : Bool) :
    ∀ (vs : List EntityTypeValueU) (acc1 : List DFArrItem) (acc2 : List EntityTypeValueU)
      (es : List DFArrItem) (vs' : List EntityTypeValueU),
      vs.foldlM (exportEntityValue e r) (acc1, acc2) = .ok (es, vs') →
      es = acc1 ++ vs.map (entryFor e r) ∧ vs' = acc2 ++ vs.map (valueSan e r) := by
  intro vs
  induction vs with
  | nil =>
    intro acc1 acc2 es vs' h
    rw [List.foldlM_nil] at h
    cases h
    simp
  | cons v t ih =>
    intro acc1 acc2 es vs' h
    rw [List.foldlM_cons] at h
    cases v with
    | str s =>
      simp only [exportEntityValue, except_ok_bind] at h
      obtain ⟨h1, h2⟩ := ih _ _ _ _ h
      constructor
      · rw [h1]; simp [entryFor]
      · rw [h2]; simp [valueSan]
    | obj vo =>
      obtain ⟨vov, vos⟩ := vo
      by_cases hc : ¬ e = true ∧ ¬ r = true
      · cases hval : vov with
        | none =>
          simp only [exportEntityValue, if_pos hc, hval] at h
          cases h
        | some sv =>
          cases hsyn : vos with
          | none =>
            simp only [exportEntityValue, if_pos hc, hval, hsyn, except_ok_bind] at h
            obtain ⟨h1, h2⟩ := ih _ _ _ _ h
            constructor
            · rw [h1]; simp [entryFor, hc.1, hc.2, hval, hsyn, List.append_assoc]
            · rw [h2]; simp [valueSan, hc.1, hc.2, hsyn, List.append_assoc]
          | some syns =>
            simp only [exportEntityValue, if_pos hc, hval, hsyn, except_ok_bind] at h
            obtain ⟨h1, h2⟩ := ih _ _ _ _ h
            constructor
            · rw [h1]; simp [entryFor, hc.1, hc.2, hval, hsyn, List.append_assoc]
            · rw [h2]; simp [valueSan, hc.1, hc.2, hsyn, List.append_assoc]
      · simp only [exportEntityValue, if_neg hc, except_ok_bind] at h
        obtain ⟨h1, h2⟩ := ih _ _ _ _ h
        have hc2 : ¬ (e = false ∧ r = false) := by simpa using hc
        constructor
        · rw [h1]; simp [entryFor, hc2, List.append_assoc]
        · rw [h2]; simp [valueSan, hc2, List.append_assoc]

def mapIfRefs (refs : List String) (l : List (String × EntityType)) :
    List (String × EntityType) :=
  l.map (fun kv => if kv.1 ∈ refs then (kv.1, sanitizeET kv.2) else kv)

def applyRefs (refs : List String) (mdl : JovoModelU) : JovoModelU :=
  { mdl with entityTypes := mdl.entityTypes.map (mapIfRefs refs) }

lemma mapIfRefs_nil (l : List (String × EntityType)) : mapIfRefs [] l = l := by
  simp [mapIfRefs]

lemma applyRefs_nil (mdl : JovoModelU) : applyRefs [] mdl = mdl := by
  cases hm : mdl.entityTypes with
  | none => simp [applyRefs, hm]; cases mdl; simp_all
  | some l => simp [applyRefs, hm, mapIfRefs_nil]; cases mdl; simp_all

lemma alGet_mapIfRefs (refs : List String) (l : List (String × EntityType)) (k : String) :
    alGet (mapIfRefs refs l) k =
      if k ∈ refs then (alGet l k).map sanitizeET else alGet l k := by
  induction l with
  | nil => simp [mapIfRefs, alGet]
  | cons kv t ih =>
    obtain ⟨kk, vv⟩ := kv
    show alGet ((if kk ∈ refs then (kk, sanitizeET vv) else (kk, vv)) :: mapIfRefs refs t) k = _
    by_cases hr : kk ∈ refs
    · rw [if_pos hr]
      by_cases hk : kk = k
      · subst hk
        simp [alGet, hr]
      · simp only [alGet, if_neg hk]
        rw [ih]
    · rw [if_neg hr]
      by_cases hk : kk = k
      · subst hk
        simp [alGet, hr]
      · simp only [alGet, if_neg hk]
        rw [ih]

lemma alSet_self {α : Type} : ∀ (l : List (String × α)) (k : String) (v : α),
    alGet l k = some v → alSet l k v = l := by
  intro l
  induction l with
  | nil => intro k v h; simp [alGet] at h
  | cons kv t ih =>
    intro k v h
    obtain ⟨kk, vv⟩ := kv
    by_cases hk : kk = k
    · subst hk
      have h2 : vv = v := by simpa [alGet] using h
      subst h2
      simp [alSet]
    · have h2 : alGet t k = some v := by simpa [alGet, hk] using h
      simp [alSet, hk, ih k v h2]

lemma mapIfRefs_congr (refs1 refs2 : List String) (l : List (String × EntityType))
    (h : ∀ kv ∈ l, (kv.1 ∈ refs1 ↔ kv.1 ∈ refs2)) :
    mapIfRefs refs1 l = mapIfRefs refs2 l := by
  simp only [mapIfRefs]
  apply List.map_congr_left
  intro kv hkv
  by_cases h1 : kv.1 ∈ refs1
  · rw [if_pos h1, if_pos ((h kv hkv).mp h1)]
  · rw [if_neg h1, if_neg (fun h2 => h1 ((h kv hkv).mpr h2))]

lemma alSet_mapIfRefs (refs : List String) :
    ∀ (l : List (String × EntityType)) (k : String) (et0 : EntityType),
      (l.map Prod.fst).Nodup → alGet l k = some et0 →
      alSet (mapIfRefs refs l) k (sanitizeET et0) = mapIfRefs (refs ++ [k]) l := by
  intro l
  induction l with
  | nil => intro k et0 _ h; simp [alGet] at h
  | cons kv t ih =>
    intro k et0 hN hget
    obtain ⟨kk, vv⟩ := kv
    simp only [List.map_cons, List.nodup_cons] at hN
    by_cases hk : kk = k
    · subst hk
      have hget2 : vv = et0 := by simpa [alGet] using hget
      subst hget2
      show alSet ((if kk ∈ refs then (kk, sanitizeET vv) else (kk, vv)) :: mapIfRefs refs t)
        kk (sanitizeET vv) = _
      have hhead : mapIfRefs (refs ++ [kk]) ((kk, vv) :: t) =
          (kk, sanitizeET vv) :: mapIfRefs (refs ++ [kk]) t := by
        show (if kk ∈ refs ++ [kk] then (kk, sanitizeET vv) else (kk, vv)) :: _ = _
        rw [if_pos (by simp)]
        rfl
      rw [hhead]
      have htail : mapIfRefs (refs ++ [kk]) t = mapIfRefs refs t := by
        apply mapIfRefs_congr
        intro kv2 hkv2
        have hne : kv2.1 ≠ kk := by
          intro he
          exact hN.1 (he ▸ List.mem_map_of_mem Prod.fst hkv2)
        simp [hne]
      rw [htail]
      by_cases hr : kk ∈ refs
      · rw [if_pos hr]
        simp [alSet]
      · rw [if_neg hr]
        simp [alSet]
    · have hget2 : alGet t k = some et0 := by simpa [alGet, hk] using hget
      show alSet ((if kk ∈ refs then (kk, sanitizeET vv) else (kk, vv)) :: mapIfRefs refs t)
        k (sanitizeET et0) = _
      have hr2 : (kk ∈ refs ++ [k]) ↔ kk ∈ refs := by
        simp [hk]
      by_cases hr : kk ∈ refs
      · rw [if_pos hr]
        have hcons : mapIfRefs (refs ++ [k]) ((kk, vv) :: t) =
            (kk, sanitizeET vv) :: mapIfRefs (refs ++ [k]) t := by
          show (if kk ∈ refs ++ [k] then (kk, sanitizeET vv) else (kk, vv)) :: _ = _
          rw [if_pos (hr2.mpr hr)]
          rfl
        rw [hcons]
        simp only [alSet, if_neg hk]
        rw [ih k et0 hN.2 hget2]
      · rw [if_neg hr]
        have hcons : mapIfRefs (refs ++ [k]) ((kk, vv) :: t) =
            (kk, vv) :: mapIfRefs (refs ++ [k]) t := by
          show (if kk ∈ refs ++ [k] then (kk, sanitizeET vv) else (kk, vv)) :: _ = _
          rw [if_neg (fun h2 => hr (hr2.mp h2))]
          rfl
        rw [hcons]
        simp only [alSet, if_neg hk]
        rw [ih k et0 hN.2 hget2]

lemma sanitizeET_dialogflow (et : EntityType) : (sanitizeET et).dialogflow = et.dialogflow := rfl



lemma sanitizeET_values_none {et : EntityType} (h : et.values = none) : sanitizeET et = et := by
  obtain ⟨vals, dlg⟩ := et
  have h2 : vals = none := h
  subst h2
  rfl

lemma sanitizeET_values_nil {et : EntityType} (h : et.values = some []) : sanitizeET et = et := by
  obtain ⟨vals, dlg⟩ := et
  have h2 : vals = some [] := h
  subst h2
  rfl

lemma sanitizeET_idem (et : EntityType) : sanitizeET (sanitizeET et) = sanitizeET et := by
  obtain ⟨vals, dlg⟩ := et
  cases vals with
  | none => rfl
  | some vs =>
    simp [sanitizeET, List.map_map, Function.comp_def, valueSan_idem]

lemma alGet_of_mem_nodup {α : Type} :
    ∀ (l : List (String × α)), (l.map Prod.fst).Nodup →
      ∀ kv ∈ l, alGet l kv.1 = some kv.2 := by
  intro l
  induction l with
  | nil => intro _ kv h; simp at h
  | cons hd t ih =>
    intro hN kv hkv
    obtain ⟨kk, vv⟩ := hd
    simp only [List.map_cons, List.nodup_cons] at hN
    cases hkv with
    | head => simp [alGet]
    | tail _ hmem =>
      have hne : kk ≠ kv.1 := by
        intro he
        exact hN.1 (he ▸ List.mem_map_of_mem Prod.fst hmem)
      simpa [alGet, hne] using ih hN.2 kv hmem

lemma mapIfRefs_append_mem (S : List String) (l : List (String × EntityType))
    (k : String) (hk : k ∈ S) : mapIfRefs (S ++ [k]) l = mapIfRefs S l := by
  apply mapIfRefs_congr
  intro kv _
  constructor
  · intro h
    rcases List.mem_append.mp h with h | h
    · exact h
    · simp at h; exact h ▸ hk
  · intro h
    exact List.mem_append.mpr (Or.inl h)

lemma mapIfRefs_append_fixed (S : List String) (l : List (String × EntityType))
    (k : String) (et0 : EntityType)
    (hN : (l.map Prod.fst).Nodup) (hget : alGet l k = some et0)
    (hfix : sanitizeET et0 = et0) :
    mapIfRefs (S ++ [k]) l = mapIfRefs S l := by
  simp only [mapIfRefs]
  apply List.map_congr_left
  intro kv hkv
  by_cases h1 : kv.1 ∈ S
  · rw [if_pos (List.mem_append.mpr (Or.inl h1)), if_pos h1]
  · by_cases h2 : kv.1 = k
    · have hv : kv.2 = et0 := by
        have := alGet_of_mem_nodup l hN kv hkv
        rw [h2, hget] at this
        exact (Option.some_inj.mp this).symm
      rw [if_neg h1, if_pos (by simp [h2])]
      rw [hv, hfix, ← hv]
    · rw [if_neg (by simp [h1, h2]), if_neg h1]

/-- `sanitizeET` in explicit form when values are present. -/
lemma sanitizeET_values_some {et : EntityType} {vs : List EntityTypeValueU}
    (h : et.values = some vs) :
    sanitizeET et = { et with values := some (vs.map
      (valueSan (etExportIsEnum et.dialogflow) (etExportIsRegexp et.dialogflow))) } := by
  obtain ⟨vals, dlg⟩ := et
  have h2 : vals = some vs := h
  subst h2
  rfl

lemma applyRefs_entityTypes (S : List String) (m : JovoModelU) :
    (applyRefs S m).entityTypes = m.entityTypes.map (mapIfRefs S) := rfl

lemma exportIntentEntityCore_model (locale : String) (gen : Nat → String)
    (M : JovoModelU) (ctr : Nat) (dt : String)
    (s : String) (fs : List NativeFile) (m' : JovoModelU) (ctr' : Nat)
    (hsys : strStartsWith dt "@sys." = false)
    (h : exportIntentEntityCore locale gen M ctr dt = .ok (s, fs, m', ctr')) :
    ∃ et, JovoModelHelper.getEntityTypeByName M dt = some et ∧
      ((m' = M ∧ sanitizeET et = et) ∨
       m' =
        { M with entityTypes := some (alSet (M.entityTypes.getD []) dt (sanitizeET et)) }) := by
  simp only [exportIntentEntityCore, hsys, Bool.false_eq_true, if_false] at h
  by_cases hhE : JovoModelHelper.hasEntityTypes M = true
  case neg =>
    rw [if_pos (by simp [hhE])] at h
    cases h
  case pos =>
    rw [if_neg (by simp [hhE])] at h
    cases hacc : JovoModelHelper.getEntityTypeByName M dt with
    | none =>
      rw [hacc] at h
      cases h
    | some et =>
      rw [hacc] at h
      refine ⟨et, rfl, ?_⟩
      cases hvals : et.values with
      | none =>
        simp only [hvals] at h
        simp only [Except.ok.injEq, Prod.mk.injEq] at h
        exact Or.inl ⟨h.2.2.1.symm, sanitizeET_values_none hvals⟩
      | some vs =>
        simp only [hvals] at h
        by_cases hnil : vs = []
        · subst hnil
          rw [if_neg (by simp)] at h
          simp only [Except.ok.injEq, Prod.mk.injEq] at h
          exact Or.inl ⟨h.2.2.1.symm, sanitizeET_values_nil hvals⟩
        · rw [if_pos (by simpa using hnil)] at h
          refine Or.inr ?_
          rcases hdlg : et.dialogflow with _ | (s2 | pt)
          all_goals (
            simp only [hdlg] at h
            split at h
            next => cases h
            next entries vs2 heq =>
              simp only [Except.ok.injEq, Prod.mk.injEq] at h
              obtain ⟨hvs1, hvs2⟩ := exportEntityValue_fold _ _ vs [] [] entries vs2 heq
              rw [← h.2.2.1]
              rw [sanitizeET_values_some hvals, hdlg]
              simp only [etExportIsEnum, etExportIsRegexp]
              rw [hvs2]
              rfl)

lemma exportIntentEntityCore_state (locale : String) (gen : Nat → String)
    (model0 : JovoModelU) (S : List String) (ctr : Nat) (dt : String)
    (s : String) (fs : List NativeFile) (m' : JovoModelU) (ctr' : Nat)
    (hN : ((model0.entityTypes.getD []).map Prod.fst).Nodup)
    (h : exportIntentEntityCore locale gen (applyRefs S model0) ctr dt =
      .ok (s, fs, m', ctr')) :
    m' = applyRefs (S ++ (if strStartsWith dt "@sys." then [] else [dt])) model0 := by
  by_cases hsys : strStartsWith dt "@sys." = true
  · simp only [exportIntentEntityCore, if_pos hsys] at h
    simp only [Except.ok.injEq, Prod.mk.injEq] at h
    rw [hsys]
    simp [← h.2.2.1]
  · rw [if_neg hsys]
    have hsys2 : strStartsWith dt "@sys." = false := by simpa using hsys
    obtain ⟨et, hacc, hcase⟩ :=
      exportIntentEntityCore_model locale gen (applyRefs S model0) ctr dt _ _ _ _ hsys2 h
    obtain ⟨ver, inv, v3, ints, ets, dlg⟩ := model0
    cases ets with
    | none =>
      exact absurd hacc (by simp [JovoModelHelper.getEntityTypeByName, applyRefs, alGet])
    | some l =>
      have hNl : (l.map Prod.fst).Nodup := by simpa using hN
      have hget2 : alGet (mapIfRefs S l) dt = some et := by
        simpa [JovoModelHelper.getEntityTypeByName, applyRefs] using hacc
      rw [alGet_mapIfRefs] at hget2
      by_cases hmem : dt ∈ S
      · rw [if_pos hmem] at hget2
        cases halg : alGet l dt with
        | none => rw [halg] at hget2; cases hget2
        | some et0 =>
          rw [halg] at hget2
          simp only [Option.map_some', Option.some_inj] at hget2
          have hmaps : mapIfRefs (S ++ [dt]) l = mapIfRefs S l :=
            mapIfRefs_append_mem S l dt hmem
          have hfix : sanitizeET et = et := by
            rw [← hget2, sanitizeET_idem]
          rcases hcase with ⟨hm, _⟩ | hm
          · rw [hm]
            simp [applyRefs, hmaps]
          · rw [hm]
            have hself : alSet (mapIfRefs S l) dt (sanitizeET et) = mapIfRefs S l := by
              rw [hfix]
              exact alSet_self _ dt et
                (by rw [alGet_mapIfRefs, if_pos hmem, halg, Option.map_some', hget2])
            simp [applyRefs, hmaps, hself]
      · rw [if_neg hmem] at hget2
        rcases hcase with ⟨hm, hfix⟩ | hm
        · rw [hm]
          have hmaps : mapIfRefs (S ++ [dt]) l = mapIfRefs S l :=
            mapIfRefs_append_fixed S l dt et hNl hget2 hfix
          simp [applyRefs, hmaps]
        · rw [hm]
          have hset : alSet (mapIfRefs S l) dt (sanitizeET et) = mapIfRefs (S ++ [dt]) l :=
            alSet_mapIfRefs S l dt et hNl hget2
          simp [applyRefs, hset]

lemma exportIntentEntity_state (locale : String) (gen : Nat → String) (ik : String)
    (model0 : JovoModelU) (S : List String) (ctr : Nat) (ek : String) (ed : IntentEntity)
    (p : DFParameter) (fs : List NativeFile) (m' : JovoModelU) (ctr' : Nat)
    (hN : ((model0.entityTypes.getD []).map Prod.fst).Nodup)
    (h : exportIntentEntity locale gen ik (applyRefs S model0) ctr ek ed =
      .ok (p, fs, m', ctr')) :
    m' = applyRefs (S ++ (customTypeName ed).toList) model0 := by
  simp only [exportIntentEntity] at h
  cases hty : ed.type with
  | none => rw [hty] at h; cases h
  | some t =>
    rw [hty] at h
    cases t with
    | obj o =>
      cases o with
      | none => simp [resolveDataType, strTruthy] at h
      | some dt =>
        by_cases hdt : dt = ""
        · rw [hdt] at h
          simp [resolveDataType, strTruthy] at h
        · have hres : resolveDataType ek (.obj (some dt)) = .ok dt := by
            simp [resolveDataType, strTruthy, hdt]
          have hne2 : (IntentEntityTypeU.obj (some dt)) ≠ .str "" := by simp
          simp only [if_neg hne2, hres] at h
          split at h
          next => cases h
          next dt2 fs2 mm cc heq =>
            have hm := exportIntentEntityCore_state locale gen model0 S ctr dt _ _ _ _ hN heq
            cases hdf : ed.dialogflow with
            | none =>
              simp only [hdf] at h
              simp only [Except.ok.injEq, Prod.mk.injEq] at h
              rw [← h.2.2.1, hm]
              by_cases hc : strStartsWith dt "@sys." = true <;> simp [customTypeName, hty, hc]
            | some patch =>
              simp only [hdf] at h
              simp only [Except.ok.injEq, Prod.mk.injEq] at h
              rw [← h.2.2.1, hm]
              by_cases hc : strStartsWith dt "@sys." = true <;> simp [customTypeName, hty, hc]
    | str dt =>
      by_cases hdt : dt = ""
      · subst hdt
        simp [resolveDataType] at h
      · have hne2 : (IntentEntityTypeU.str dt) ≠ .str "" := by simp [hdt]
        simp only [if_neg hne2, resolveDataType] at h
        split at h
        next => cases h
        next dt2 fs2 mm cc heq =>
          have hm := exportIntentEntityCore_state locale gen model0 S ctr dt _ _ _ _ hN heq
          cases hdf : ed.dialogflow with
          | none =>
            simp only [hdf] at h
            simp only [Except.ok.injEq, Prod.mk.injEq] at h
            rw [← h.2.2.1, hm]
            by_cases hc : strStartsWith dt "@sys." = true <;> simp [customTypeName, hty, hc]
          | some patch =>
            simp only [hdf] at h
            simp only [Except.ok.injEq, Prod.mk.injEq] at h
            rw [← h.2.2.1, hm]
            by_cases hc : strStartsWith dt "@sys." = true <;> simp [customTypeName, hty, hc]

lemma entities_fold_state (locale : String) (gen : Nat → String) (ik : String)
    (model0 : JovoModelU)
    (hN : ((model0.entityTypes.getD []).map Prod.fst).Nodup) :
    ∀ (ents : List (String × IntentEntity)) (S : List String)
      (ps : List DFParameter) (fl : List NativeFile) (ctr : Nat)
      (out : List DFParameter × List NativeFile × JovoModelU × Nat),
      ents.foldlM (exportIntentEntityStep locale gen ik)
        (ps, fl, applyRefs S model0, ctr) = .ok out →
      out.2.2.1 =
        applyRefs (S ++ ents.flatMap (fun kv => (customTypeName kv.2).toList)) model0 := by
  intro ents
  induction ents with
  | nil =>
    intro S ps fl ctr out h
    rw [List.foldlM_nil] at h
    cases h
    simp
  | cons kv t ih =>
    intro S ps fl ctr out h
    rw [List.foldlM_cons] at h
    cases hstep : exportIntentEntity locale gen ik (applyRefs S model0) ctr kv.1 kv.2 with
    | error e =>
      simp only [exportIntentEntityStep, hstep] at h
      cases h
    | ok r =>
      obtain ⟨p, fs, mm, cc⟩ := r
      simp only [exportIntentEntityStep, hstep] at h
      have hmm := exportIntentEntity_state locale gen ik model0 S ctr kv.1 kv.2
        p fs mm cc hN hstep
      rw [hmm] at h
      have := ih (S ++ (customTypeName kv.2).toList) (ps ++ [p]) (fl ++ fs) cc out h
      rw [this]
      simp [List.flatMap_cons, List.append_assoc]

lemma hasEntities_applyRefs (S : List String) (m : JovoModelU) (ik : String) :
    JovoModelHelper.hasEntities (applyRefs S m) ik = JovoModelHelper.hasEntities m ik := rfl

lemma getEntities_applyRefs (S : List String) (m : JovoModelU) (ik : String) :
    JovoModelHelper.getEntities (applyRefs S m) ik = JovoModelHelper.getEntities m ik := rfl

lemma getIntents_applyRefs (S : List String) (m : JovoModelU) :
    JovoModelHelper.getIntents (applyRefs S m) = JovoModelHelper.getIntents m := rfl

lemma exportIntent_state (locale : String) (gen : Nat → String) (model0 : JovoModelU)
    (hN : ((model0.entityTypes.getD []).map Prod.fst).Nodup)
    (S : List String) (files : List NativeFile) (ctr : Nat) (ik : String) (idata : Intent)
    (out : List NativeFile × JovoModelU × Nat)
    (h : exportIntent locale gen (files, applyRefs S model0, ctr) ik idata = .ok out) :
    out.2.1 = applyRefs (S ++ refTypeNamesOfIntent model0 ik) model0 := by
  simp only [exportIntent] at h
  by_cases hhas : JovoModelHelper.hasEntities (applyRefs S model0) ik = true
  · simp only [hhas, if_true] at h
    split at h
    next => cases h
    next obj entFiles mm cc heq =>
      split at heq
      next => cases heq
      next params fs2 mm2 cc2 hfold =>
      simp only [Except.ok.injEq, Prod.mk.injEq] at heq
      have hmm : mm = applyRefs (S ++ (JovoModelHelper.getEntities (applyRefs S model0) ik).flatMap
          (fun kv => (customTypeName kv.2).toList)) model0 := by
        rw [← heq.2.2.1]
        exact entities_fold_state locale gen ik model0 hN
          (JovoModelHelper.getEntities (applyRefs S model0) ik) S [] [] (ctr + 1)
          (params, fs2, mm2, cc2) hfold
      have hout : out.2.1 = mm := by
        cases hdf : idata.dialogflow with
        | none =>
          simp only [hdf] at h
          cases h
          rfl
        | some hh =>
          simp only [hdf] at h
          cases h
          rfl
      rw [hout, hmm]
      have hhas0 : JovoModelHelper.hasEntities model0 ik = true := by
        rw [← hasEntities_applyRefs S]; exact hhas
      simp only [refTypeNamesOfIntent, hhas0, if_true, getEntities_applyRefs]
  · simp only [eq_false_of_ne_true hhas, Bool.false_eq_true, if_false] at h
    have hout : out.2.1 = applyRefs S model0 := by
      cases hdf : idata.dialogflow with
      | none =>
        simp only [hdf] at h
        cases h
        rfl
      | some hh =>
        simp only [hdf] at h
        cases h
        rfl
    rw [hout]
    have hhas0 : JovoModelHelper.hasEntities model0 ik = false := by
      rw [← hasEntities_applyRefs S]; exact eq_false_of_ne_true hhas
    simp [refTypeNamesOfIntent, hhas0]

lemma intents_fold_state (locale : String) (gen : Nat → String) (model0 : JovoModelU)
    (hN : ((model0.entityTypes.getD []).map Prod.fst).Nodup) :
    ∀ (ints : List (String × Intent)) (S : List String) (files : List NativeFile) (ctr : Nat)
      (out : List NativeFile × JovoModelU × Nat),
      ints.foldlM (fun st (kv : String × Intent) => exportIntent locale gen st kv.1 kv.2)
        (files, applyRefs S model0, ctr) = .ok out →
      out.2.1 =
        applyRefs (S ++ ints.flatMap (fun kv => refTypeNamesOfIntent model0 kv.1)) model0 := by
  intro ints
  induction ints with
  | nil =>
    intro S files ctr out h
    rw [List.foldlM_nil] at h
    cases h
    simp
  | cons kv t ih =>
    intro S files ctr out h
    rw [List.foldlM_cons] at h
    cases hstep : exportIntent locale gen (files, applyRefs S model0, ctr) kv.1 kv.2 with
    | error e =>
      rw [hstep] at h
      cases h
    | ok r =>
      obtain ⟨f1, mm, cc⟩ := r
      rw [hstep] at h
      have hmm := exportIntent_state locale gen model0 hN S files ctr kv.1 kv.2
        (f1, mm, cc) hstep
      simp only at hmm
      rw [hmm] at h
      have := ih (S ++ refTypeNamesOfIntent model0 kv.1) f1 cc out h
      rw [this]
      simp [List.flatMap_cons, List.append_assoc]

lemma hatch_strip_self {r : DFIntentHatch} (h : r.userSays = none) :
    ({ r with userSays := none } : DFIntentHatch) = r := by
  obtain ⟨i, n, a, c, p, w, wf, f, e, rs, us⟩ := r
  have h2 : us = none := h
  subst h2
  rfl

lemma hatchE_strip_self {r : DFEntityHatchRec} (h : r.entries = none) :
    ({ r with entries := none } : DFEntityHatchRec) = r := by
  obtain ⟨i, n, o, en, a, rx, fz, es⟩ := r
  have h2 : es = none := h
  subst h2
  rfl

lemma emitHatchIntent_fold (locale : String) :
    ∀ (l : List DFIntentHatch) (files : List NativeFile) (rs : List DFIntentHatch),
      (l.foldl (emitHatchIntent locale) (files, rs)).2 =
        rs ++ l.map (fun r => { r with userSays := none }) := by
  intro l
  induction l with
  | nil => intro files rs; simp
  | cons r t ih =>
    intro files rs
    rw [List.foldl_cons]
    cases hus : r.userSays with
    | some us =>
      simp only [emitHatchIntent, hus]
      rw [ih]
      simp
    | none =>
      simp only [emitHatchIntent, hus]
      rw [ih]
      rw [List.map_cons, hatch_strip_self hus]
      simp

lemma emitHatchEntity_fold (locale : String) :
    ∀ (l : List DFEntityHatchRec) (files : List NativeFile) (rs : List DFEntityHatchRec),
      (l.foldl (emitHatchEntity locale) (files, rs)).2 =
        rs ++ l.map (fun r => { r with entries := none }) := by
  intro l
  induction l with
  | nil => intro files rs; simp
  | cons r t ih =>
    intro files rs
    rw [List.foldl_cons]
    cases hes : r.entries with
    | some es =>
      simp only [emitHatchEntity, hes]
      rw [ih]
      simp
    | none =>
      simp only [emitHatchEntity, hes]
      rw [ih]
      rw [List.map_cons, hatchE_strip_self hes]
      simp

lemma fromJovoModel_state (model : JovoModelU) (locale : String) (gen : Nat → String)
    (files : List NativeFile) (m' : JovoModelU)
    (hN : ((model.entityTypes.getD []).map Prod.fst).Nodup)
    (h : fromJovoModel model locale gen = .ok (files, m')) :
    m' = modelAfterExport model := by
  simp only [fromJovoModel] at h
  split at h
  next => cases h
  next files1 model1 ctr1 heq =>
    have heq' : (JovoModelHelper.getIntents model).foldlM
        (fun st (kv : String × Intent) => exportIntent locale gen st kv.1 kv.2)
        ([], applyRefs [] model, 0) = .ok (files1, model1, ctr1) := by
      rw [applyRefs_nil]; exact heq
    have hmod : model1 = applyRefs (refTypeNames model) model := by
      have := intents_fold_state locale gen model hN
        (JovoModelHelper.getIntents model) [] [] 0 (files1, model1, ctr1) heq'
      simpa [refTypeNames] using this
    rw [hmod] at h
    obtain ⟨ver, inv, v3, ints, ets, dlg⟩ := model
    cases dlg with
    | none =>
      simp only [applyRefs] at h
      simp only [Option.bind, Except.ok.injEq, Prod.mk.injEq] at h
      rw [← h.2]
      cases ets <;> simp [modelAfterExport, mapIfRefs]
    | some hrec =>
      obtain ⟨hi, he⟩ := hrec
      simp only [applyRefs] at h
      cases hi with
      | none =>
        cases he with
        | none =>
          simp only [Option.some_bind, Option.getD_some, Except.ok.injEq, Prod.mk.injEq] at h
          rw [← h.2]
          cases ets <;> simp [modelAfterExport, mapIfRefs]
        | some le =>
          simp only [Option.some_bind, Option.getD_some, Except.ok.injEq, Prod.mk.injEq] at h
          rw [emitHatchEntity_fold] at h
          rw [← h.2]
          cases ets <;> simp [modelAfterExport, mapIfRefs]
      | some li =>
        cases he with
        | none =>
          simp only [Option.some_bind, Option.getD_some, Except.ok.injEq, Prod.mk.injEq] at h
          rw [emitHatchIntent_fold] at h
          rw [← h.2]
          cases ets <;> simp [modelAfterExport, mapIfRefs]
        | some le =>
          simp only [Option.some_bind, Option.getD_some, Except.ok.injEq, Prod.mk.injEq] at h
          rw [emitHatchIntent_fold, emitHatchEntity_fold] at h
          rw [← h.2]
          cases ets <;> simp [modelAfterExport, mapIfRefs]

/- ### C7 instances -/

/-- An entity type whose value declares the unsanitized synonym "a!b". -/
def c7xET : EntityType :=
  { values := some [.obj { value := some "x", synonyms := some ["a!b"] }] }

/-- An intent referencing the custom entity type "T". -/
def c7xIntent : Intent :=
  { phrases := some ["play {e}"]
    entities := some [("e", { type := some (.str "T") })] }

/-- A canonical model with no vendor escape hatch whose entity type "T" is
    referenced by intent "A". -/
def c7xModel : JovoModelU :=
  { version := some "4.0", invocation := some ""
    intents := some [("A", c7xIntent)]
    entityTypes := some [("T", c7xET)] }

/-- The native files produced by exporting `c7xModel`. -/
def c7xExportFiles : List NativeFile :=
  match fromJovoModel c7xModel "en" (fun _ => "u") with
  | .ok (fs, _) => fs
  | .error _ => []

/-- The post-call state of the caller's model after exporting `c7xModel`. -/
def c7xExportPost : JovoModelU :=
  match fromJovoModel c7xModel "en" (fun _ => "u") with
  | .ok (_, m) => m
  | .error _ => {}

/-- **C7** (corrected): the full persistent effect of a successful export on
    the caller's model, for models whose entity-type keys are duplicate-free:
    besides the deletion of the `userSays`/`entries` sub-fields of vendor
    escape-hatch records, every custom entity type referenced by some
    intent has the synonym lists of its values sanitized in place (unless
    its generated record is enum- or regexp-flagged); nothing else — in
    particular no canonical intent — is modified. The original claim's "no
    field of the canonical entityTypes is modified" is refuted by
    `C7_counterexample`. -/
theorem C7_export_mutation_frame (model : JovoModelU) (locale : String) (gen : Nat → String)
    (files : List NativeFile) (m' : JovoModelU)
    (hN : ((model.entityTypes.getD []).map Prod.fst).Nodup)
    (h : fromJovoModel model locale gen = .ok (files, m')) :
    m' = modelAfterExport model :=
  fromJovoModel_state model locale gen files m' hN h

/-- Witness for C7: on the concrete model `c7xModel` the export succeeds and
    the theorem applies, its hypotheses discharged by evaluation. -/
theorem C7_export_mutation_frame_witness :
    ((c7xModel.entityTypes.getD []).map Prod.fst).Nodup ∧
      c7xExportPost = modelAfterExport c7xModel :=
  ⟨by decide, C7_export_mutation_frame c7xModel "en" (fun _ => "u")
    c7xExportFiles c7xExportPost (by decide) (by decide)⟩

/-- Counterexample to C7 as stated: exporting `c7xModel` succeeds, yet the
    post-call model differs from the original in its canonical
    `entityTypes` — the synonym "a!b" of entity type "T" has been sanitized
    in place to "ab" — refuting "no field of the canonical intents,
    entities, or entityTypes (including entity-type value synonym lists) is
    modified by an export call". -/
theorem C7_counterexample :
    fromJovoModel c7xModel "en" (fun _ => "u") = .ok (c7xExportFiles, c7xExportPost) ∧
      c7xExportPost.entityTypes ≠ c7xModel.entityTypes ∧
      c7xExportPost.entityTypes =
        some [("T", { values := some [.obj { value := some "x", synonyms := some ["ab"] }] })] := by
  refine ⟨by decide, by decide, by decide⟩

/- ### C1: string utilities -/

lemma string_toList_append (a b : String) : (a ++ b).toList = a.toList ++ b.toList := by
  simp [String.toList]

lemma string_append_cancel {a b c : String} (h : a ++ c = b ++ c) : a = b := by
  rw [String.ext_iff] at h ⊢
  have h2 : a.toList ++ c.toList = b.toList ++ c.toList := by
    simpa [string_toList_append] using h
  simpa [String.toList] using List.append_cancel_right h2

lemma strStartsWith_at_cons (c : Char) (a p : String) :
    strStartsWith (⟨c :: a.toList⟩ : String) (⟨c :: p.toList⟩ : String) =
      strStartsWith a p := by
  simp [strStartsWith, List.isPrefixOf]

lemma string_drop_one_cons (c : Char) (t : List Char) :
    (⟨c :: t⟩ : String).drop 1 = ⟨t⟩ := by
  apply String.ext
  simp [String.drop_eq]

lemma at_append_toList (T : String) : ("@" ++ T : String) = ⟨'@' :: T.toList⟩ := by
  apply String.ext
  simp only [String.toList]
  show ("@" ++ T).data = '@' :: T.data
  simp

lemma strStartsWith_at_sys (T : String) :
    strStartsWith ("@" ++ T) "@sys." = strStartsWith T "sys." := by
  have h1 : ("@sys." : String) = ⟨'@' :: ("sys." : String).toList⟩ := by decide
  rw [at_append_toList, h1, strStartsWith_at_cons]

lemma at_drop_one (T : String) : ("@" ++ T : String).drop 1 = T := by
  rw [at_append_toList, string_drop_one_cons]
  rfl

lemma at_ne_empty (T : String) : ("@" ++ T : String) ≠ "" := by
  rw [at_append_toList]
  intro h
  rw [String.ext_iff] at h
  simp at h

/- ### C1: well-formedness class -/

/-- The placeholder names of a phrase, in marker-scan order. -/
def placeholders (ph : String) : List String :=
  (braceScan ph.toList 0 (ph.toList.length + 1)).map
    (fun ij => ⟨listSlice ph.toList (ij.1 + 1) ij.2⟩)

/-- A round-trippable entity-type value: object form with a defined,
    sanitization-clean value; synonyms, when present, non-empty, clean and
    distinct from the value. -/
def wfValue (v : EntityTypeValueU) : Bool :=
  match v with
  | .str _ => false
  | .obj vo =>
    match vo.value with
    | none => false
    | some sv =>
      decide (sanitize sv = sv) &&
      (match vo.synonyms with
       | none => true
       | some ss => decide (ss ≠ []) && ss.all (fun s => decide (sanitize s = s) && decide (s ≠ sv)))

/-- A round-trippable entity type: no vendor hatch, values present and
    well formed, its emitted file name clear of the `entries` marker, and
    the type referenced by some intent. -/
def wfEntityType (refs : List String) (T : String) (et : EntityType) : Bool :=
  !hasSubstr (T ++ ".json") "entries" &&
  decide (et.dialogflow = none) &&
  (match et.values with
   | none => false
   | some vs => vs.all wfValue) &&
  decide (T ∈ refs)

/-- A round-trippable intent entity: non-empty key, no vendor patch, a
    resolvable non-empty (truthy) bare custom type or a `@sys.` builtin,
    and an exemplar text that is absent or non-empty, distinct from the
    key, and exercised by some sample phrase. -/
def wfIntentEntity (etKeys : List String) (phs : List String)
    (ek : String) (ed : IntentEntity) : Bool :=
  decide (ek ≠ "") &&
  decide (ed.dialogflow = none) &&
  (match ed.type with
   | some (.str T) => decide (T ≠ "") && !strStartsWith T "sys." && !strStartsWith T "@sys." && decide (T ∈ etKeys)
   | some (.obj (some s)) => strStartsWith s "@sys."
   | _ => false) &&
  (match ed.text with
   | none => true
   | some t => decide (t ≠ "") && decide (t ≠ ek) &&
       phs.any (fun ph => decide (ek ∈ placeholders ph)))

/-- A round-trippable intent: its file name clear of the `usersays` marker,
    no vendor hatch, phrases present; entities either absent — and then no
    phrase mentions a placeholder — or a non-empty duplicate-free list of
    well-formed entities covering every placeholder. -/
def wfIntent (etKeys : List String) (k : String) (i : Intent) : Bool :=
  !hasSubstr (k ++ ".json") "usersays" &&
  decide (i.dialogflow = none) &&
  (match i.phrases, i.entities with
   | some phs, none => phs.all (fun ph => decide (placeholders ph = []))
   | some phs, some ents =>
     decide (ents ≠ []) &&
     decide ((ents.map Prod.fst).Nodup) &&
     ents.all (fun kv => wfIntentEntity etKeys phs kv.1 kv.2) &&
     phs.all (fun ph => (placeholders ph).all (fun e => (alGet ents e).isSome))
   | none, _ => false)

/-- The round-trippable class of C1: no vendor escape hatch anywhere,
    duplicate-free intent and entity-type keys, well-formed intents, and
    every declared entity type well formed and actually referenced. -/
def wfModel (model : JovoModelU) : Bool :=
  decide (model.dialogflow = none) &&
  (match model.intents, model.entityTypes with
   | some ints, some etl =>
     decide ((ints.map Prod.fst).Nodup) &&
     decide ((etl.map Prod.fst).Nodup) &&
     ints.all (fun kv => wfIntent (etl.map Prod.fst) kv.1 kv.2) &&
     etl.all (fun kv => wfEntityType (refTypeNames model) kv.1 kv.2)
   | _, _ => false)

/- ### C1: shapes of the exported native files -/

/-- The native `dataType` the export assigns to an intent entity. -/
def dtOf (ed : IntentEntity) : String :=
  match ed.type with
  | some (.str T) => "@" ++ T
  | some (.obj (some s)) => s
  | _ => ""

/-- The parameter object the export emits for one intent entity. -/
def paramFor (ek : String) (ed : IntentEntity) : DFParameter :=
  { name := some ek, isList := some false, value := some ("$" ++ ek)
    dataType := some (dtOf ed) }

/-- The single response carrying the parameter list. -/
def r0For (params : List DFParameter) : DFResponse :=
  { resetContexts := none, affectedContexts := none, parameters := some params
    defaultResponsePlatforms := none, messages := none, speech := none }

/-- The intent-file object content the export emits for a hatch-free intent. -/
def objContentFor (id k : String) (i : Intent) : DFObjContent :=
  match i.entities with
  | some ents =>
    { id := some id, name := some k, auto := some true, webhookUsed := some true
      responses := some [r0For (ents.map (fun kv => paramFor kv.1 kv.2))] }
  | none => { id := some id, name := some k, auto := some true, webhookUsed := some true }

/-- The entity-file object content the export emits for a hatch-free
    entity type. -/
def etObjFor (id T : String) : DFObjContent :=
  { DIALOGFLOW_LM_ENTITY with id := some id, name := some T }

/-- One usersays record of the exported usersays file. -/
def usItemFor (locale id : String) (hasEnts : Bool) (ents : List (String × IntentEntity))
    (paramsOpt : Option (List DFParameter)) (ph : String) : DFArrItem :=
  { id := some id, data := some (buildPhraseData hasEnts ents paramsOpt ph)
    isTemplate := some false, count := some 0, lang := some locale }

/-- The entity list and parameter view the phrase tokenizer sees. -/
def entsOf (i : Intent) : List (String × IntentEntity) :=
  i.entities.getD []

def paramsOptOf (i : Intent) : Option (List DFParameter) :=
  match i.entities with
  | some ents => some (ents.map (fun kv => paramFor kv.1 kv.2))
  | none => none

/-- The usersays records of one exported intent, with arbitrary generated
    ids. -/
inductive USItems (locale : String) (hasEnts : Bool) (ents : List (String × IntentEntity))
    (paramsOpt : Option (List DFParameter)) : List String → List DFArrItem → Prop
  | nil : USItems locale hasEnts ents paramsOpt [] []
  | cons (id ph : String) (phs : List String) (items : List DFArrItem) :
      USItems locale hasEnts ents paramsOpt phs items →
      USItems locale hasEnts ents paramsOpt (ph :: phs)
        (usItemFor locale id hasEnts ents paramsOpt ph :: items)

/-- The two intents-directory files of one exported intent, with arbitrary
    generated ids. -/
inductive IntentBlock (locale k : String) (i : Intent) : List NativeFile → Prop
  | noPhrases (id : String) (h : i.phrases = some []) :
      IntentBlock locale k i [⟨["intents", k ++ ".json"], .obj (objContentFor id k i)⟩]
  | withPhrases (id : String) (phs : List String) (items : List DFArrItem)
      (h : i.phrases = some phs) (hne : phs ≠ [])
      (hus : USItems locale i.entities.isSome (entsOf i) (paramsOptOf i) phs items) :
      IntentBlock locale k i
        [⟨["intents", k ++ ".json"], .obj (objContentFor id k i)⟩,
         ⟨["intents", k ++ "_usersays_" ++ locale ++ ".json"], .arr items⟩]

/-- The entities-directory files of one custom entity-type reference, with
    an arbitrary generated id. -/
inductive TypeBlock (locale : String) (etl : List (String × EntityType)) :
    String → List NativeFile → Prop
  | mk (id T : String) (et : EntityType) (vs : List EntityTypeValueU)
      (hget : alGet etl T = some et) (hvs : et.values = some vs) :
      TypeBlock locale etl T
        (⟨["entities", T ++ ".json"], .obj (etObjFor id T)⟩ ::
          (if vs ≠ [] then
            [⟨["entities", T ++ "_entries_" ++ locale ++ ".json"],
              .arr (vs.map (entryFor false false))⟩]
          else []))

/-- Concatenated type blocks along a reference list. -/
inductive TypeBlocks (locale : String) (etl : List (String × EntityType)) :
    List String → List NativeFile → Prop
  | nil : TypeBlocks locale etl [] []
  | cons (T : String) (Ts : List String) (B rest : List NativeFile) :
      TypeBlock locale etl T B → TypeBlocks locale etl Ts rest →
      TypeBlocks locale etl (T :: Ts) (B ++ rest)

/-- The complete exported file set along the intent list: per intent its
    entity-type blocks, then its intent file and usersays file. -/
inductive Blocks (locale : String) (etl : List (String × EntityType)) :
    List (String × Intent) → List NativeFile → Prop
  | nil : Blocks locale etl [] []
  | cons (k : String) (i : Intent) (rest : List (String × Intent))
      (E IB fs : List NativeFile) :
      TypeBlocks locale etl ((entsOf i).flatMap (fun kv => (customTypeName kv.2).toList)) E →
      IntentBlock locale k i IB → Blocks locale etl rest fs →
      Blocks locale etl ((k, i) :: rest) (E ++ IB ++ fs)

/- ### C1: export-side computation lemmas -/

lemma wfValue_valueSan {v : EntityTypeValueU} (h : wfValue v = true) :
    valueSan false false v = v := by
  cases v with
  | str s => simp [wfValue] at h
  | obj vo =>
    obtain ⟨vv, vs⟩ := vo
    cases hv : vv with
    | none => rw [hv] at h; simp [wfValue] at h
    | some sv =>
      rw [hv] at h
      simp only [valueSan, Bool.not_eq_true, and_self, if_pos]
      cases hs : vs with
      | none => simp
      | some ss =>
        rw [hs] at h
        simp only [wfValue, Bool.and_eq_true, decide_eq_true_eq, List.all_eq_true] at h
        simp only [Option.map_some']
        congr 2
        have hcl : ∀ s ∈ ss, sanitize s = s := by
          intro s hsm
          have := h.2.2 s hsm
          simp at this
          exact this.1
        rw [show List.map sanitize ss = List.map id ss from List.map_congr_left hcl]
        simp

lemma wf_value_fold :
    ∀ (vs : List EntityTypeValueU) (acc1 : List DFArrItem) (acc2 : List EntityTypeValueU),
      (∀ v ∈ vs, wfValue v = true) →
      vs.foldlM (exportEntityValue false false) (acc1, acc2) =
        .ok (acc1 ++ vs.map (entryFor false false), acc2 ++ vs) := by
  intro vs
  induction vs with
  | nil => intro acc1 acc2 _; simp; rfl
  | cons v t ih =>
    intro acc1 acc2 hwf
    rw [List.foldlM_cons]
    have hv := hwf v (List.mem_cons_self v t)
    cases v with
    | str s => simp [wfValue] at hv
    | obj vo =>
      obtain ⟨vv, vsyn⟩ := vo
      cases hvv : vv with
      | none => rw [hvv] at hv; simp [wfValue] at hv
      | some sv =>
        rw [hvv] at hv
        have hclean : sanitize sv = sv := by
          cases hs : vsyn <;> (rw [hs] at hv; simp [wfValue] at hv; tauto)
        cases hs : vsyn with
        | none =>
          simp only [exportEntityValue, Bool.not_eq_true, and_self, if_pos, except_ok_bind]
          rw [ih _ _ (fun v hvm => hwf v (List.mem_cons_of_mem _ hvm))]
          simp [entryFor, hclean, List.append_assoc]
        | some ss =>
          rw [hs] at hv
          simp only [wfValue, Bool.and_eq_true, decide_eq_true_eq, List.all_eq_true] at hv
          have hss : ss.map sanitize = ss := by
            have hcl : ∀ s ∈ ss, sanitize s = s := by
              intro s hsm
              have := hv.2.2 s hsm
              simp at this
              exact this.1
            rw [show List.map sanitize ss = List.map id ss from List.map_congr_left hcl]
            simp
          simp only [exportEntityValue, Bool.not_eq_true, and_self, if_pos, except_ok_bind]
          rw [ih _ _ (fun v hvm => hwf v (List.mem_cons_of_mem _ hvm))]
          simp [entryFor, hclean, hss, List.append_assoc]

lemma set_entityTypes_self {m : JovoModelU} {etl : List (String × EntityType)}
    (h : m.entityTypes = some etl) : { m with entityTypes := some etl } = m := by
  obtain ⟨ver, inv, v3, ints, ets, dlg⟩ := m
  have h2 : ets = some etl := h
  subst h2
  rfl

lemma wf_core_custom (locale : String) (gen : Nat → String) (model : JovoModelU)
    (ctr : Nat) (T : String) (etl : List (String × EntityType)) (et : EntityType)
    (vs : List EntityTypeValueU)
    (hmets : model.entityTypes = some etl)
    (hsys : strStartsWith T "@sys." = false)
    (hget : alGet etl T = some et)
    (hdlg : et.dialogflow = none)
    (hvs : et.values = some vs)
    (hwfv : ∀ v ∈ vs, wfValue v = true) :
    exportIntentEntityCore locale gen model ctr T =
      .ok ("@" ++ T,
        ⟨["entities", T ++ ".json"], .obj (etObjFor (gen ctr) T)⟩ ::
          (if vs ≠ [] then
            [⟨["entities", T ++ "_entries_" ++ locale ++ ".json"],
              .arr (vs.map (entryFor false false))⟩]
          else []),
        model, ctr + 1) := by
  have hhE : JovoModelHelper.hasEntityTypes model = true := by
    simp [JovoModelHelper.hasEntityTypes, hmets]
  have hacc : JovoModelHelper.getEntityTypeByName model T = some et := by
    simp [JovoModelHelper.getEntityTypeByName, hmets, hget]
  simp only [exportIntentEntityCore, hsys, Bool.false_eq_true, if_false, hhE, not_true,
    Bool.not_true, hacc, hdlg, hvs]
  by_cases hnil : vs = []
  · subst hnil
    simp [etObjFor]
  · rw [if_pos (by simpa using hnil)]
    have hflags : (boolTruthy (etObjFor (gen ctr) T).isEnum = false) ∧
        (boolTruthy (etObjFor (gen ctr) T).isRegexp = false) := by
      constructor <;> rfl
    rw [show (boolTruthy ({ DIALOGFLOW_LM_ENTITY with id := some (gen ctr), name := some T }
      : DFObjContent).isEnum) = false from rfl]
    rw [show (boolTruthy ({ DIALOGFLOW_LM_ENTITY with id := some (gen ctr), name := some T }
      : DFObjContent).isRegexp) = false from rfl]
    rw [wf_value_fold vs [] [] hwfv]
    simp only [List.nil_append]
    have hsan : ({ values := some vs, dialogflow := none } : EntityType) = et := by
      obtain ⟨vv, dd⟩ := et
      have h2 : vv = some vs := hvs
      have h3 : dd = none := hdlg
      subst h2
      subst h3
      rfl
    rw [hsan, hmets]
    simp only [Option.getD_some]
    rw [alSet_self etl T et hget, set_entityTypes_self hmets]
    simp [etObjFor, hnil]

lemma alGet_mem {α : Type} : ∀ (l : List (String × α)) (k : String) (v : α),
    alGet l k = some v → (k, v) ∈ l := by
  intro l
  induction l with
  | nil => intro k v h; simp [alGet] at h
  | cons kv t ih =>
    intro k v h
    obtain ⟨kk, vv⟩ := kv
    by_cases hk : kk = k
    · subst hk
      have h2 : vv = v := by simpa [alGet] using h
      subst h2
      exact List.mem_cons_self _ _
    · have h2 : alGet t k = some v := by simpa [alGet, hk] using h
      exact List.mem_cons_of_mem _ (ih k v h2)

lemma alGet_isSome_of_mem_keys {α : Type} : ∀ (l : List (String × α)) (k : String),
    k ∈ l.map Prod.fst → (alGet l k).isSome := by
  intro l
  induction l with
  | nil => intro k h; simp at h
  | cons kv t ih =>
    intro k h
    obtain ⟨kk, vv⟩ := kv
    by_cases hk : kk = k
    · subst hk; simp [alGet]
    · simp only [List.map_cons, List.mem_cons] at h
      rcases h with h | h
      · exact absurd h.symm hk
      · simpa [alGet, hk] using ih k h

lemma wf_exportIntentEntity (locale : String) (gen : Nat → String) (ik : String)
    (model : JovoModelU) (ctr : Nat) (ek : String) (ed : IntentEntity)
    (etl : List (String × EntityType)) (phs : List String)
    (hmets : model.entityTypes = some etl)
    (hwf : wfIntentEntity (etl.map Prod.fst) phs ek ed = true)
    (hwfet : ∀ T et, alGet etl T = some et →
      et.dialogflow = none ∧ ∃ vs, et.values = some vs ∧ ∀ v ∈ vs, wfValue v = true) :
    ∃ B ctr₂, exportIntentEntity locale gen ik model ctr ek ed =
        .ok (paramFor ek ed, B, model, ctr₂) ∧
      TypeBlocks locale etl ((customTypeName ed).toList) B := by
  simp only [wfIntentEntity, Bool.and_eq_true, decide_eq_true_eq] at hwf
  obtain ⟨⟨⟨hek, hdlg⟩, htype⟩, htext⟩ := hwf
  cases hty : ed.type with
  | none => rw [hty] at htype; simp at htype
  | some t =>
    rw [hty] at htype
    cases t with
    | obj o =>
      cases o with
      | none => simp at htype
      | some s =>
        simp only at htype
        have hsne : s ≠ "" := by
          intro hs
          subst hs
          simp [strStartsWith, List.isPrefixOf] at htype
        have hne2 : (IntentEntityTypeU.obj (some s)) ≠ .str "" := by simp
        have hres : resolveDataType ek (.obj (some s)) = .ok s := by
          simp [resolveDataType, strTruthy, hsne]
        refine ⟨[], ctr, ?_, ?_⟩
        · simp only [exportIntentEntity, hty, if_neg hne2, hres, exportIntentEntityCore, htype,
            if_true, hdlg]
          simp [paramFor, dtOf, hty]
        · have : customTypeName ed = none := by
            simp [customTypeName, hty, htype]
          rw [this]
          exact TypeBlocks.nil
    | str T =>
      simp only [Bool.and_eq_true, Bool.not_eq_true', decide_eq_true_eq] at htype
      obtain ⟨⟨⟨hTne, hTsys⟩, hTasys⟩, hTmem⟩ := htype
      have hsome := alGet_isSome_of_mem_keys etl T hTmem
      cases hget : alGet etl T with
      | none => rw [hget] at hsome; simp at hsome
      | some et =>
        obtain ⟨hetdlg, vs, hvs, hwfv⟩ := hwfet T et hget
        refine ⟨⟨["entities", T ++ ".json"], .obj (etObjFor (gen ctr) T)⟩ ::
          (if vs ≠ [] then
            [⟨["entities", T ++ "_entries_" ++ locale ++ ".json"],
              .arr (vs.map (entryFor false false))⟩]
          else []), ctr + 1, ?_, ?_⟩
        · have hne2 : (IntentEntityTypeU.str T) ≠ .str "" := by simp [hTne]
          simp only [exportIntentEntity, hty, if_neg hne2, resolveDataType]
          rw [wf_core_custom locale gen model ctr T etl et vs hmets hTasys hget hetdlg hvs hwfv]
          simp only [hdlg]
          simp [paramFor, dtOf, hty]
        · have hct : customTypeName ed = some T := by
            simp [customTypeName, hty, hTasys]
          rw [hct]
          have := @TypeBlocks.cons locale etl T [] _ [] (TypeBlock.mk (gen ctr) T et vs hget hvs)
            (@TypeBlocks.nil locale etl)
          simpa using this

lemma TypeBlocks_append {locale : String} {etl : List (String × EntityType)} :
    ∀ {Ts1 Ts2 : List String} {E1 E2 : List NativeFile},
      TypeBlocks locale etl Ts1 E1 → TypeBlocks locale etl Ts2 E2 →
      TypeBlocks locale etl (Ts1 ++ Ts2) (E1 ++ E2) := by
  intro Ts1 Ts2 E1 E2 h1 h2
  induction h1 with
  | nil => simpa using h2
  | cons T Ts B rest hB _ ih =>
    rw [List.cons_append, List.append_assoc]
    exact @TypeBlocks.cons locale etl T (Ts ++ Ts2) B (rest ++ E2) hB ih

lemma wf_entities_fold (locale : String) (gen : Nat → String) (ik : String)
    (model : JovoModelU) (etl : List (String × EntityType)) (phs : List String)
    (hmets : model.entityTypes = some etl)
    (hwfet : ∀ T et, alGet etl T = some et →
      et.dialogflow = none ∧ ∃ vs, et.values = some vs ∧ ∀ v ∈ vs, wfValue v = true) :
    ∀ (ents : List (String × IntentEntity)) (ps : List DFParameter)
      (fl : List NativeFile) (ctr : Nat),
      (∀ kv ∈ ents, wfIntentEntity (etl.map Prod.fst) phs kv.1 kv.2 = true) →
      ∃ E ctr₂,
        ents.foldlM (exportIntentEntityStep locale gen ik) (ps, fl, model, ctr) =
          .ok (ps ++ ents.map (fun kv => paramFor kv.1 kv.2), fl ++ E, model, ctr₂) ∧
        TypeBlocks locale etl
          (ents.flatMap (fun kv => (customTypeName kv.2).toList)) E := by
  intro ents
  induction ents with
  | nil =>
    intro ps fl ctr _
    refine ⟨[], ctr, ?_, @TypeBlocks.nil locale etl⟩
    simp
    rfl
  | cons kv t ih =>
    intro ps fl ctr hwf
    obtain ⟨ek, ed⟩ := kv
    obtain ⟨B, ctr₂, hstep, hTB⟩ := wf_exportIntentEntity locale gen ik model ctr ek ed
      etl phs hmets (hwf (ek, ed) (List.mem_cons_self _ _)) hwfet
    obtain ⟨E, ctr₃, hfold, hTBs⟩ := ih (ps ++ [paramFor ek ed]) (fl ++ B) ctr₂
      (fun kv hkv => hwf kv (List.mem_cons_of_mem _ hkv))
    refine ⟨B ++ E, ctr₃, ?_, ?_⟩
    · rw [List.foldlM_cons]
      simp only [exportIntentEntityStep, hstep, except_ok_bind]
      rw [hfold]
      simp [List.append_assoc]
    · simpa [List.flatMap_cons] using TypeBlocks_append hTB hTBs

lemma us_fold_USItems (locale : String) (gen : Nat → String) (hasEnts : Bool)
    (ents : List (String × IntentEntity)) (paramsOpt : Option (List DFParameter)) :
    ∀ (phs : List String) (acc : List DFArrItem) (c : Nat),
      ∃ items,
        phs.foldl (fun (acc : List DFArrItem × Nat) ph =>
          (acc.1 ++ [{ id := some (gen acc.2), data := some (buildPhraseData hasEnts ents paramsOpt ph)
                       isTemplate := some false, count := some 0, lang := some locale }],
           acc.2 + 1)) (acc, c) = (acc ++ items, c + phs.length) ∧
        USItems locale hasEnts ents paramsOpt phs items := by
  intro phs
  induction phs with
  | nil =>
    intro acc c
    exact ⟨[], by simp, USItems.nil⟩
  | cons ph t ih =>
    intro acc c
    obtain ⟨items, hfold, hus⟩ := ih (acc ++ [usItemFor locale (gen c) hasEnts ents paramsOpt ph]) (c + 1)
    refine ⟨usItemFor locale (gen c) hasEnts ents paramsOpt ph :: items, ?_, ?_⟩
    · rw [List.foldl_cons]
      rw [show (acc ++ [usItemFor locale (gen c) hasEnts ents paramsOpt ph] : List DFArrItem) ++ items =
        acc ++ (usItemFor locale (gen c) hasEnts ents paramsOpt ph :: items) by simp] at hfold
      rw [show (usItemFor locale (gen c) hasEnts ents paramsOpt ph : DFArrItem) =
        { id := some (gen c), data := some (buildPhraseData hasEnts ents paramsOpt ph)
          isTemplate := some false, count := some 0, lang := some locale } from rfl] at hfold
      rw [hfold]
      simp only [List.length_cons, Prod.mk.injEq]
      exact ⟨rfl, by omega⟩
    · exact USItems.cons (gen c) ph t items hus

lemma USItems_ne_nil {locale : String} {hasEnts : Bool} {ents : List (String × IntentEntity)}
    {paramsOpt : Option (List DFParameter)} {phs : List String} {items : List DFArrItem}
    (h : USItems locale hasEnts ents paramsOpt phs items) (hne : phs ≠ []) : items ≠ [] := by
  cases h with
  | nil => exact absurd rfl hne
  | cons id ph phs items _ => simp

lemma wf_exportIntent (locale : String) (gen : Nat → String) (model : JovoModelU)
    (ints : List (String × Intent)) (etl : List (String × EntityType))
    (k : String) (i : Intent) (files : List NativeFile) (ctr : Nat)
    (hmints : model.intents = some ints)
    (hmets : model.entityTypes = some etl)
    (hget : alGet ints k = some i)
    (hwf : wfIntent (etl.map Prod.fst) k i = true)
    (hwfet : ∀ T et, alGet etl T = some et →
      et.dialogflow = none ∧ ∃ vs, et.values = some vs ∧ ∀ v ∈ vs, wfValue v = true) :
    ∃ E IB ctr₂, exportIntent locale gen (files, model, ctr) k i =
        .ok (files ++ E ++ IB, model, ctr₂) ∧
      TypeBlocks locale etl ((entsOf i).flatMap (fun kv => (customTypeName kv.2).toList)) E ∧
      IntentBlock locale k i IB := by
  simp only [wfIntent, Bool.and_eq_true, decide_eq_true_eq] at hwf
  obtain ⟨⟨hkus, hidlg⟩, hrest⟩ := hwf
  cases hphs : i.phrases with
  | none => rw [hphs] at hrest; cases hents : i.entities <;> (rw [hents] at hrest; simp at hrest)
  | some phs =>
  rw [hphs] at hrest
  cases hents : i.entities with
  | some ents =>
    rw [hents] at hrest
    simp only [Bool.and_eq_true, decide_eq_true_eq, List.all_eq_true] at hrest
    obtain ⟨⟨⟨hne, hnd⟩, hwfents⟩, hcov⟩ := hrest
    have hhas : JovoModelHelper.hasEntities model k = true := by
      simp [JovoModelHelper.hasEntities, JovoModelHelper.getIntents, hmints, hget, hents, hne]
    have hgete : JovoModelHelper.getEntities model k = ents := by
      simp [JovoModelHelper.getEntities, JovoModelHelper.getIntents, hmints, hget, hents]
    obtain ⟨E, ctr₃, hfold, hTBs⟩ := wf_entities_fold locale gen k model etl phs hmets hwfet
      ents [] [] (ctr + 1) (fun kv hkv => hwfents kv hkv)
    simp only [exportIntent, hhas, if_true, hgete]
    rw [hfold]
    simp only [hidlg, List.nil_append, hhas, hgete, hphs, Option.some_bind, List.head?_cons,
      Option.getD_some]
    obtain ⟨items, husf, hus⟩ := us_fold_USItems locale gen true ents
      (some (ents.map (fun kv => paramFor kv.1 kv.2))) phs [] ctr₃
    rw [husf]
    simp only [List.nil_append]
    by_cases hpnil : phs = []
    · subst hpnil
      cases hus with
      | nil =>
        rw [if_neg (by simp)]
        refine ⟨E, [⟨["intents", k ++ ".json"], .obj (objContentFor (gen ctr) k i)⟩], ctr₃, ?_,
          by rw [show entsOf i = ents by simp [entsOf, hents]]; exact hTBs, ?_⟩
        · simp [objContentFor, hents, r0For, List.append_assoc]
        · exact IntentBlock.noPhrases (gen ctr) (by rw [hphs])
    · rw [if_pos (by simpa using USItems_ne_nil hus hpnil)]
      refine ⟨E, [⟨["intents", k ++ ".json"], .obj (objContentFor (gen ctr) k i)⟩,
        ⟨["intents", k ++ "_usersays_" ++ locale ++ ".json"], .arr items⟩], ctr₃ + phs.length, ?_,
        by rw [show entsOf i = ents by simp [entsOf, hents]]; exact hTBs, ?_⟩
      · simp [objContentFor, hents, r0For, List.append_assoc]
      · refine IntentBlock.withPhrases (gen ctr) phs items (by rw [hphs]) hpnil ?_
        have h1 : i.entities.isSome = true := by rw [hents]; rfl
        have h2 : entsOf i = ents := by simp [entsOf, hents]
        have h3 : paramsOptOf i = some (ents.map (fun kv => paramFor kv.1 kv.2)) := by
          simp [paramsOptOf, hents]
        rw [h1, h2, h3]
        exact hus
  | none =>
    rw [hents] at hrest
    have hhas : JovoModelHelper.hasEntities model k = false := by
      simp [JovoModelHelper.hasEntities, JovoModelHelper.getIntents, hmints, hget, hents]
    have hgete : JovoModelHelper.getEntities model k = [] := by
      simp [JovoModelHelper.getEntities, JovoModelHelper.getIntents, hmints, hget, hents]
    simp only [exportIntent, hhas, Bool.false_eq_true, if_false, hidlg, hphs, hgete,
      Option.none_bind, Option.getD_some, List.nil_append]
    obtain ⟨items, husf, hus⟩ := us_fold_USItems locale gen false [] none phs [] (ctr + 1)
    rw [husf]
    simp only [List.nil_append]
    by_cases hpnil : phs = []
    · subst hpnil
      cases hus with
      | nil =>
        rw [if_neg (by simp)]
        refine ⟨[], [⟨["intents", k ++ ".json"], .obj (objContentFor (gen ctr) k i)⟩], ctr + 1, ?_,
          by rw [show entsOf i = [] by simp [entsOf, hents]]; exact @TypeBlocks.nil locale etl, ?_⟩
        · simp [objContentFor, hents, List.append_assoc]
        · exact IntentBlock.noPhrases (gen ctr) (by rw [hphs])
    · rw [if_pos (by simpa using USItems_ne_nil hus hpnil)]
      refine ⟨[], [⟨["intents", k ++ ".json"], .obj (objContentFor (gen ctr) k i)⟩,
        ⟨["intents", k ++ "_usersays_" ++ locale ++ ".json"], .arr items⟩], ctr + 1 + phs.length, ?_,
        by rw [show entsOf i = [] by simp [entsOf, hents]]; exact @TypeBlocks.nil locale etl, ?_⟩
      · simp [objContentFor, hents, List.append_assoc]
      · refine IntentBlock.withPhrases (gen ctr) phs items (by rw [hphs]) hpnil ?_
        have h1 : i.entities.isSome = false := by rw [hents]; rfl
        have h2 : entsOf i = [] := by simp [entsOf, hents]
        have h3 : paramsOptOf i = none := by simp [paramsOptOf, hents]
        rw [h1, h2, h3]
        exact hus

lemma wf_intents_fold (locale : String) (gen : Nat → String) (model : JovoModelU)
    (ints : List (String × Intent)) (etl : List (String × EntityType))
    (hmints : model.intents = some ints)
    (hmets : model.entityTypes = some etl)
    (hnd : (ints.map Prod.fst).Nodup)
    (hwfI : ∀ kv ∈ ints, wfIntent (etl.map Prod.fst) kv.1 kv.2 = true)
    (hwfet : ∀ T et, alGet etl T = some et →
      et.dialogflow = none ∧ ∃ vs, et.values = some vs ∧ ∀ v ∈ vs, wfValue v = true) :
    ∀ (l : List (String × Intent)) (files : List NativeFile) (ctr : Nat),
      (∀ kv ∈ l, kv ∈ ints) →
      ∃ B ctr₂,
        l.foldlM (fun st (kv : String × Intent) => exportIntent locale gen st kv.1 kv.2)
          (files, model, ctr) = .ok (files ++ B, model, ctr₂) ∧
        Blocks locale etl l B := by
  intro l
  induction l with
  | nil =>
    intro files ctr _
    refine ⟨[], ctr, ?_, Blocks.nil⟩
    simp
    rfl
  | cons kv t ih =>
    intro files ctr hsub
    obtain ⟨k, i⟩ := kv
    have hmem : (k, i) ∈ ints := hsub (k, i) (List.mem_cons_self _ _)
    have hget : alGet ints k = some i := alGet_of_mem_nodup ints hnd (k, i) hmem
    obtain ⟨E, IB, ctr₂, hstep, hTBs, hIB⟩ := wf_exportIntent locale gen model ints etl k i
      files ctr hmints hmets hget (hwfI (k, i) hmem) hwfet
    obtain ⟨B, ctr₃, hfold, hBs⟩ := ih (files ++ E ++ IB) ctr₂
      (fun kv hkv => hsub kv (List.mem_cons_of_mem _ hkv))
    refine ⟨E ++ IB ++ B, ctr₃, ?_, ?_⟩
    · rw [List.foldlM_cons, hstep, except_ok_bind, hfold]
      simp [List.append_assoc]
    · exact Blocks.cons k i t E IB B hTBs hIB hBs

/-- Extraction of the model-level facts packed in `wfModel`. -/
lemma wfModel_spec {model : JovoModelU} (h : wfModel model = true) :
    model.dialogflow = none ∧
    ∃ ints etl, model.intents = some ints ∧ model.entityTypes = some etl ∧
      (ints.map Prod.fst).Nodup ∧ (etl.map Prod.fst).Nodup ∧
      (∀ kv ∈ ints, wfIntent (etl.map Prod.fst) kv.1 kv.2 = true) ∧
      (∀ kv ∈ etl, wfEntityType (refTypeNames model) kv.1 kv.2 = true) := by
  simp only [wfModel, Bool.and_eq_true, decide_eq_true_eq] at h
  obtain ⟨hdlg, hrest⟩ := h
  cases hmints : model.intents with
  | none => rw [hmints] at hrest; simp at hrest
  | some ints =>
    cases hmets : model.entityTypes with
    | none => rw [hmints, hmets] at hrest; simp at hrest
    | some etl =>
      rw [hmints, hmets] at hrest
      simp only [Bool.and_eq_true, decide_eq_true_eq, List.all_eq_true] at hrest
      exact ⟨hdlg, ints, etl, rfl, rfl, hrest.1.1.1, hrest.1.1.2, hrest.1.2, hrest.2⟩

lemma wfEntityType_hwfet {model : JovoModelU} {etl : List (String × EntityType)}
    (hwfE : ∀ kv ∈ etl, wfEntityType (refTypeNames model) kv.1 kv.2 = true) :
    ∀ T et, alGet etl T = some et →
      et.dialogflow = none ∧ ∃ vs, et.values = some vs ∧ ∀ v ∈ vs, wfValue v = true := by
  intro T et hget
  have hmem := alGet_mem etl T et hget
  have hwf := hwfE (T, et) hmem
  simp only [wfEntityType, Bool.and_eq_true, decide_eq_true_eq] at hwf
  refine ⟨hwf.1.1.2, ?_⟩
  cases hvs : et.values with
  | none => rw [hvs] at hwf; simp at hwf
  | some vs =>
    rw [hvs] at hwf
    simp only [List.all_eq_true] at hwf
    exact ⟨vs, rfl, hwf.1.2⟩

lemma wf_fromJovoModel (model : JovoModelU) (locale : String) (gen : Nat → String)
    (ints : List (String × Intent)) (etl : List (String × EntityType))
    (hwf : wfModel model = true)
    (hmints : model.intents = some ints)
    (hmets : model.entityTypes = some etl) :
    ∃ files, fromJovoModel model locale gen = .ok (files, model) ∧
      Blocks locale etl ints files := by
  obtain ⟨hdlg, ints', etl', hmints', hmets', hndI, hndE, hwfI, hwfE⟩ := wfModel_spec hwf
  rw [hmints] at hmints'
  rw [hmets] at hmets'
  cases hmints'
  cases hmets'
  obtain ⟨B, ctr₂, hfold, hBs⟩ := wf_intents_fold locale gen model ints etl hmints hmets
    hndI hwfI (wfEntityType_hwfet hwfE) ints [] 0 (fun kv hkv => hkv)
  refine ⟨B, ?_, hBs⟩
  simp only [fromJovoModel, JovoModelHelper.getIntents, hmints, Option.getD_some]
  rw [hfold]
  simp only [hdlg, Option.none_bind, List.nil_append]

/- ### C1: the import pass over the exported files -/

/-- Concatenated intent blocks along the intent list. -/
inductive IntentBlocksL (locale : String) : List (String × Intent) → List NativeFile → Prop
  | nil : IntentBlocksL locale [] []
  | cons (k : String) (i : Intent) (rest : List (String × Intent))
      (IB fs : List NativeFile) :
      IntentBlock locale k i IB → IntentBlocksL locale rest fs →
      IntentBlocksL locale ((k, i) :: rest) (IB ++ fs)

lemma TypeBlock_paths {locale : String} {etl : List (String × EntityType)}
    {T : String} {E : List NativeFile} (h : TypeBlock locale etl T E) :
    ∀ f ∈ E, f.path.head? = some "entities" := by
  cases h with
  | mk id T et vs hget hvs =>
    intro f hf
    rcases List.mem_cons.mp hf with h1 | h1
    · subst h1; rfl
    · split at h1
      · rw [List.mem_singleton] at h1
        subst h1; rfl
      · simp at h1

lemma TypeBlocks_paths {locale : String} {etl : List (String × EntityType)}
    {Ts : List String} {E : List NativeFile} (h : TypeBlocks locale etl Ts E) :
    ∀ f ∈ E, f.path.head? = some "entities" := by
  induction h with
  | nil => intro f hf; simp at hf
  | cons T Ts B rest hB _ ih =>
    intro f hf
    rcases List.mem_append.mp hf with h1 | h1
    · exact TypeBlock_paths hB f h1
    · exact ih f h1

lemma IntentBlock_paths {locale k : String} {i : Intent} {IB : List NativeFile}
    (h : IntentBlock locale k i IB) : ∀ f ∈ IB, f.path.head? = some "intents" := by
  cases h with
  | noPhrases id hp =>
    intro f hf
    rw [List.mem_singleton] at hf
    subst hf; rfl
  | withPhrases id phs items hp hne hus =>
    intro f hf
    rcases List.mem_cons.mp hf with h1 | h1
    · subst h1; rfl
    · rw [List.mem_singleton] at h1
      subst h1; rfl

lemma filter_intents_none {E : List NativeFile}
    (h : ∀ f ∈ E, f.path.head? = some "entities") : E.filter isIntentsFile = [] := by
  rw [List.filter_eq_nil]
  intro f hf
  simp [isIntentsFile, h f hf]

lemma filter_entities_all {E : List NativeFile}
    (h : ∀ f ∈ E, f.path.head? = some "entities") : E.filter isEntitiesFile = E := by
  rw [List.filter_eq_self]
  intro f hf
  simp [isEntitiesFile, h f hf]

lemma filter_intents_all {E : List NativeFile}
    (h : ∀ f ∈ E, f.path.head? = some "intents") : E.filter isIntentsFile = E := by
  rw [List.filter_eq_self]
  intro f hf
  simp [isIntentsFile, h f hf]

lemma filter_entities_none {E : List NativeFile}
    (h : ∀ f ∈ E, f.path.head? = some "intents") : E.filter isEntitiesFile = [] := by
  rw [List.filter_eq_nil]
  intro f hf
  simp [isEntitiesFile, h f hf]

lemma Blocks_filter {locale : String} {etl : List (String × EntityType)}
    {ints : List (String × Intent)} {files : List NativeFile}
    (h : Blocks locale etl ints files) :
    IntentBlocksL locale ints (files.filter isIntentsFile) ∧
      TypeBlocks locale etl
        (ints.flatMap (fun kv => (entsOf kv.2).flatMap (fun e => (customTypeName e.2).toList)))
        (files.filter isEntitiesFile) := by
  induction h with
  | nil => exact ⟨IntentBlocksL.nil, @TypeBlocks.nil locale etl⟩
  | cons k i rest E IB fs hTBs hIB _ ih =>
    constructor
    · rw [List.filter_append, List.filter_append,
        filter_intents_none (TypeBlocks_paths hTBs),
        filter_intents_all (IntentBlock_paths hIB)]
      rw [List.nil_append]
      exact IntentBlocksL.cons k i rest IB _ hIB ih.1
    · rw [List.filter_append, List.filter_append,
        filter_entities_all (TypeBlocks_paths hTBs),
        filter_entities_none (IntentBlock_paths hIB)]
      rw [List.append_nil, List.flatMap_cons]
      exact TypeBlocks_append hTBs ih.2

lemma skipDefault_no_responses (id k : String) (locale : String) :
    skipDefaultIntentProps { phrases := some [], entities := none, dialogflow := none }
      ({ id := some id, name := some k, auto := some true, webhookUsed := some true }
        : DFObjContent) locale =
      { phrases := some [], entities := none, dialogflow := some { webhookUsed := some true } } := by
  rfl

lemma skipDefault_with_responses (id k : String) (params : List DFParameter) (locale : String) :
    skipDefaultIntentProps { phrases := some [], entities := none, dialogflow := none }
      ({ id := some id, name := some k, auto := some true, webhookUsed := some true
         responses := some [r0For params] } : DFObjContent) locale =
      { phrases := some [], entities := none, dialogflow := some { webhookUsed := some true } } := by
  have hne : ([r0For params] : List DFResponse) ≠ [DEFAULT_RESPONSE] := by
    intro h
    rw [List.cons.injEq] at h
    have := congrArg DFResponse.resetContexts h.1
    simp [r0For, DEFAULT_RESPONSE] at this
  simp only [skipDefaultIntentProps, sdAuto, sdContexts, sdPriority, sdWebhookUsed,
    sdWebhookForSlotFilling, sdFallbackIntent, sdEvents, sdResponses, sdResets, sdAffected,
    sdDRP, sdMessages, sdSpeech, DEFAULT_INTENT, r0For]
  simp [setHatch, hne, r0For, DEFAULT_RESPONSE]

lemma skipDefault_objContentFor (id k locale : String) (i : Intent) :
    skipDefaultIntentProps { phrases := some [], entities := none, dialogflow := none }
      (objContentFor id k i) locale =
      { phrases := some [], entities := none, dialogflow := some { webhookUsed := some true } } := by
  cases hents : i.entities with
  | some ents =>
    simp only [objContentFor, hents]
    exact skipDefault_with_responses id k _ locale
  | none =>
    simp only [objContentFor, hents]
    exact skipDefault_no_responses id k locale

lemma alSet_append {α : Type} : ∀ (l : List (String × α)) (k : String) (v : α),
    alGet l k = none → alSet l k v = l ++ [(k, v)] := by
  intro l
  induction l with
  | nil => intro k v _; rfl
  | cons kv t ih =>
    intro k v h
    obtain ⟨kk, vv⟩ := kv
    by_cases hk : kk = k
    · subst hk; simp [alGet] at h
    · have h2 : alGet t k = none := by simpa [alGet, hk] using h
      simp [alSet, hk, ih k v h2]

lemma strStartsWith_ne_empty {s p : String} (h : strStartsWith s p = true) (hp : p ≠ "") :
    s ≠ "" := by
  intro hs
  subst hs
  simp only [strStartsWith] at h
  rw [List.isPrefixOf_iff_prefix] at h
  have h2 : p.toList = [] := by simpa using List.prefix_nil.mp (by simpa using h)
  apply hp
  apply String.ext
  simpa [String.toList] using h2

lemma wf_entityFromParam {etKeys : List String} {phs : List String} {ek : String}
    {ed : IntentEntity} (hwf : wfIntentEntity etKeys phs ek ed = true) :
    entityFromParam (paramFor ek ed) = some (ek, { ed with text := none }) := by
  simp only [wfIntentEntity, Bool.and_eq_true, decide_eq_true_eq] at hwf
  obtain ⟨⟨⟨hek, hdlg⟩, htype⟩, _⟩ := hwf
  obtain ⟨ty, te, dl⟩ := ed
  have hdl : dl = none := hdlg
  subst hdl
  cases hty : ty with
  | none => rw [hty] at htype; simp at htype
  | some t =>
    rw [hty] at htype
    cases t with
    | obj o =>
      cases o with
      | none => simp at htype
      | some s =>
        simp only at htype
        have hsne : s ≠ "" := by
          intro hs
          subst hs
          simp [strStartsWith, List.isPrefixOf] at htype
        simp only [entityFromParam, paramFor, dtOf]
        rw [if_pos hsne, if_pos htype]
        rfl
    | str T =>
      simp only [Bool.and_eq_true, Bool.not_eq_true', decide_eq_true_eq] at htype
      obtain ⟨⟨⟨hTne, hTsys⟩, hTasys⟩, hTmem⟩ := htype
      simp only [entityFromParam, paramFor, dtOf]
      rw [if_pos (at_ne_empty T), strStartsWith_at_sys, hTsys]
      simp only [Bool.false_eq_true, if_false, at_drop_one]
      rfl

lemma alGet_append_none {α : Type} : ∀ (l1 l2 : List (String × α)) (k : String),
    alGet l1 k = none → alGet (l1 ++ l2) k = alGet l2 k := by
  intro l1
  induction l1 with
  | nil => intro l2 k _; rfl
  | cons kv t ih =>
    intro l2 k h
    obtain ⟨kk, vv⟩ := kv
    by_cases hk : kk = k
    · subst hk; simp [alGet] at h
    · have h2 : alGet t k = none := by simpa [alGet, hk] using h
      simpa [alGet, hk] using ih l2 k h2

lemma wf_entitiesFromResponses {etKeys : List String} {phs : List String}
    (ents : List (String × IntentEntity))
    (hnd : (ents.map Prod.fst).Nodup)
    (hwf : ∀ kv ∈ ents, wfIntentEntity etKeys phs kv.1 kv.2 = true) :
    entitiesFromResponses [r0For (ents.map (fun kv => paramFor kv.1 kv.2))] =
      ents.map (fun kv => (kv.1, { kv.2 with text := none })) := by
  simp only [entitiesFromResponses, List.foldl_cons, List.foldl_nil, r0For, Option.getD_some]
  suffices h : ∀ (l : List (String × IntentEntity)) (acc : List (String × IntentEntity)),
      (l.map Prod.fst).Nodup →
      (∀ kv ∈ l, wfIntentEntity etKeys phs kv.1 kv.2 = true) →
      (∀ k, k ∈ l.map Prod.fst → alGet acc k = none) →
      (l.map (fun kv => paramFor kv.1 kv.2)).foldl (fun acc p =>
        match entityFromParam p with
        | some (k, e) => alSet acc k e
        | none => acc) acc = acc ++ l.map (fun kv =>
          (kv.1, ({ type := kv.2.type, text := none, dialogflow := kv.2.dialogflow } : IntentEntity))) by
    apply h ents [] hnd hwf
    intro k _
    rfl
  intro l
  induction l with
  | nil => intro acc _ _ _; simp
  | cons kv t ih =>
    intro acc hnd2 hwf2 hfresh
    obtain ⟨ek, ed⟩ := kv
    simp only [List.map_cons, List.foldl_cons]
    simp only [wf_entityFromParam (hwf2 (ek, ed) (List.mem_cons_self _ _))]
    simp only [List.map_cons, List.nodup_cons] at hnd2
    rw [alSet_append acc ek _ (hfresh ek (by simp))]
    have hfresh2 : ∀ k, k ∈ t.map Prod.fst →
        alGet (acc ++ [(ek, ({ ed with text := none } : IntentEntity))]) k = none := by
      intro k hk
      have hkne : ek ≠ k := fun he => hnd2.1 (he ▸ hk)
      rw [alGet_append_none acc _ k (hfresh k (by simp [hk]))]
      simp [alGet, hkne]
    refine Eq.trans (ih (acc ++ [(ek, { type := ed.type, text := none, dialogflow := ed.dialogflow })])
      hnd2.2 (fun kv hkv => hwf2 kv (List.mem_cons_of_mem _ hkv)) hfresh2) ?_
    simp

/- ### C1: phrase reconstruction on import -/

lemma findIdx?_detail {α : Type} (p : α → Bool) :
    ∀ (l : List α) (base n : Nat), List.findIdx? p l base = some n →
      base ≤ n ∧ ∃ a, l.drop (n - base) = a :: l.drop (n - base + 1) ∧ p a = true := by
  intro l
  induction l with
  | nil => intro base n h; simp at h
  | cons x xs ih =>
    intro base n h
    rw [List.findIdx?_cons] at h
    by_cases hp : p x = true
    · rw [if_pos hp] at h
      cases h
      exact ⟨Nat.le_refl _, x, by simp, hp⟩
    · rw [if_neg hp] at h
      obtain ⟨hle, a, hdrop, hpa⟩ := ih (base + 1) n h
      refine ⟨by omega, a, ?_, hpa⟩
      have h1 : n - base = (n - (base + 1)) + 1 := by omega
      rw [h1]
      simpa using hdrop

lemma findIdxFrom_spec {cs : List Char} {start : Nat} {c : Char} {i : Nat}
    (h : findIdxFrom cs start c = some i) :
    start ≤ i ∧ cs.drop i = c :: cs.drop (i + 1) := by
  simp only [findIdxFrom, Option.map_eq_some'] at h
  obtain ⟨m, hfind, hi⟩ := h
  obtain ⟨-, a, hdrop, hpa⟩ := findIdx?_detail (· = c) (cs.drop start) 0 m hfind
  have ha : a = c := by simpa using hpa
  subst ha
  subst hi
  rw [Nat.sub_zero] at hdrop
  rw [List.drop_drop, List.drop_drop] at hdrop
  constructor
  · omega
  · convert hdrop using 2 <;> omega

lemma drop_decomp (cs : List Char) (pos i : Nat) (h : pos ≤ i) :
    cs.drop pos = listSlice cs pos i ++ cs.drop i := by
  simp only [listSlice]
  conv_lhs => rw [← List.take_append_drop (i - pos) (cs.drop pos)]
  rw [List.drop_drop, Nat.add_sub_cancel' h]

/-- Text-restoration state of an intent's entities during the usersays
    pass: entity `k`'s exemplar text has been restored exactly when
    `g k` holds. -/
def entsState (ents0 : List (String × IntentEntity)) (g : String → Bool) :
    List (String × IntentEntity) :=
  ents0.map (fun kv =>
    (kv.1, { type := kv.2.type, text := if g kv.1 then kv.2.text else none
             dialogflow := kv.2.dialogflow }))

lemma entsState_congr {ents0 : List (String × IntentEntity)} {g1 g2 : String → Bool}
    (h : ∀ kv ∈ ents0, (if g1 kv.1 then kv.2.text else none) =
      (if g2 kv.1 then kv.2.text else none)) :
    entsState ents0 g1 = entsState ents0 g2 := by
  simp only [entsState]
  apply List.map_congr_left
  intro kv hkv
  rw [h kv hkv]

lemma entsState_false (ents0 : List (String × IntentEntity)) :
    entsState ents0 (fun _ => false) =
      ents0.map (fun kv =>
        (kv.1, { type := kv.2.type, text := none, dialogflow := kv.2.dialogflow })) := by
  simp [entsState]

lemma entsState_true_of_wf {ents0 : List (String × IntentEntity)} {g : String → Bool}
    (h : ∀ kv ∈ ents0, kv.2.text = none ∨ g kv.1 = true) :
    entsState ents0 g = ents0 := by
  simp only [entsState]
  conv_rhs => rw [show ents0 = ents0.map id from (List.map_id ents0).symm]
  apply List.map_congr_left
  intro kv hkv
  obtain ⟨k, ed⟩ := kv
  obtain ⟨ty, te, dl⟩ := ed
  rcases h (k, ⟨ty, te, dl⟩) hkv with h1 | h1
  · have h2 : te = none := h1
    subst h2
    simp
  · simp only at h1
    rw [h1]
    simp

/-- `entitySegText` under duplicate-free keys: the declared entity's
    exemplar text when truthy, else the placeholder itself. -/
lemma entitySegText_spec :
    ∀ (ents0 : List (String × IntentEntity)) (e : String) (t0 : String),
      (∀ kv ∈ ents0, kv.1 ≠ e) →
      ents0.foldl (fun t (p : String × IntentEntity) =>
        if p.1 = e ∧ strTruthy p.2.text then p.2.text.getD t else t) t0 = t0 := by
  intro ents0
  induction ents0 with
  | nil => intro e t0 _; rfl
  | cons kv rest ih =>
    intro e t0 hne
    rw [List.foldl_cons]
    rw [if_neg (by
      intro hc
      exact hne kv (List.mem_cons_self _ _) hc.1)]
    exact ih e t0 (fun kv2 hkv2 => hne kv2 (List.mem_cons_of_mem _ hkv2))

lemma entitySegText_found {ents0 : List (String × IntentEntity)} {e : String}
    {ed : IntentEntity}
    (hnd : (ents0.map Prod.fst).Nodup) (hmem : (e, ed) ∈ ents0) :
    entitySegText ents0 e = (if strTruthy ed.text then ed.text.getD e else e) := by
  induction ents0 with
  | nil => simp at hmem
  | cons kv rest ih =>
    simp only [List.map_cons, List.nodup_cons] at hnd
    rcases List.mem_cons.mp hmem with h1 | h1
    · subst h1
      simp only [entitySegText, List.foldl_cons]
      have hrest : ∀ kv2 ∈ rest, kv2.1 ≠ e := by
        intro kv2 hkv2 hc
        have hm : kv2.1 ∈ rest.map Prod.fst := List.mem_map_of_mem Prod.fst hkv2
        rw [hc] at hm
        exact hnd.1 hm
      by_cases ht : strTruthy ed.text = true
      · rw [if_pos (by simp [ht]), ht]
        rw [if_pos rfl]
        cases hte : ed.text with
        | none => rw [hte] at ht; simp [strTruthy] at ht
        | some t => simp only [Option.getD_some]; exact entitySegText_spec rest e t hrest
      · rw [if_neg (by rintro ⟨-, hc⟩; exact ht hc)]
        rw [if_neg (by simpa using ht)]
        exact entitySegText_spec rest e e hrest
    · have hne : kv.1 ≠ e := by
        intro hc
        exact hnd.1 (hc ▸ List.mem_map_of_mem Prod.fst h1)
      simp only [entitySegText, List.foldl_cons] at ih ⊢
      rw [if_neg (by rintro ⟨hc, -⟩; exact hne hc)]
      exact ih hnd.2 h1

lemma segAliasMeta_none :
    ∀ (ents0 : List (String × IntentEntity)) (e : String)
      (am : Option String × Option String),
      (∀ kv ∈ ents0, kv.1 ≠ e) →
      (ents0.map (fun kv => paramFor kv.1 kv.2)).foldl (fun am (p : DFParameter) =>
        if p.name = some e then (p.name, p.dataType) else am) am = am := by
  intro ents0
  induction ents0 with
  | nil => intro e am _; rfl
  | cons kv rest ih =>
    intro e am hne
    simp only [List.map_cons, List.foldl_cons]
    rw [if_neg (by
      simp only [paramFor, Option.some_inj]
      intro hc
      exact hne kv (List.mem_cons_self _ _) hc)]
    exact ih e am (fun kv2 hkv2 => hne kv2 (List.mem_cons_of_mem _ hkv2))

lemma segAliasMeta_found {ents0 : List (String × IntentEntity)} {e : String}
    {ed : IntentEntity}
    (hnd : (ents0.map Prod.fst).Nodup) (hmem : (e, ed) ∈ ents0) :
    segAliasMeta (ents0.map (fun kv => paramFor kv.1 kv.2)) e =
      (some e, some (dtOf ed)) := by
  induction ents0 with
  | nil => simp at hmem
  | cons kv rest ih =>
    simp only [List.map_cons, List.nodup_cons] at hnd
    rcases List.mem_cons.mp hmem with h1 | h1
    · subst h1
      simp only [segAliasMeta, List.map_cons, List.foldl_cons]
      rw [if_pos (by simp [paramFor])]
      have hrest : ∀ kv2 ∈ rest, kv2.1 ≠ e := by
        intro kv2 hkv2 hc
        have hm : kv2.1 ∈ rest.map Prod.fst := List.mem_map_of_mem Prod.fst hkv2
        rw [hc] at hm
        exact hnd.1 hm
      rw [segAliasMeta_none rest e _ hrest]
      rfl
    · have hne : kv.1 ≠ e := by
        intro hc
        have hm : kv.1 ∈ rest.map Prod.fst := by
          rw [hc]
          exact List.mem_map_of_mem Prod.fst h1
        exact hnd.1 (by rwa [hc] at hm ⊢)
      simp only [segAliasMeta, List.map_cons, List.foldl_cons] at ih ⊢
      rw [if_neg (by simp [paramFor, hne])]
      exact ih hnd.2 h1

lemma string_mk_append (a b : List Char) : (⟨a⟩ : String) ++ ⟨b⟩ = ⟨a ++ b⟩ := by
  apply String.ext
  simp

lemma applyUSData_lit (acc : String) (ji : Intent) (t : List Char) :
    applyUSData (acc, ji) (litSeg t) = (acc ++ ⟨t⟩, ji) := by
  obtain ⟨P, ents, D⟩ := ji
  cases ents with
  | none => simp [applyUSData, litSeg, strTruthy]
  | some l =>
    simp only [applyUSData, litSeg, strTruthy]
    rw [if_neg (by simp)]
    simp

lemma applyUSData_ent (acc : String) (P : Option (List String))
    (D : Option DFIntentHatch) (g : String → Bool)
    (ents0 : List (String × IntentEntity)) (e : String) (ed : IntentEntity)
    (hnd : (ents0.map Prod.fst).Nodup) (hmem : (e, ed) ∈ ents0) (he : e ≠ "")
    (htext : ed.text = none ∨ ∃ t, ed.text = some t ∧ t ≠ "" ∧ t ≠ e) :
    applyUSData (acc, { phrases := P, entities := some (entsState ents0 g), dialogflow := D })
      (entSeg true ents0 (some (ents0.map (fun kv => paramFor kv.1 kv.2))) e) =
      (acc ++ "\x7b" ++ e ++ "\x7d",
       { phrases := P, entities := some (entsState ents0 (fun k => g k || decide (k = e)))
         dialogflow := D }) := by
  have halias : segAliasMeta (ents0.map (fun kv => paramFor kv.1 kv.2)) e =
      (some e, some (dtOf ed)) := segAliasMeta_found hnd hmem
  have hseg : entSeg true ents0 (some (ents0.map (fun kv => paramFor kv.1 kv.2))) e =
      { text := some (entitySegText ents0 e), userDefined := some true
        «alias» := some e, meta := some (dtOf ed) } := by
    simp [entSeg, halias]
  rw [hseg]
  have htxt := entitySegText_found hnd hmem
  rcases htext with hnone | ⟨t, hsome, htne, hte⟩
  · rw [hnone] at htxt
    simp only [strTruthy, Bool.false_eq_true, if_false] at htxt
    simp only [applyUSData, strTruthy, htxt]
    rw [if_pos (by simp [he]), if_neg (by simp)]
    simp only [Option.getD_some]
    have hES : entsState ents0 g = entsState ents0 (fun k => g k || decide (k = e)) := by
      apply entsState_congr
      intro kv hkv
      by_cases hk : kv.1 = e
      · have hkv2 : kv.2 = ed := by
          have h1 := alGet_of_mem_nodup ents0 hnd kv hkv
          rw [hk] at h1
          have h2 := alGet_of_mem_nodup ents0 hnd (e, ed) hmem
          rw [h1] at h2
          simpa using Option.some_inj.mp h2
        rw [hkv2, hnone]
        simp
      · simp [hk]
    rw [← hES]
    have hacc : acc ++ ("\x7b" ++ e ++ "\x7d") = acc ++ "\x7b" ++ e ++ "\x7d" := by
      simp [String.append_assoc]
    rw [hacc]
  · rw [hsome] at htxt
    have htt : strTruthy (some t) = true := by simpa [strTruthy] using htne
    rw [htt] at htxt
    simp only [if_true, Option.getD_some] at htxt
    simp only [applyUSData, strTruthy, htxt]
    rw [if_pos (by simp [he]), if_pos (by simp [hte])]
    simp only [Option.getD_some]
    have hmap : (entsState ents0 g).map (fun kv =>
        if some kv.1 = some e then (kv.1, { kv.2 with text := some t }) else (kv.1, kv.2)) =
        entsState ents0 (fun k => g k || decide (k = e)) := by
      simp only [entsState, List.map_map]
      apply List.map_congr_left
      intro kv hkv
      simp only [Function.comp_def, Option.some_inj]
      by_cases hk : kv.1 = e
      · rw [if_pos hk]
        have hkv2 : kv.2 = ed := by
          have h1 := alGet_of_mem_nodup ents0 hnd kv hkv
          rw [hk] at h1
          have h2 := alGet_of_mem_nodup ents0 hnd (e, ed) hmem
          rw [h1] at h2
          simpa using Option.some_inj.mp h2
        rw [hk, hkv2, hsome]
        simp
      · rw [if_neg hk]
        simp [hk]
    rw [hmap]
    have hacc : acc ++ ("\x7b" ++ e ++ "\x7d") = acc ++ "\x7b" ++ e ++ "\x7d" := by
      simp [String.append_assoc]
    rw [hacc]

/-- The placeholder names carried by a marker list. -/
def msNames (cs : List Char) (ms : List (Nat × Nat)) : List String :=
  ms.map (fun ij => ⟨listSlice cs (ij.1 + 1) ij.2⟩)

lemma nextBrace_spec {cs : List Char} {start i j : Nat}
    (h : nextBrace cs start = some (i, j)) :
    start ≤ i ∧ i + 1 ≤ j ∧ cs.drop i = '{' :: cs.drop (i + 1) ∧
      cs.drop j = '}' :: cs.drop (j + 1) := by
  simp only [nextBrace] at h
  cases h1 : findIdxFrom cs start '{' with
  | none => rw [h1] at h; cases h
  | some i2 =>
    simp only [h1] at h
    cases h2 : findIdxFrom cs (i2 + 1) '}' with
    | none => simp only [h2] at h; cases h
    | some j2 =>
      simp only [h2] at h
      cases h
      obtain ⟨ha, hb⟩ := findIdxFrom_spec h1
      obtain ⟨hc, hd⟩ := findIdxFrom_spec h2
      exact ⟨ha, hc, hb, hd⟩

lemma refSegments_fold (ents0 : List (String × IntentEntity))
    (hnd : (ents0.map Prod.fst).Nodup)
    (hwftext : ∀ kv ∈ ents0, kv.2.text = none ∨ ∃ t, kv.2.text = some t ∧ t ≠ "" ∧ t ≠ kv.1)
    (cs : List Char) :
    ∀ (fuel pos : Nat) (ms : List (Nat × Nat)), braceScan cs pos fuel = ms →
      (∀ e ∈ msNames cs ms, (alGet ents0 e).isSome ∧ e ≠ "") →
      ∀ (acc : String) (P : Option (List String)) (D : Option DFIntentHatch) (g : String → Bool),
      (refSegments true ents0 (some (ents0.map (fun kv => paramFor kv.1 kv.2))) cs ms pos).foldl
        applyUSData (acc, { phrases := P, entities := some (entsState ents0 g), dialogflow := D }) =
      (acc ++ ⟨cs.drop pos⟩,
       { phrases := P
         entities := some (entsState ents0 (fun k => g k || decide (k ∈ msNames cs ms)))
         dialogflow := D }) := by
  intro fuel
  induction fuel with
  | zero =>
    intro pos ms hscan hdecl acc P D g
    simp only [braceScan] at hscan
    subst hscan
    simp only [refSegments, msNames, List.map_nil]
    split
    · rw [List.foldl_cons, List.foldl_nil, applyUSData_lit]
      have : entsState ents0 (fun k => g k || decide (k ∈ ([] : List String))) =
          entsState ents0 g := by
        apply entsState_congr
        intro kv _
        simp
      rw [this]
    · rw [List.foldl_nil]
      have hdrop : cs.drop pos = [] := by
        rw [List.drop_eq_nil_iff_le]
        omega
      rw [hdrop]
      have : entsState ents0 (fun k => g k || decide (k ∈ ([] : List String))) =
          entsState ents0 g := by
        apply entsState_congr
        intro kv _
        simp
      rw [this]
      have hs : (acc ++ (⟨[]⟩ : String)) = acc := by
        apply String.ext
        simp
      rw [hs]
  | succ fuel ih =>
    intro pos ms hscan hdecl acc P D g
    simp only [braceScan] at hscan
    cases hnb : nextBrace cs pos with
    | none =>
      rw [hnb] at hscan
      subst hscan
      simp only [refSegments, msNames, List.map_nil]
      split
      · rw [List.foldl_cons, List.foldl_nil, applyUSData_lit]
        have : entsState ents0 (fun k => g k || decide (k ∈ ([] : List String))) =
            entsState ents0 g := by
          apply entsState_congr
          intro kv _
          simp
        rw [this]
      · rw [List.foldl_nil]
        have hdrop : cs.drop pos = [] := by
          rw [List.drop_eq_nil_iff_le]
          omega
        rw [hdrop]
        have : entsState ents0 (fun k => g k || decide (k ∈ ([] : List String))) =
            entsState ents0 g := by
          apply entsState_congr
          intro kv _
          simp
        rw [this]
        have hs : (acc ++ (⟨[]⟩ : String)) = acc := by
          apply String.ext
          simp
        rw [hs]
    | some ij =>
      obtain ⟨i, j⟩ := ij
      rw [hnb] at hscan
      subst hscan
      obtain ⟨hpi, hij, hdi, hdj⟩ := nextBrace_spec hnb
      have hdecl1 := hdecl ⟨listSlice cs (i + 1) j⟩ (by simp [msNames])
      obtain ⟨hsome, hene⟩ := hdecl1
      cases hget : alGet ents0 ⟨listSlice cs (i + 1) j⟩ with
      | none => rw [hget] at hsome; simp at hsome
      | some ed =>
      have hmem := alGet_mem ents0 _ ed hget
      have htext := hwftext _ hmem
      simp only at htext
      simp only [refSegments]
      rw [List.foldl_append, List.foldl_append]
      have hlit : ∀ jj : Intent,
          (if listSlice cs pos i ≠ [] then [litSeg (listSlice cs pos i)] else []).foldl
            applyUSData (acc, jj) = (acc ++ ⟨listSlice cs pos i⟩, jj) := by
        intro jj
        split
        · rw [List.foldl_cons, List.foldl_nil, applyUSData_lit]
        · rw [List.foldl_nil]
          next hx =>
          have hnil : listSlice cs pos i = [] := by simpa using hx
          rw [hnil]
          have hs : (acc ++ (⟨[]⟩ : String)) = acc := by
            apply String.ext
            simp
          rw [hs]
      rw [hlit _]
      rw [List.foldl_cons, List.foldl_nil]
      rw [applyUSData_ent _ P D g ents0 _ ed hnd hmem hene htext]
      rw [ih (j + 1) _ rfl (fun e he => hdecl e (by simp [msNames]; right; simpa [msNames] using he))
        _ P D _]
      have hstr : acc ++ ⟨listSlice cs pos i⟩ ++ "\x7b" ++ ⟨listSlice cs (i + 1) j⟩ ++ "\x7d" ++
          ⟨cs.drop (j + 1)⟩ = acc ++ ⟨cs.drop pos⟩ := by
        have hbrace : ("\x7b" : String) = ⟨['{']⟩ := rfl
        have hbrace2 : ("\x7d" : String) = ⟨['}']⟩ := rfl
        rw [hbrace, hbrace2]
        apply String.ext
        simp only [String.data_append]
        rw [drop_decomp cs pos i hpi, hdi, drop_decomp cs (i + 1) j hij, hdj]
        simp
      rw [hstr]
      have hES : entsState ents0 (fun k => (g k || decide (k = ⟨listSlice cs (i + 1) j⟩)) ||
          decide (k ∈ msNames cs (braceScan cs (j + 1) fuel))) =
          entsState ents0 (fun k =>
            g k || decide (k ∈ msNames cs ((i, j) :: braceScan cs (j + 1) fuel))) := by
        apply entsState_congr
        intro kv _
        have hcond : ((g kv.1 || decide (kv.1 = ⟨listSlice cs (i + 1) j⟩)) ||
            decide (kv.1 ∈ msNames cs (braceScan cs (j + 1) fuel))) =
            (g kv.1 || decide (kv.1 ∈ msNames cs ((i, j) :: braceScan cs (j + 1) fuel))) := by
          by_cases hk : kv.1 = (⟨listSlice cs (i + 1) j⟩ : String)
          · by_cases hm : kv.1 ∈ msNames cs (braceScan cs (j + 1) fuel) <;>
              simp [hk, hm, msNames]
          · have hb : (kv.1 == (⟨listSlice cs (i + 1) j⟩ : String)) = false := beq_false_of_ne hk
            by_cases hm : kv.1 ∈ msNames cs (braceScan cs (j + 1) fuel) <;>
              simp [hk, hm, msNames, hb]
        rw [hcond]
      rw [hES]

/-- `buildPhraseData` agrees with the declarative tokenizer (shared form of
    the C6 refinement, reproved here for use in the round-trip proofs). -/
lemma buildPhraseData_eq (hasEnts : Bool) (ents : List (String × IntentEntity))
    (paramsOpt : Option (List DFParameter)) (phrase : String) :
    buildPhraseData hasEnts ents paramsOpt phrase =
      refTokenize hasEnts ents paramsOpt phrase := by
  simp only [buildPhraseData, refTokenize]
  have hfold := phrase_fold_eq hasEnts ents paramsOpt phrase.toList
    (braceScan phrase.toList 0 (phrase.toList.length + 1)) 0 []
  simp only [List.nil_append] at hfold
  rw [hfold]
  cases hms : braceScan phrase.toList 0 (phrase.toList.length + 1) with
  | nil =>
    simp only [refSegments, if_pos rfl, litSeg]
    by_cases hlen : 0 < phrase.toList.length
    · rw [if_pos hlen]
      simp
    · rw [if_neg hlen]
      simp
  | cons ij rest =>
    obtain ⟨i, j⟩ := ij
    rw [if_neg (refSegments_ne_nil hasEnts ents paramsOpt phrase.toList i j rest 0),
      if_neg (by simp)]

lemma string_empty_append (s : String) : "" ++ s = s := by
  apply String.ext
  simp

lemma placeholders_eq_msNames (ph : String) :
    placeholders ph = msNames ph.toList (braceScan ph.toList 0 (ph.toList.length + 1)) := rfl

lemma apply_phrase_ents (ents0 : List (String × IntentEntity))
    (hnd : (ents0.map Prod.fst).Nodup)
    (hwftext : ∀ kv ∈ ents0, kv.2.text = none ∨ ∃ t, kv.2.text = some t ∧ t ≠ "" ∧ t ≠ kv.1)
    (ph : String)
    (hdecl : ∀ e ∈ placeholders ph, (alGet ents0 e).isSome ∧ e ≠ "")
    (acc : String) (P : Option (List String)) (D : Option DFIntentHatch) (g : String → Bool) :
    (buildPhraseData true ents0 (some (ents0.map (fun kv => paramFor kv.1 kv.2))) ph).foldl
      applyUSData (acc, { phrases := P, entities := some (entsState ents0 g), dialogflow := D }) =
    (acc ++ ph,
     { phrases := P
       entities := some (entsState ents0 (fun k => g k || decide (k ∈ placeholders ph)))
       dialogflow := D }) := by
  rw [buildPhraseData_eq]
  simp only [refTokenize]
  cases hms : braceScan ph.toList 0 (ph.toList.length + 1) with
  | nil =>
    rw [if_pos rfl]
    rw [List.foldl_cons, List.foldl_nil]
    rw [show ({ text := some ph, userDefined := some false } : DFUSData) =
      litSeg ph.toList from rfl]
    rw [applyUSData_lit]
    have hES : entsState ents0 (fun k => g k || decide (k ∈ placeholders ph)) =
        entsState ents0 g := by
      apply entsState_congr
      intro kv _
      rw [placeholders_eq_msNames, hms]
      simp [msNames]
    rw [hES]
    rfl
  | cons ij rest =>
    obtain ⟨i, j⟩ := ij
    rw [if_neg (by simp : ¬((i, j) :: rest = []))]
    have := refSegments_fold ents0 hnd hwftext ph.toList (ph.toList.length + 1) 0
      ((i, j) :: rest) hms (by rw [placeholders_eq_msNames, hms] at hdecl; exact hdecl)
      acc P D g
    rw [this]
    rw [placeholders_eq_msNames, hms]
    rfl

lemma apply_phrase_nopl (ph : String) (hnopl : placeholders ph = [])
    (acc : String) (ji : Intent) (hasEnts : Bool) (ents : List (String × IntentEntity))
    (paramsOpt : Option (List DFParameter)) :
    (buildPhraseData hasEnts ents paramsOpt ph).foldl applyUSData (acc, ji) = (acc ++ ph, ji) := by
  rw [buildPhraseData_eq]
  simp only [refTokenize]
  have hms : braceScan ph.toList 0 (ph.toList.length + 1) = [] := by
    rw [placeholders_eq_msNames] at hnopl
    by_contra hne
    cases hbs : braceScan ph.toList 0 (ph.toList.length + 1) with
    | nil => exact hne hbs
    | cons x xs =>
      rw [hbs] at hnopl
      simp [msNames] at hnopl
  rw [hms, if_pos rfl]
  rw [List.foldl_cons, List.foldl_nil]
  rw [show ({ text := some ph, userDefined := some false } : DFUSData) =
    litSeg ph.toList from rfl]
  rw [applyUSData_lit]
  rfl

lemma applyUserSays_ents (ents0 : List (String × IntentEntity))
    (hnd : (ents0.map Prod.fst).Nodup)
    (hwftext : ∀ kv ∈ ents0, kv.2.text = none ∨ ∃ t, kv.2.text = some t ∧ t ≠ "" ∧ t ≠ kv.1)
    (locale id ph : String)
    (hdecl : ∀ e ∈ placeholders ph, (alGet ents0 e).isSome ∧ e ≠ "")
    (P : Option (List String)) (D : Option DFIntentHatch) (g : String → Bool) :
    applyUserSays { phrases := P, entities := some (entsState ents0 g), dialogflow := D }
      (usItemFor locale id true ents0 (some (ents0.map (fun kv => paramFor kv.1 kv.2))) ph) =
      .ok { phrases := some (P.getD [] ++ [ph])
            entities := some (entsState ents0 (fun k => g k || decide (k ∈ placeholders ph)))
            dialogflow := D } := by
  simp only [applyUserSays, usItemFor]
  rw [apply_phrase_ents ents0 hnd hwftext ph hdecl "" P D g]
  rw [string_empty_append]

lemma applyUserSays_nopl (ji : Intent) (locale id ph : String)
    (hasEnts : Bool) (ents : List (String × IntentEntity))
    (paramsOpt : Option (List DFParameter))
    (hnopl : placeholders ph = []) :
    applyUserSays ji (usItemFor locale id hasEnts ents paramsOpt ph) =
      .ok { ji with phrases := some (ji.phrases.getD [] ++ [ph]) } := by
  simp only [applyUserSays, usItemFor]
  rw [apply_phrase_nopl ph hnopl "" ji hasEnts ents paramsOpt]
  rw [string_empty_append]

lemma usitems_fold_ents (ents0 : List (String × IntentEntity))
    (hnd : (ents0.map Prod.fst).Nodup)
    (hwftext : ∀ kv ∈ ents0, kv.2.text = none ∨ ∃ t, kv.2.text = some t ∧ t ≠ "" ∧ t ≠ kv.1)
    (locale : String) :
    ∀ {phs : List String} {items : List DFArrItem},
      USItems locale true ents0 (some (ents0.map (fun kv => paramFor kv.1 kv.2))) phs items →
      (∀ ph ∈ phs, ∀ e ∈ placeholders ph, (alGet ents0 e).isSome ∧ e ≠ "") →
      ∀ (cur : List String) (D : Option DFIntentHatch) (g : String → Bool),
      items.foldlM applyUserSays
        ({ phrases := some cur, entities := some (entsState ents0 g), dialogflow := D } : Intent) =
        .ok { phrases := some (cur ++ phs)
              entities := some (entsState ents0 (fun k =>
                g k || phs.any (fun ph => decide (k ∈ placeholders ph))))
              dialogflow := D } := by
  intro phs items hus
  induction hus with
  | nil =>
    intro _ cur D g
    rw [List.foldlM_nil]
    have hES : entsState ents0 (fun k => g k ||
        ([] : List String).any (fun ph => decide (k ∈ placeholders ph))) =
        entsState ents0 g := by
      apply entsState_congr
      intro kv _
      simp
    rw [hES]
    simp
    rfl
  | cons id ph phs items hrest ih =>
    intro hdecl cur D g
    rw [List.foldlM_cons]
    rw [applyUserSays_ents ents0 hnd hwftext locale id ph
      (hdecl ph (List.mem_cons_self _ _)) (some cur) D g]
    rw [except_ok_bind]
    simp only [Option.getD_some]
    rw [ih (fun ph2 hph2 => hdecl ph2 (List.mem_cons_of_mem _ hph2)) (cur ++ [ph]) D _]
    have hES : entsState ents0 (fun k => (g k || decide (k ∈ placeholders ph)) ||
        phs.any (fun ph2 => decide (k ∈ placeholders ph2))) =
        entsState ents0 (fun k => g k ||
          (ph :: phs).any (fun ph2 => decide (k ∈ placeholders ph2))) := by
      apply entsState_congr
      intro kv _
      have : ((g kv.1 || decide (kv.1 ∈ placeholders ph)) ||
          phs.any (fun ph2 => decide (kv.1 ∈ placeholders ph2))) =
          (g kv.1 || (ph :: phs).any (fun ph2 => decide (kv.1 ∈ placeholders ph2))) := by
        simp [Bool.or_assoc]
      rw [this]
    rw [hES]
    simp

lemma usitems_fold_nopl (locale : String) (hasEnts : Bool)
    (ents : List (String × IntentEntity)) (paramsOpt : Option (List DFParameter)) :
    ∀ {phs : List String} {items : List DFArrItem},
      USItems locale hasEnts ents paramsOpt phs items →
      (∀ ph ∈ phs, placeholders ph = []) →
      ∀ (cur : List String) (E : Option (List (String × IntentEntity)))
        (D : Option DFIntentHatch),
      items.foldlM applyUserSays
          ({ phrases := some cur, entities := E, dialogflow := D } : Intent) =
        .ok { phrases := some (cur ++ phs), entities := E, dialogflow := D } := by
  intro phs items hus
  induction hus with
  | nil =>
    intro _ cur E D
    rw [List.foldlM_nil]
    simp
    rfl
  | cons id ph phs items hrest ih =>
    intro hnopl cur E D
    rw [List.foldlM_cons]
    rw [applyUserSays_nopl _ locale id ph hasEnts ents paramsOpt
      (hnopl ph (List.mem_cons_self _ _))]
    rw [except_ok_bind]
    simp only [Option.getD_some]
    rw [ih (fun ph2 hph2 => hnopl ph2 (List.mem_cons_of_mem _ hph2)) (cur ++ [ph]) E D]
    simp

lemma find?_append_none {α : Type} (p : α → Bool) :
    ∀ (l1 l2 : List α), (∀ f ∈ l1, p f = false) → (l1 ++ l2).find? p = l2.find? p := by
  intro l1
  induction l1 with
  | nil => intro l2 _; simp
  | cons x t ih =>
    intro l2 h
    rw [List.cons_append, List.find?_cons_of_neg _ (by simp [h x (List.mem_cons_self _ _)])]
    exact ih l2 (fun f hf => h f (List.mem_cons_of_mem _ hf))

lemma find?_none {α : Type} (p : α → Bool) :
    ∀ (l : List α), (∀ f ∈ l, p f = false) → l.find? p = none := by
  intro l h
  rw [List.find?_eq_none]
  intro x hx
  simp [h x hx]

/-- The usersays companion name of `k` is matched by no file of intents
    whose key differs from `k` or which is an intent-object file. -/
lemma usName_eq_iff {k k' locale : String}
    (h : k' ++ "_usersays_" ++ locale ++ ".json" = k ++ "_usersays_" ++ locale ++ ".json") :
    k' = k := by
  have h1 := string_append_cancel h
  have h2 := string_append_cancel h1
  exact string_append_cancel h2

lemma objFile_no_usmatch {k k' locale : String}
    (hwfk : hasSubstr (k' ++ ".json") "usersays" = false) :
    ¬ (k' ++ ".json" = k ++ "_usersays_" ++ locale ++ ".json") := by
  intro h
  rw [h] at hwfk
  rw [hasSubstr_usersays k locale] at hwfk
  cases hwfk

lemma IntentBlock_no_usmatch {locale k' : String} {i' : Intent} {IB : List NativeFile}
    (hIB : IntentBlock locale k' i' IB) (k : String)
    (hne : k' ≠ k)
    (hwfk : hasSubstr (k' ++ ".json") "usersays" = false) :
    ∀ f ∈ IB, ¬ (f.path.get? 1 = some (k ++ "_usersays_" ++ locale ++ ".json")) := by
  cases hIB with
  | noPhrases id hp =>
    intro f hf
    rw [List.mem_singleton] at hf
    subst hf
    simp only [List.get?]
    intro hc
    exact objFile_no_usmatch hwfk (by simpa using hc)
  | withPhrases id phs items hp hne2 hus =>
    intro f hf
    rcases List.mem_cons.mp hf with h1 | h1
    · subst h1
      simp only [List.get?]
      intro hc
      exact objFile_no_usmatch hwfk (by simpa using hc)
    · rw [List.mem_singleton] at h1
      subst h1
      simp only [List.get?]
      intro hc
      exact hne (usName_eq_iff (by simpa using hc))

lemma IntentBlocksL_no_usmatch {locale : String} {l : List (String × Intent)}
    {fs : List NativeFile} (h : IntentBlocksL locale l fs) (k : String)
    (hothers : ∀ kv ∈ l, kv.1 ≠ k)
    (hwfk : ∀ kv ∈ l, hasSubstr (kv.1 ++ ".json") "usersays" = false) :
    ∀ f ∈ fs, ¬ (f.path.get? 1 = some (k ++ "_usersays_" ++ locale ++ ".json")) := by
  induction h with
  | nil => intro f hf; simp at hf
  | cons k' i' rest IB fs2 hIB _ ih =>
    intro f hf
    rcases List.mem_append.mp hf with h1 | h1
    · exact IntentBlock_no_usmatch hIB k (hothers (k', i') (List.mem_cons_self _ _))
        (hwfk (k', i') (List.mem_cons_self _ _)) f h1
    · exact ih (fun kv hkv => hothers kv (List.mem_cons_of_mem _ hkv))
        (fun kv hkv => hwfk kv (List.mem_cons_of_mem _ hkv)) f h1

/-- Locating the usersays companion of intent `k` in the full filtered
    intent-file list. -/
lemma find_us {locale : String} {ints : List (String × Intent)} {IFs : List NativeFile}
    (h : IntentBlocksL locale ints IFs)
    (hnd : (ints.map Prod.fst).Nodup)
    (hwfk : ∀ kv ∈ ints, hasSubstr (kv.1 ++ ".json") "usersays" = false) :
    ∀ k i, (k, i) ∈ ints →
      ((i.phrases = some [] →
        IFs.find? (fun f2 => f2.path.get? 1 =
          some (k ++ "_usersays_" ++ locale ++ ".json")) = none) ∧
       (∀ phs, i.phrases = some phs → phs ≠ [] →
        ∃ items,
          IFs.find? (fun f2 => f2.path.get? 1 =
            some (k ++ "_usersays_" ++ locale ++ ".json")) =
            some ⟨["intents", k ++ "_usersays_" ++ locale ++ ".json"], .arr items⟩ ∧
          USItems locale i.entities.isSome (entsOf i) (paramsOptOf i) phs items)) := by
  induction h with
  | nil => intro k i hmem; simp at hmem
  | cons k' i' rest IB fs hIB hrest ih =>
    intro k i hmem
    simp only [List.map_cons, List.nodup_cons] at hnd
    rcases List.mem_cons.mp hmem with h1 | h1
    · injection h1 with hk hi
      subst hk
      subst hi
      have hothers : ∀ kv ∈ rest, kv.1 ≠ k := by
        intro kv hkv hc
        exact hnd.1 (hc ▸ List.mem_map_of_mem Prod.fst hkv)
      have hfs_no := IntentBlocksL_no_usmatch hrest k hothers
        (fun kv hkv => hwfk kv (List.mem_cons_of_mem _ hkv))
      have hwfk1 := hwfk (k, i) (List.mem_cons_self _ _)
      constructor
      · intro hp
        cases hIB with
        | noPhrases id hp2 =>
          rw [find?_append_none _ _ _ (by
            intro f hf
            rw [List.mem_singleton] at hf
            subst hf
            simp only [List.get?]
            simp only [decide_eq_false_iff_not]
            intro hc
            exact objFile_no_usmatch hwfk1 (by simpa using hc))]
          exact find?_none _ fs (by
            intro f hf
            simp only [decide_eq_false_iff_not]
            exact hfs_no f hf)
        | withPhrases id phs items hp2 hne hus =>
          rw [hp] at hp2
          cases hp2
          exact absurd rfl hne
      · intro phs hp hne
        cases hIB with
        | noPhrases id hp2 =>
          rw [hp] at hp2
          cases hp2
          exact absurd rfl hne
        | withPhrases id phs2 items hp2 hne2 hus =>
          rw [hp] at hp2
          cases hp2
          refine ⟨items, ?_, hus⟩
          rw [List.cons_append, List.find?_cons_of_neg _ (by
            simp only [decide_eq_false_iff_not]
            intro hc
            exact objFile_no_usmatch hwfk1 (by simpa using hc))]
          rw [List.cons_append, List.find?_cons_of_pos _ (by
            show decide ((["intents", k ++ "_usersays_" ++ locale ++ ".json"] : List String).get? 1 = some (k ++ "_usersays_" ++ locale ++ ".json")) = true
            simp)]
    · have hne' : k' ≠ k := by
        intro hc
        exact hnd.1 (hc ▸ List.mem_map_of_mem Prod.fst h1)
      have hIBno := IntentBlock_no_usmatch hIB k hne' (hwfk (k', i') (List.mem_cons_self _ _))
      have := ih hnd.2 (fun kv hkv => hwfk kv (List.mem_cons_of_mem _ hkv)) k i h1
      rw [find?_append_none _ IB fs (by
        intro f hf
        simp only [decide_eq_false_iff_not]
        exact hIBno f hf)]
      exact this

/-- The form in which a hatch-free intent re-imports: phrases and entities
    intact, plus the `webhookUsed` escape hatch forced by the exporter's
    hardcoded `webhookUsed: true`. -/
def importedIntent (i : Intent) : Intent :=
  { phrases := i.phrases, entities := i.entities
    dialogflow := some { webhookUsed := some true } }

lemma objContentFor_name (id k : String) (i : Intent) :
    (objContentFor id k i).name = some k := by
  cases h : i.entities <;> simp [objContentFor, h]

lemma objContentFor_fallback (id k : String) (i : Intent) :
    (objContentFor id k i).fallbackIntent = none := by
  cases h : i.entities <;> simp [objContentFor, h]

lemma objContentFor_events (id k : String) (i : Intent) :
    (objContentFor id k i).events = none := by
  cases h : i.entities <;> simp [objContentFor, h]

lemma wfIntentEntity_text {etKeys phs : List String} {ek : String} {ed : IntentEntity}
    (h : wfIntentEntity etKeys phs ek ed = true) :
    ed.text = none ∨ ∃ t, ed.text = some t ∧ t ≠ "" ∧ t ≠ ek := by
  simp only [wfIntentEntity, Bool.and_eq_true, decide_eq_true_eq] at h
  have := h.2
  cases hte : ed.text with
  | none => exact Or.inl rfl
  | some t =>
    rw [hte] at this
    simp only [Bool.and_eq_true, decide_eq_true_eq] at this
    exact Or.inr ⟨t, rfl, this.1.1, this.1.2⟩

lemma wfIntentEntity_covered {etKeys phs : List String} {ek : String} {ed : IntentEntity}
    (h : wfIntentEntity etKeys phs ek ed = true) :
    ed.text = none ∨ (phs.any (fun ph => decide (ek ∈ placeholders ph))) = true := by
  simp only [wfIntentEntity, Bool.and_eq_true, decide_eq_true_eq] at h
  have := h.2
  cases hte : ed.text with
  | none => exact Or.inl rfl
  | some t =>
    rw [hte] at this
    simp only [Bool.and_eq_true, decide_eq_true_eq] at this
    exact Or.inr this.2

lemma process_objFile (locale : String) (all : List NativeFile) (m : JovoModelU)
    (k id : String) (i : Intent) (etKeys : List String)
    (hwf : wfIntent etKeys k i = true)
    (hfind0 : i.phrases = some [] →
      all.find? (fun f2 => f2.path.get? 1 =
        some (k ++ "_usersays_" ++ locale ++ ".json")) = none)
    (hfind1 : ∀ phs, i.phrases = some phs → phs ≠ [] →
      ∃ items,
        all.find? (fun f2 => f2.path.get? 1 =
          some (k ++ "_usersays_" ++ locale ++ ".json")) =
          some ⟨["intents", k ++ "_usersays_" ++ locale ++ ".json"], .arr items⟩ ∧
        USItems locale i.entities.isSome (entsOf i) (paramsOptOf i) phs items) :
    processIntentFile all locale m ⟨["intents", k ++ ".json"], .obj (objContentFor id k i)⟩ =
      .ok { m with intents := some (alSet (m.intents.getD []) k (importedIntent i)) } := by
  have hwf' := hwf
  simp only [wfIntent, Bool.and_eq_true, decide_eq_true_eq] at hwf'
  obtain ⟨⟨hkus, hidlg⟩, hrest⟩ := hwf'
  have hkus2 : hasSubstr (k ++ ".json") "usersays" = false := by
    simpa using hkus
  simp only [processIntentFile]
  rw [show (⟨["intents", k ++ ".json"], .obj (objContentFor id k i)⟩ : NativeFile).path.get? 1 =
    some (k ++ ".json") from rfl]
  simp only [hkus2, Bool.false_eq_true, if_false, contentAsObj]
  rw [skipDefault_objContentFor id k locale i]
  rw [objContentFor_fallback id k i, objContentFor_events id k i]
  simp only [Option.getD_none, List.head?_nil, Option.none_bind]
  rw [if_neg (by simp)]
  rw [if_neg (by simp)]
  simp only [objContentFor_name id k i, Option.getD_some]
  cases hphs : i.phrases with
  | none => rw [hphs] at hrest; cases hents : i.entities <;> (rw [hents] at hrest; simp at hrest)
  | some phs =>
  rw [hphs] at hrest
  cases hents : i.entities with
  | none =>
    rw [hents] at hrest
    simp only [List.all_eq_true, decide_eq_true_eq] at hrest
    have hresp : (objContentFor id k i).responses = none := by
      simp [objContentFor, hents]
    simp only [hresp, Option.getD_none]
    simp only [show entitiesFromResponses [] = [] from rfl]
    rw [if_neg (by simp)]
    by_cases hpnil : phs = []
    · subst hpnil
      simp only [hfind0 hphs]
      rw [show importedIntent i =
        { phrases := some [], entities := none, dialogflow := some { webhookUsed := some true } } by
          simp [importedIntent, hphs, hents]]
    · obtain ⟨items, hfind, hus⟩ := hfind1 phs hphs hpnil
      simp only [hfind]
      rw [show i.entities.isSome = false by rw [hents]; rfl] at hus
      rw [show entsOf i = [] by simp [entsOf, hents]] at hus
      rw [show paramsOptOf i = none by simp [paramsOptOf, hents]] at hus
      rw [usitems_fold_nopl locale false [] none hus hrest [] none
        (some { webhookUsed := some true })]
      simp only [Option.getD_some, List.nil_append]
      rw [show importedIntent i =
        { phrases := some phs, entities := none, dialogflow := some { webhookUsed := some true } } by
          simp [importedIntent, hphs, hents]]
  | some ents0 =>
    rw [hents] at hrest
    simp only [Bool.and_eq_true, decide_eq_true_eq, List.all_eq_true] at hrest
    obtain ⟨⟨⟨hne, hnd⟩, hwfents⟩, hcov⟩ := hrest
    have hresp : (objContentFor id k i).responses =
        some [r0For (ents0.map (fun kv => paramFor kv.1 kv.2))] := by
      simp [objContentFor, hents]
    simp only [hresp, Option.getD_some]
    simp only [wf_entitiesFromResponses ents0 hnd hwfents]
    rw [if_pos (by simpa using hne)]
    have hwftext : ∀ kv ∈ ents0, kv.2.text = none ∨
        ∃ t, kv.2.text = some t ∧ t ≠ "" ∧ t ≠ kv.1 := by
      intro kv hkv
      exact wfIntentEntity_text (hwfents kv hkv)
    by_cases hpnil : phs = []
    · subst hpnil
      simp only [hfind0 hphs]
      have htextnone : ∀ kv ∈ ents0, kv.2.text = none := by
        intro kv hkv
        rcases wfIntentEntity_covered (hwfents kv hkv) with h1 | h1
        · exact h1
        · simp at h1
      have hmapid : ents0.map (fun kv =>
          (kv.1, ({ type := kv.2.type, text := none, dialogflow := kv.2.dialogflow }
            : IntentEntity))) = ents0 := by
        have hid : ∀ kv ∈ ents0, (kv.1, ({ type := kv.2.type, text := none, dialogflow := kv.2.dialogflow } : IntentEntity)) = kv := by
          intro kv hkv
          obtain ⟨kk, ⟨ty, te, dl⟩⟩ := kv
          have h2 : te = none := htextnone _ hkv
          subst h2
          rfl
        calc ents0.map (fun kv => (kv.1, ({ type := kv.2.type, text := none, dialogflow := kv.2.dialogflow } : IntentEntity)))
            = ents0.map (fun kv => kv) := List.map_congr_left hid
          _ = ents0 := by simp
      rw [hmapid]
      rw [show importedIntent i =
        { phrases := some [], entities := some ents0, dialogflow := some { webhookUsed := some true } } by
          simp [importedIntent, hphs, hents]]
    · obtain ⟨items, hfind, hus⟩ := hfind1 phs hphs hpnil
      simp only [hfind]
      rw [show i.entities.isSome = true by rw [hents]; rfl] at hus
      rw [show entsOf i = ents0 by simp [entsOf, hents]] at hus
      rw [show paramsOptOf i = some (ents0.map (fun kv => paramFor kv.1 kv.2)) by
        simp [paramsOptOf, hents]] at hus
      have hdecl : ∀ ph ∈ phs, ∀ e ∈ placeholders ph, (alGet ents0 e).isSome ∧ e ≠ "" := by
        intro ph hph e he
        have h1 := hcov ph hph e he
        constructor
        · exact h1
        · intro hc
          subst hc
          have h2 := alGet_mem ents0 "" _ (Option.eq_some_of_isSome h1)
          have h3 := hwfents _ h2
          simp only [wfIntentEntity, Bool.and_eq_true, decide_eq_true_eq] at h3
          exact h3.1.1.1 rfl
      have hES0 : ents0.map (fun kv =>
          (kv.1, ({ type := kv.2.type, text := none, dialogflow := kv.2.dialogflow }
            : IntentEntity))) = entsState ents0 (fun _ => false) := by
        rw [entsState_false]
      rw [hES0]
      rw [usitems_fold_ents ents0 hnd hwftext locale hus hdecl [] (some { webhookUsed := some true }) _]
      simp only [Option.getD_some, List.nil_append]
      have hfinal : entsState ents0 (fun kv =>
          false || phs.any (fun ph => decide (kv ∈ placeholders ph))) = ents0 := by
        apply entsState_true_of_wf
        intro kv hkv
        rcases wfIntentEntity_covered (hwfents kv hkv) with h1 | h1
        · exact Or.inl h1
        · right
          simpa using h1
      rw [hfinal]
      rw [show importedIntent i =
        { phrases := some phs, entities := some ents0, dialogflow := some { webhookUsed := some true } } by
          simp [importedIntent, hphs, hents]]

lemma process_usFile_skip (all : List NativeFile) (locale : String) (m : JovoModelU)
    (k : String) (items : List DFArrItem) :
    processIntentFile all locale m
      ⟨["intents", k ++ "_usersays_" ++ locale ++ ".json"], .arr items⟩ = .ok m := by
  simp only [processIntentFile]
  rw [show (⟨["intents", k ++ "_usersays_" ++ locale ++ ".json"], .arr items⟩
    : NativeFile).path.get? 1 = some (k ++ "_usersays_" ++ locale ++ ".json") from rfl]
  simp only [hasSubstr_usersays k locale, if_true]

lemma intent_pass_fold (locale : String) (etKeys : List String) (all : List NativeFile) :
    ∀ (l : List (String × Intent)) (fsl : List NativeFile),
      IntentBlocksL locale l fsl →
      (∀ kv ∈ l, wfIntent etKeys kv.1 kv.2 = true) →
      (∀ k i, (k, i) ∈ l →
        ((i.phrases = some [] →
          all.find? (fun f2 => f2.path.get? 1 =
            some (k ++ "_usersays_" ++ locale ++ ".json")) = none) ∧
         (∀ phs, i.phrases = some phs → phs ≠ [] →
          ∃ items,
            all.find? (fun f2 => f2.path.get? 1 =
              some (k ++ "_usersays_" ++ locale ++ ".json")) =
              some ⟨["intents", k ++ "_usersays_" ++ locale ++ ".json"], .arr items⟩ ∧
            USItems locale i.entities.isSome (entsOf i) (paramsOptOf i) phs items))) →
      ∀ (m : JovoModelU), m.intents.isSome →
      fsl.foldlM (processIntentFile all locale) m =
        .ok { m with intents := some (l.foldl (fun acc kv =>
          alSet acc kv.1 (importedIntent kv.2)) (m.intents.getD [])) } := by
  intro l fsl hbl
  induction hbl with
  | nil =>
    intro _ _ m hm
    rw [List.foldlM_nil, List.foldl_nil]
    rw [show ({ m with intents := some (m.intents.getD []) } : JovoModelU) = m by
      obtain ⟨ver, inv, v3, ints, ets, dlg⟩ := m
      cases hi : ints
      · rw [hi] at hm; simp at hm
      · simp]
    rfl
  | cons k i rest IB fs hIB hrest ih =>
    intro hwfl hfindl m hm
    have hwf1 := hwfl (k, i) (List.mem_cons_self _ _)
    have hfind1 := hfindl k i (List.mem_cons_self _ _)
    rw [List.foldlM_append]
    have hIBstep : IB.foldlM (processIntentFile all locale) m =
        .ok { m with intents := some (alSet (m.intents.getD []) k (importedIntent i)) } := by
      cases hIB with
      | noPhrases id hp =>
        simp only [List.foldlM_cons, List.foldlM_nil]
        rw [process_objFile locale all m k id i etKeys hwf1 hfind1.1 hfind1.2]
        rfl
      | withPhrases id phs items hp hne hus =>
        simp only [List.foldlM_cons, List.foldlM_nil]
        rw [process_objFile locale all m k id i etKeys hwf1 hfind1.1 hfind1.2]
        rw [except_ok_bind]
        rw [process_usFile_skip all locale _ k items]
        rfl
    rw [hIBstep, except_ok_bind]
    rw [ih (fun kv hkv => hwfl kv (List.mem_cons_of_mem _ hkv))
      (fun k2 i2 hm2 => hfindl k2 i2 (List.mem_cons_of_mem _ hm2))
      { m with intents := some (alSet (m.intents.getD []) k (importedIntent i)) } (by rfl)]
    rw [List.foldl_cons]
    rfl

lemma skipDefaultEntity_etObjFor (id T : String) :
    skipDefaultEntityProps { values := some [], dialogflow := none } (etObjFor id T) =
      { values := some [], dialogflow := none } := by
  rfl

lemma wf_applyEntry_fold (id T : String) :
    ∀ (vs : List EntityTypeValueU) (acc : List EntityTypeValueU),
      (∀ v ∈ vs, wfValue v = true) →
      (vs.map (entryFor false false)).foldlM (applyEntry (etObjFor id T)) acc =
        .ok (acc ++ vs) := by
  intro vs
  induction vs with
  | nil => intro acc _; simp; rfl
  | cons v t ih =>
    intro acc hwf
    have hv := hwf v (List.mem_cons_self _ _)
    rw [List.map_cons, List.foldlM_cons]
    have hcnd : (¬ false = true ∧ ¬ false = true) := by simp
    cases v with
    | str s => simp [wfValue] at hv
    | obj vo =>
      obtain ⟨vv, vsyn⟩ := vo
      cases hvv : vv with
      | none => rw [hvv] at hv; simp [wfValue] at hv
      | some sv =>
        rw [hvv] at hv
        have happly : applyEntry (etObjFor id T) acc
            (entryFor false false (.obj { value := some sv, synonyms := vsyn })) =
            .ok (acc ++ [.obj { value := some sv, synonyms := vsyn }]) := by
          cases hs : vsyn with
          | none =>
            have hclean : sanitize sv = sv := by
              rw [hs] at hv
              simp [wfValue] at hv
              exact hv
            simp only [entryFor, applyEntry, etObjFor, DIALOGFLOW_LM_ENTITY, boolTruthy,
              if_pos hcnd, Option.getD_some, Option.getD_none, List.map_nil, hclean]
            have hfilt : ([sv] : List String).filter (fun s => decide (some s ≠ some sv)) = [] := by
              simp
            rw [hfilt]
            simp
          | some ss =>
            rw [hs] at hv
            simp only [wfValue, Bool.and_eq_true, decide_eq_true_eq, List.all_eq_true] at hv
            have hss : ss.map sanitize = ss := by
              have hcl : ∀ s ∈ ss, sanitize s = s := fun s hsm => (hv.2.2 s hsm).1
              have h1 : List.map sanitize ss = List.map (fun s => s) ss :=
                List.map_congr_left hcl
              rw [h1]
              simp
            simp only [entryFor, applyEntry, etObjFor, DIALOGFLOW_LM_ENTITY, boolTruthy,
              if_pos hcnd, Option.getD_some, Option.getD_none, hv.1, hss]
            have hfilt : (sv :: ss).filter (fun s => decide (some s ≠ some sv)) = ss := by
              rw [List.filter_cons]
              rw [if_neg (by simp)]
              rw [List.filter_eq_self.mpr (by
                intro s hsm
                simp only [decide_eq_true_eq]
                intro hc
                exact (hv.2.2 s hsm).2 (by simpa using hc))]
            rw [hfilt]
            rw [if_pos (by simpa using hv.2.1)]
        rw [happly, except_ok_bind]
        refine Eq.trans (ih (acc ++ [.obj { value := some sv, synonyms := vsyn }])
          (fun v2 hv2 => hwf v2 (List.mem_cons_of_mem _ hv2))) ?_
        simp

lemma enName_eq_iff {T T' locale : String}
    (h : T' ++ "_entries_" ++ locale ++ ".json" = T ++ "_entries_" ++ locale ++ ".json") :
    T' = T := by
  have h1 := string_append_cancel h
  have h2 := string_append_cancel h1
  exact string_append_cancel h2

lemma objFile_no_enmatch {T T' locale : String}
    (hwf : hasSubstr (T' ++ ".json") "entries" = false) :
    ¬ (T' ++ ".json" = T ++ "_entries_" ++ locale ++ ".json") := by
  intro h
  rw [h] at hwf
  rw [hasSubstr_entries T locale] at hwf
  cases hwf

lemma TypeBlock_no_enmatch {locale : String} {etl : List (String × EntityType)}
    {T' : String} {B : List NativeFile} (hTB : TypeBlock locale etl T' B) (T : String)
    (hwf : hasSubstr (T' ++ ".json") "entries" = false)
    (hcase : T' ≠ T ∨ (∃ et, alGet etl T' = some et ∧ et.values = some [])) :
    ∀ f ∈ B, ¬ (f.path.get? 1 = some (T ++ "_entries_" ++ locale ++ ".json")) := by
  cases hTB with
  | mk id T2 et vs hget hvs =>
    intro f hf
    rcases List.mem_cons.mp hf with h1 | h1
    · subst h1
      simp only [List.get?]
      intro hc
      exact objFile_no_enmatch hwf (by simpa using hc)
    · split at h1
      · rw [List.mem_singleton] at h1
        subst h1
        simp only [List.get?]
        intro hc
        have hTT : T' = T := enName_eq_iff (by simpa using hc)
        rcases hcase with h2 | ⟨et2, hget2, hvs2⟩
        · exact h2 hTT
        · rw [hget] at hget2
          cases hget2
          rw [hvs] at hvs2
          cases hvs2
          next hnil => exact hnil rfl
      · simp at h1

lemma TypeBlocks_no_enmatch {locale : String} {etl : List (String × EntityType)}
    {Ts : List String} {fs : List NativeFile} (h : TypeBlocks locale etl Ts fs) (T : String)
    (hwf : ∀ T'' et'', alGet etl T'' = some et'' →
      hasSubstr (T'' ++ ".json") "entries" = false)
    (hTnil : ∀ et, alGet etl T = some et → et.values = some []) :
    ∀ f ∈ fs, ¬ (f.path.get? 1 = some (T ++ "_entries_" ++ locale ++ ".json")) := by
  induction h with
  | nil => intro f hf; simp at hf
  | cons T' Ts B rest hB _ ih =>
    intro f hf
    have hget' : ∃ et', alGet etl T' = some et' := by
      cases hB with
      | mk id T2 et vs hget hvs => exact ⟨et, hget⟩
    obtain ⟨et', hget'⟩ := hget'
    rcases List.mem_append.mp hf with h1 | h1
    · refine TypeBlock_no_enmatch hB T (hwf T' et' hget') ?_ f h1
      by_cases hTT : T' = T
      · subst hTT
        exact Or.inr ⟨et', hget', hTnil et' hget'⟩
      · exact Or.inl hTT
    · exact ih f h1

lemma TypeBlock_inv {locale : String} {etl : List (String × EntityType)}
    {T' : String} {B : List NativeFile} (h : TypeBlock locale etl T' B) :
    ∃ id et vs, alGet etl T' = some et ∧ et.values = some vs ∧
      B = ⟨["entities", T' ++ ".json"], .obj (etObjFor id T')⟩ ::
        (if vs ≠ [] then
          [⟨["entities", T' ++ "_entries_" ++ locale ++ ".json"],
            .arr (vs.map (entryFor false false))⟩]
        else []) := by
  cases h with
  | mk id T2 et vs hget hvs => exact ⟨id, et, vs, hget, hvs, rfl⟩

lemma find_entries {locale : String} {etl : List (String × EntityType)}
    {Ts : List String} {EFs : List NativeFile}
    (h : TypeBlocks locale etl Ts EFs)
    (hwf : ∀ T'' et'', alGet etl T'' = some et'' →
      hasSubstr (T'' ++ ".json") "entries" = false) :
    ∀ T et vs, alGet etl T = some et → et.values = some vs →
      ((vs = [] → EFs.find? (fun f2 => f2.path.get? 1 =
          some (T ++ "_entries_" ++ locale ++ ".json")) = none) ∧
       (vs ≠ [] → T ∈ Ts → EFs.find? (fun f2 => f2.path.get? 1 =
          some (T ++ "_entries_" ++ locale ++ ".json")) =
          some ⟨["entities", T ++ "_entries_" ++ locale ++ ".json"],
            .arr (vs.map (entryFor false false))⟩)) := by
  induction h with
  | nil =>
    intro T et vs hget hvs
    exact ⟨fun _ => rfl, fun _ hmem => by simp at hmem⟩
  | cons T' Ts B rest hB hrest ih =>
    intro T et vs hget hvs
    constructor
    · intro hnil
      subst hnil
      apply find?_none
      intro f hf
      simp only [decide_eq_false_iff_not]
      have := TypeBlocks_no_enmatch (@TypeBlocks.cons locale etl T' Ts B rest hB hrest) T hwf
        (fun et2 hget2 => by rw [hget] at hget2; cases hget2; exact hvs)
      exact this f hf
    · intro hne hmem
      obtain ⟨id, et2, vs2, hget2, hvs2, hBeq⟩ := TypeBlock_inv hB
      by_cases hTT : T' = T
      · subst hTT
        rw [hget2] at hget
        cases hget
        rw [hvs2] at hvs
        cases hvs
        rw [hBeq, List.cons_append]
        rw [List.find?_cons_of_neg _ (by
          simp only [decide_eq_false_iff_not]
          intro hc
          exact objFile_no_enmatch (hwf T' _ hget2) (by simpa using hc))]
        rw [if_pos hne]
        rw [List.cons_append]
        rw [List.find?_cons_of_pos _ (by
          show decide ((["entities", T' ++ "_entries_" ++ locale ++ ".json"] : List String).get? 1 = some (T' ++ "_entries_" ++ locale ++ ".json")) = true
          simp)]
      · have hBno : ∀ f ∈ B, ¬ (f.path.get? 1 =
            some (T ++ "_entries_" ++ locale ++ ".json")) := by
          exact TypeBlock_no_enmatch hB T (hwf T' et2 hget2) (Or.inl hTT)
        rw [find?_append_none _ _ _ (by
          intro f hf
          simp only [decide_eq_false_iff_not]
          exact hBno f hf)]
        have hmem2 : T ∈ Ts := by
          rcases List.mem_cons.mp hmem with h1 | h1
          · exact absurd h1.symm hTT
          · exact h1
        exact (ih T et vs hget hvs).2 hne hmem2

lemma process_enFile_skip (all : List NativeFile) (locale : String) (m : JovoModelU)
    (T : String) (items : List DFArrItem) :
    processEntityFile all locale m
      ⟨["entities", T ++ "_entries_" ++ locale ++ ".json"], .arr items⟩ = .ok m := by
  simp only [processEntityFile]
  rw [show (⟨["entities", T ++ "_entries_" ++ locale ++ ".json"], .arr items⟩
    : NativeFile).path.get? 1 = some (T ++ "_entries_" ++ locale ++ ".json") from rfl]
  simp only [hasSubstr_entries T locale, if_true]

lemma etObjFor_name (id T : String) : (etObjFor id T).name = some T := rfl

lemma process_etObjFile (locale : String) (all : List NativeFile) (m : JovoModelU)
    (T id : String) (et : EntityType) (vs : List EntityTypeValueU)
    (hTen : hasSubstr (T ++ ".json") "entries" = false)
    (hvs : et.values = some vs)
    (hdlg : et.dialogflow = none)
    (hwfv : ∀ v ∈ vs, wfValue v = true)
    (hfind0 : vs = [] → all.find? (fun f2 => f2.path.get? 1 =
      some (T ++ "_entries_" ++ locale ++ ".json")) = none)
    (hfind1 : vs ≠ [] → all.find? (fun f2 => f2.path.get? 1 =
      some (T ++ "_entries_" ++ locale ++ ".json")) =
      some ⟨["entities", T ++ "_entries_" ++ locale ++ ".json"],
        .arr (vs.map (entryFor false false))⟩) :
    processEntityFile all locale m ⟨["entities", T ++ ".json"], .obj (etObjFor id T)⟩ =
      .ok { m with entityTypes := some (alSet (m.entityTypes.getD []) T et) } := by
  have hetform : ({ values := some vs, dialogflow := none } : EntityType) = et := by
    obtain ⟨v0, d0⟩ := et
    have h1 : v0 = some vs := hvs
    have h2 : d0 = none := hdlg
    subst h1
    subst h2
    rfl
  simp only [processEntityFile]
  rw [show (⟨["entities", T ++ ".json"], .obj (etObjFor id T)⟩
    : NativeFile).path.get? 1 = some (T ++ ".json") from rfl]
  simp only [hTen, Bool.false_eq_true, if_false, contentAsObj]
  rw [skipDefaultEntity_etObjFor id T]
  simp only [etObjFor_name id T, Option.getD_some]
  by_cases hnil : vs = []
  · subst hnil
    simp only [hfind0 rfl]
    rw [show ({ values := some [], dialogflow := none } : EntityType) = et from hetform]
  · simp only [hfind1 hnil]
    rw [wf_applyEntry_fold id T vs [] hwfv]
    simp only [Option.getD_some, List.nil_append]
    rw [show ({ values := some vs, dialogflow := none } : EntityType) = et from hetform]

lemma entity_pass_fold (locale : String) (etl : List (String × EntityType))
    (all : List NativeFile) (Ts0 : List String)
    (hwfE : ∀ T et, alGet etl T = some et →
      hasSubstr (T ++ ".json") "entries" = false ∧ et.dialogflow = none ∧
      ∃ vs, et.values = some vs ∧ ∀ v ∈ vs, wfValue v = true)
    (hfindall : ∀ T et vs, alGet etl T = some et → et.values = some vs →
      ((vs = [] → all.find? (fun f2 => f2.path.get? 1 =
          some (T ++ "_entries_" ++ locale ++ ".json")) = none) ∧
       (vs ≠ [] → T ∈ Ts0 → all.find? (fun f2 => f2.path.get? 1 =
          some (T ++ "_entries_" ++ locale ++ ".json")) =
          some ⟨["entities", T ++ "_entries_" ++ locale ++ ".json"],
            .arr (vs.map (entryFor false false))⟩))) :
    ∀ (Ts : List String) (fsl : List NativeFile), TypeBlocks locale etl Ts fsl →
      (∀ T ∈ Ts, T ∈ Ts0) →
      ∀ (m : JovoModelU), m.entityTypes.isSome →
      fsl.foldlM (processEntityFile all locale) m =
        .ok { m with entityTypes := some (Ts.foldl (fun acc T =>
          alSet acc T ((alGet etl T).getD {})) (m.entityTypes.getD [])) } := by
  intro Ts fsl hTBs
  induction hTBs with
  | nil =>
    intro _ m hm
    rw [List.foldlM_nil, List.foldl_nil]
    rw [show ({ m with entityTypes := some (m.entityTypes.getD []) } : JovoModelU) = m by
      obtain ⟨ver, inv, v3, ints, ets, dlg⟩ := m
      cases he : ets
      · rw [he] at hm; simp at hm
      · simp]
    rfl
  | cons T Ts B rest hB hrest ih =>
    intro hsub m hm
    obtain ⟨id, et, vs, hget, hvs, hBeq⟩ := TypeBlock_inv hB
    obtain ⟨hTen, hdlg, vs2, hvs2, hwfv2⟩ := hwfE T et hget
    rw [hvs] at hvs2
    cases hvs2
    have hfind := hfindall T et vs hget hvs
    have hstep : B.foldlM (processEntityFile all locale) m =
        .ok { m with entityTypes := some (alSet (m.entityTypes.getD []) T et) } := by
      rw [hBeq]
      by_cases hnil : vs = []
      · subst hnil
        rw [if_neg (by simp)]
        simp only [List.foldlM_cons, List.foldlM_nil]
        rw [process_etObjFile locale all m T id et [] hTen hvs hdlg hwfv2
          hfind.1 (fun hc => absurd rfl hc)]
        rfl
      · rw [if_pos (by simpa using hnil)]
        simp only [List.foldlM_cons, List.foldlM_nil]
        rw [process_etObjFile locale all m T id et vs hTen hvs hdlg hwfv2
          hfind.1 (fun _ => hfind.2 hnil (hsub T (List.mem_cons_self _ _)))]
        rw [except_ok_bind]
        rw [process_enFile_skip all locale _ T (vs.map (entryFor false false))]
        rfl
    rw [List.foldlM_append, hstep, except_ok_bind]
    rw [ih (fun T2 hT2 => hsub T2 (List.mem_cons_of_mem _ hT2))
      { m with entityTypes := some (alSet (m.entityTypes.getD []) T et) } (by rfl)]
    rw [List.foldl_cons]
    rw [show (alGet etl T).getD {} = et by rw [hget]; rfl]
    rfl

lemma alGet_foldl_pairs {β : Type} {α : Type} (g : β → α) :
    ∀ (l : List (String × β)) (acc : List (String × α)) (k : String) (i : β),
      (∀ kv ∈ l, kv.1 = k → kv.2 = i) →
      ((k, i) ∈ l ∨ alGet acc k = some (g i)) →
      alGet (l.foldl (fun acc kv => alSet acc kv.1 (g kv.2)) acc) k = some (g i) := by
  intro l
  induction l with
  | nil =>
    intro acc k i _ hd
    rcases hd with h | h
    · simp at h
    · simpa using h
  | cons kv t ih =>
    intro acc k i hcons hd
    rw [List.foldl_cons]
    by_cases hk : kv.1 = k
    · have hv : kv.2 = i := hcons kv (List.mem_cons_self _ _) hk
      apply ih _ k i (fun kv2 hkv2 => hcons kv2 (List.mem_cons_of_mem _ hkv2))
      right
      rw [alGet_alSet, hk, if_pos rfl, hv]
    · apply ih _ k i (fun kv2 hkv2 => hcons kv2 (List.mem_cons_of_mem _ hkv2))
      rcases hd with h | h
      · rcases List.mem_cons.mp h with h1 | h1
        · rw [← h1] at hk; simp at hk
        · exact Or.inl h1
      · right
        rw [alGet_alSet, if_neg hk]
        exact h

lemma alGet_foldl_keys {α : Type} (f : String → α) :
    ∀ (ks : List String) (acc : List (String × α)) (k : String),
      (k ∈ ks ∨ alGet acc k = some (f k)) →
      alGet (ks.foldl (fun acc T => alSet acc T (f T)) acc) k = some (f k) := by
  intro ks
  induction ks with
  | nil =>
    intro acc k hd
    rcases hd with h | h
    · simp at h
    · simpa using h
  | cons T t ih =>
    intro acc k hd
    rw [List.foldl_cons]
    by_cases hk : T = k
    · apply ih _ k
      right
      rw [alGet_alSet, if_pos hk, hk]
    · apply ih _ k
      rcases hd with h | h
      · rcases List.mem_cons.mp h with h1 | h1
        · exact absurd h1.symm hk
        · exact Or.inl h1
      · right
        rw [alGet_alSet, if_neg hk]
        exact h

lemma flatMap_congr_mem {α β : Type} {f g : α → List β} :
    ∀ (l : List α), (∀ a ∈ l, f a = g a) → l.flatMap f = l.flatMap g := by
  intro l
  induction l with
  | nil => intro _; rfl
  | cons a t ih =>
    intro h
    rw [List.flatMap_cons, List.flatMap_cons, h a (List.mem_cons_self _ _),
      ih (fun a2 ha2 => h a2 (List.mem_cons_of_mem _ ha2))]

lemma refTypeNamesOfIntent_eq {model : JovoModelU} {ints : List (String × Intent)}
    {etKeys : List String}
    (hmints : model.intents = some ints)
    (hnd : (ints.map Prod.fst).Nodup) :
    ∀ kv ∈ ints, wfIntent etKeys kv.1 kv.2 = true →
      refTypeNamesOfIntent model kv.1 =
        (entsOf kv.2).flatMap (fun e => (customTypeName e.2).toList) := by
  intro kv hkv hwf
  have hget : alGet ints kv.1 = some kv.2 := alGet_of_mem_nodup ints hnd kv hkv
  simp only [refTypeNamesOfIntent, JovoModelHelper.hasEntities, JovoModelHelper.getEntities,
    JovoModelHelper.getIntents, hmints, Option.getD_some, hget, Option.some_bind]
  cases hents : kv.2.entities with
  | none => simp [entsOf, hents]
  | some ents =>
    have hne : ents ≠ [] := by
      cases hp : kv.2.phrases with
      | none => simp only [wfIntent, hp, hents, Bool.and_eq_true] at hwf; exact absurd hwf.2 (by simp)
      | some phs =>
        simp only [wfIntent, hp, hents, Bool.and_eq_true, decide_eq_true_eq] at hwf
        exact hwf.2.1.1.1
    simp only [hents, entsOf, Option.getD_some]
    rw [if_pos (by simp only [decide_eq_true_eq]; exact hne)]

lemma refTypeNames_eq {model : JovoModelU} {ints : List (String × Intent)}
    {etKeys : List String}
    (hmints : model.intents = some ints)
    (hnd : (ints.map Prod.fst).Nodup)
    (hwfI : ∀ kv ∈ ints, wfIntent etKeys kv.1 kv.2 = true) :
    refTypeNames model =
      ints.flatMap (fun kv => (entsOf kv.2).flatMap (fun e => (customTypeName e.2).toList)) := by
  simp only [refTypeNames, JovoModelHelper.getIntents, hmints, Option.getD_some]
  exact flatMap_congr_mem ints
    (fun kv hkv => refTypeNamesOfIntent_eq hmints hnd kv hkv (hwfI kv hkv))

lemma wf_round_trip (model : JovoModelU) (locale : String) (gen : Nat → String)
    (hwf : wfModel model = true) :
    ∃ files m₃,
      fromJovoModel model locale gen = .ok (files, model) ∧
      toJovoModel files locale = .ok m₃ ∧
      (∀ kv ∈ model.intents.getD [],
        alGet (m₃.intents.getD []) kv.1 = some (importedIntent kv.2)) ∧
      (∀ kv ∈ model.entityTypes.getD [],
        alGet (m₃.entityTypes.getD []) kv.1 = some kv.2) := by
  obtain ⟨hdlg, ints, etl, hmints, hmets, hndI, hndE, hwfI, hwfE⟩ := wfModel_spec hwf
  obtain ⟨files, hexp, hBs⟩ := wf_fromJovoModel model locale gen ints etl hwf hmints hmets
  obtain ⟨hIBL, hTBs⟩ := Blocks_filter hBs
  set refs := ints.flatMap (fun kv => (entsOf kv.2).flatMap (fun e => (customTypeName e.2).toList)) with hrefsdef
  have hrefs_eq : refTypeNames model = refs := refTypeNames_eq hmints hndI hwfI
  have hwfk : ∀ kv ∈ ints, hasSubstr (kv.1 ++ ".json") "usersays" = false := by
    intro kv hkv
    have h := hwfI kv hkv
    simp only [wfIntent, Bool.and_eq_true, Bool.not_eq_true'] at h
    exact h.1.1
  have hentries_clear : ∀ T et, alGet etl T = some et →
      hasSubstr (T ++ ".json") "entries" = false := by
    intro T et hget
    have h := hwfE (T, et) (alGet_mem etl T et hget)
    simp only [wfEntityType, Bool.and_eq_true, Bool.not_eq_true'] at h
    exact h.1.1.1
  have hwfet := wfEntityType_hwfet hwfE
  have hwfE' : ∀ T et, alGet etl T = some et →
      hasSubstr (T ++ ".json") "entries" = false ∧ et.dialogflow = none ∧
      ∃ vs, et.values = some vs ∧ ∀ v ∈ vs, wfValue v = true :=
    fun T et hget => ⟨hentries_clear T et hget, (hwfet T et hget).1, (hwfet T et hget).2⟩
  have hIpass := intent_pass_fold locale (etl.map Prod.fst) (files.filter isIntentsFile)
    ints (files.filter isIntentsFile) hIBL hwfI (find_us hIBL hndI hwfk)
    ({ version := some "4.0", invocation := some "", isV3 := false, intents := some [], entityTypes := some [], dialogflow := none } : JovoModelU) (by rfl)
  have hEpass := entity_pass_fold locale etl (files.filter isEntitiesFile) refs hwfE'
    (find_entries hTBs hentries_clear) refs (files.filter isEntitiesFile) hTBs
    (fun T h => h)
    ({ ({ version := some "4.0", invocation := some "", isV3 := false, intents := some [], entityTypes := some [], dialogflow := none } : JovoModelU) with intents := some (ints.foldl (fun acc kv => alSet acc kv.1 (importedIntent kv.2)) (({ version := some "4.0", invocation := some "", isV3 := false, intents := some [], entityTypes := some [], dialogflow := none } : JovoModelU).intents.getD [])) } : JovoModelU) (by rfl)
  have himp : toJovoModel files locale =
      .ok { version := some "4.0", invocation := some "", isV3 := false, intents := some (ints.foldl (fun acc kv => alSet acc kv.1 (importedIntent kv.2)) []), entityTypes := some (refs.foldl (fun acc T => alSet acc T ((alGet etl T).getD {})) []), dialogflow := none } := by
    simp only [toJovoModel]
    simp only [hIpass]
    rw [hEpass]
    rfl
  refine ⟨files, _, hexp, himp, ?_, ?_⟩
  · intro kv hkv
    obtain ⟨k, i⟩ := kv
    simp only [hmints, Option.getD_some] at hkv
    have hcons : ∀ kv2 ∈ ints, kv2.1 = k → kv2.2 = i := by
      intro kv2 hkv2 hke
      have h1 := alGet_of_mem_nodup ints hndI kv2 hkv2
      have h2 : alGet ints k = some i := alGet_of_mem_nodup ints hndI (k, i) hkv
      rw [hke] at h1
      rw [h1] at h2
      injection h2
    exact alGet_foldl_pairs importedIntent ints [] k i hcons (Or.inl hkv)
  · intro kv hkv
    obtain ⟨T, et⟩ := kv
    simp only [hmets, Option.getD_some] at hkv
    have hg : alGet etl T = some et := alGet_of_mem_nodup etl hndE (T, et) hkv
    have hmemrefs : T ∈ refs := by
      have h := hwfE (T, et) hkv
      simp only [wfEntityType, Bool.and_eq_true, decide_eq_true_eq] at h
      exact hrefs_eq ▸ h.2
    have hres := alGet_foldl_keys (fun T2 => (alGet etl T2).getD {}) refs [] T (Or.inl hmemrefs)
    simp only [hg, Option.getD_some] at hres
    exact hres

/-- C1. Corrected round-trip stability. For every model in the well-formed
    hatch-free class `wfModel` — no vendor `dialogflow` fields anywhere,
    duplicate-free keys, phrases present, entities resolvable and covering
    every phrase placeholder, entity-type values clean under synonym
    sanitization and every declared type actually referenced — exporting and
    re-importing preserves every intent's phrases and entities and every
    entity type verbatim; but each re-imported intent carries the vendor
    sub-tree `{ webhookUsed := some true }`, forced by the exporter's
    hardcoded `webhookUsed: true` (against `DEFAULT_INTENT.webhookUsed =
    false`), so the original claim's "re-imports with no dialogflow sub-tree
    on the intent" is false (see the counterexample). -/
theorem C1_round_trip (model : JovoModelU) (locale : String) (gen : Nat → String)
    (hwf : wfModel model = true) :
    ∃ files m₃,
      fromJovoModel model locale gen = .ok (files, model) ∧
      toJovoModel files locale = .ok m₃ ∧
      (∀ kv ∈ model.intents.getD [],
        alGet (m₃.intents.getD []) kv.1 = some { phrases := kv.2.phrases, entities := kv.2.entities, dialogflow := some { webhookUsed := some true } }) ∧
      (∀ kv ∈ model.entityTypes.getD [],
        alGet (m₃.entityTypes.getD []) kv.1 = some kv.2) :=
  wf_round_trip model locale gen hwf

/-- A concrete well-formed model for the C1 witness: one intent with a
    placeholder phrase and one referenced custom entity type with clean
    synonyms. -/
def c1wModel : JovoModelU :=
  { version := some "4.0", invocation := some "", isV3 := false, intents := some [("A", { phrases := some ["play {e}"], entities := some [("e", { type := some (.str "T") })] })], entityTypes := some [("T", { values := some [.obj { value := some "x", synonyms := some ["ab"] }] })], dialogflow := none }

/-- Witness for C1 at the concrete model. -/
theorem C1_round_trip_witness :
    wfModel c1wModel = true ∧
    (∃ files m₃,
      fromJovoModel c1wModel "en" (fun _ => "u") = .ok (files, c1wModel) ∧
      toJovoModel files "en" = .ok m₃ ∧
      (∀ kv ∈ c1wModel.intents.getD [],
        alGet (m₃.intents.getD []) kv.1 = some { phrases := kv.2.phrases, entities := kv.2.entities, dialogflow := some { webhookUsed := some true } }) ∧
      (∀ kv ∈ c1wModel.entityTypes.getD [],
        alGet (m₃.entityTypes.getD []) kv.1 = some kv.2)) :=
  ⟨by decide, C1_round_trip c1wModel "en" (fun _ => "u") (by decide)⟩

/-- A model with every platform field at its default and no vendor hatch
    anywhere, for the C1 counterexample. -/
def c1xModel : JovoModelU :=
  { version := some "4.0", invocation := some "", isV3 := false, intents := some [("A", { phrases := some ["hi"] })], entityTypes := some [], dialogflow := none }

def c1xExport : Except String (List NativeFile × JovoModelU) :=
  fromJovoModel c1xModel "en" (fun _ => "u")

def c1xFiles : List NativeFile :=
  match c1xExport with
  | .ok fsm => fsm.1
  | .error _ => []

def c1xImport : Except String JovoModelU := toJovoModel c1xFiles "en"

def c1xPost : JovoModelU :=
  match c1xImport with
  | .ok m => m
  | .error _ => {}

/-- C1 counterexample: the model is hatch-free with all platform fields at
    documented defaults, export and re-import succeed, yet the re-imported
    intent carries the vendor sub-tree `dialogflow.webhookUsed = true` —
    the exporter hardcodes `webhookUsed: true` while `DEFAULT_INTENT` has
    `webhookUsed: false`, so `skipDefaultIntentProps` keeps it. -/
theorem C1_counterexample :
    c1xModel.dialogflow = none ∧
    (∀ kv ∈ c1xModel.intents.getD [], kv.2.dialogflow = none) ∧
    c1xExport = .ok (c1xFiles, c1xModel) ∧
    c1xImport = .ok c1xPost ∧
    alGet (c1xPost.intents.getD []) "A" =
      some { phrases := some ["hi"], entities := none, dialogflow := some { webhookUsed := some true } } := by
  decide
